import Mathlib

/-!
# Verification of the openai-chatgpt-max-proxy protocol machinery

This development shallowly embeds the request-shaping, dialect-conversion and
streaming components of the proxy (its Python sources) into Lean and proves
the specification's testable properties about them.

Conventions of the embedding:
* Python JSON-ish values are modelled by the inductive `Value`
  (`None`/`bool`/`int`/`float`/`str`/`list`/`dict`); Python floats are
  modelled as rationals (only comparisons and constant assignments occur,
  never rounding arithmetic).
* Python dicts are association lists with unique keys; insertion order is
  preserved by `aset` exactly as CPython preserves it.
* Functions that can raise in Python (AttributeError/TypeError paths) return
  `Except Unit`.
* `json.loads` / `json.dumps` are taken as parameters (`jloads`, `jdumps`)
  by the few converters that mention them; no property proved here depends
  on their behaviour, and every concrete evaluation below stays on code
  paths that never invoke them.
-/

/-- A Python/JSON value: `None`, `bool`, `int`, `float`, `str`, `list`, `dict`.
`vfloat` carries a rational. -/
inductive Value : Type where
  | vnull : Value
  | vbool : Bool → Value
  | vint : Int → Value
  | vfloat : ℚ → Value
  | vstr : String → Value
  | vlist : List Value → Value
  | vdict : List (String × Value) → Value

abbrev Dict := List (String × Value)

namespace Value

/-- Python truthiness (`bool(v)`). -/
def truthy : Value → Bool
  | .vnull => false
  | .vbool b => b
  | .vint n => n != 0
  | .vfloat q => q != 0
  | .vstr s => s != ""
  | .vlist l => !l.isEmpty
  | .vdict d => !d.isEmpty

/-- `isinstance(v, (int, float))` — Python `bool` is a subclass of `int`. -/
def isNumPy : Value → Bool
  | .vbool _ => true
  | .vint _ => true
  | .vfloat _ => true
  | _ => false

/-- `isinstance(v, int)` — includes `bool`, excludes `float`. -/
def isIntPy : Value → Bool
  | .vbool _ => true
  | .vint _ => true
  | _ => false

/-- Numeric value of a Python number (`True = 1`, `False = 0`). -/
def asNum : Value → Option ℚ
  | .vbool b => some (if b then 1 else 0)
  | .vint n => some (n : ℚ)
  | .vfloat q => some q
  | _ => none

/-- Python `v == (q : float)` for a numeric literal `q`: numbers compare by
value, any non-number compares unequal (no exception). -/
def numEq (v : Value) (q : ℚ) : Bool :=
  match v.asNum with
  | some x => x == q
  | none => false

def isNull : Value → Bool
  | .vnull => true
  | _ => false

def isEmptyStr : Value → Bool
  | .vstr s => s == ""
  | _ => false

end Value

/-- `d.get(k)` / `d[k]` lookup on a Python dict. -/
def aget (k : String) : Dict → Option Value
  | [] => none
  | (k', v) :: t => if k' = k then some v else aget k t

/-- `d[k] = v` on a Python dict: replaces in place if the key exists,
otherwise appends (CPython preserves insertion order). -/
def aset (k : String) (v : Value) : Dict → Dict
  | [] => [(k, v)]
  | (k', v') :: t => if k' = k then (k, v) :: t else (k', v') :: aset k v t

/-- `del d[k]` / `d.pop(k, None)`: removes the binding of `k` (keys are
unique in any dict a Python program builds, so removing every occurrence
coincides with removing the one binding). -/
def adel (k : String) : Dict → Dict
  | [] => []
  | (k', v') :: t => if k' = k then adel k t else (k', v') :: adel k t

theorem aget_adel_self (k : String) (d : Dict) : aget k (adel k d) = none := by
  induction d with
  | nil => rfl
  | cons p t ih =>
      obtain ⟨a, b⟩ := p
      by_cases hk : a = k <;> simp [adel, aget, hk, ih]

theorem aget_aset_self (k : String) (v : Value) (d : Dict) :
    aget k (aset k v d) = some v := by
  induction d with
  | nil => simp [aget, aset]
  | cons p t ih =>
      obtain ⟨a, b⟩ := p
      by_cases h : a = k <;> simp [aget, aset, h, ih]

theorem aget_aset_ne (k k' : String) (v : Value) (d : Dict) (h : k' ≠ k) :
    aget k' (aset k v d) = aget k' d := by
  induction d with
  | nil => simp [aget, aset, Ne.symm h]
  | cons p t ih =>
      obtain ⟨a, b⟩ := p
      by_cases hk : a = k
      · subst hk
        simp [aget, aset, Ne.symm h]
      · by_cases hk' : a = k' <;> simp [aget, aset, hk, hk', ih, h]

theorem adel_of_aget_none (k : String) (d : Dict) (h : aget k d = none) :
    adel k d = d := by
  induction d with
  | nil => rfl
  | cons p t ih =>
      obtain ⟨a, b⟩ := p
      by_cases hk : a = k
      · simp [aget, hk] at h
      · simp [aget, hk] at h
        simp [adel, hk, ih h]

theorem aget_adel_ne (k k' : String) (d : Dict) (h : k' ≠ k) :
    aget k' (adel k d) = aget k' d := by
  induction d with
  | nil => rfl
  | cons p t ih =>
      obtain ⟨a, b⟩ := p
      by_cases hk : a = k
      · subst hk
        simp [adel, aget, Ne.symm h, ih]
      · by_cases hk' : a = k' <;> simp [adel, aget, hk, hk', ih, h]

/-! ## Request sanitizer (`src/anthropic/request_sanitizer.py`) -/

/-- The `top_p` pass of `sanitize_anthropic_request`: drop `None`/`""`/
non-numeric values, then drop values outside `[0, 1]`. -/
def sanitize_top_p (s : Dict) : Dict :=
  match aget "top_p" s with
  | none => s
  | some v =>
      if v.isNull || v.isEmptyStr || !v.isNumPy then adel "top_p" s
      else if !(decide ((0 : ℚ) ≤ v.asNum.getD 0) && decide (v.asNum.getD 0 ≤ (1 : ℚ))) then
        adel "top_p" s
      else s

/-- The `temperature` pass: drop `None`/`""`/non-numeric values. -/
def sanitize_temperature (s : Dict) : Dict :=
  match aget "temperature" s with
  | none => s
  | some v =>
      if v.isNull || v.isEmptyStr || !v.isNumPy then adel "temperature" s
      else s

/-- The `top_k` pass: drop `None`/`""`/non-`int` values, then drop
non-positive values. -/
def sanitize_top_k (s : Dict) : Dict :=
  match aget "top_k" s with
  | none => s
  | some v =>
      if v.isNull || v.isEmptyStr || !v.isIntPy then adel "top_k" s
      else if decide (v.asNum.getD 0 ≤ (0 : ℚ)) then adel "top_k" s
      else s

/-- The `tools` pass: drop `null`, empty-list, and non-list values. -/
def sanitize_tools (s : Dict) : Dict :=
  match aget "tools" s with
  | none => s
  | some .vnull => adel "tools" s
  | some (.vlist []) => adel "tools" s
  | some (.vlist (_ :: _)) => s
  | some _ => adel "tools" s

/-- First thinking constraint: force `temperature = 1.0` when a non-`None`
temperature differs from `1.0`. -/
def force_temperature (s : Dict) : Dict :=
  match aget "temperature" s with
  | some v => if !v.isNull && !(v.numEq 1) then aset "temperature" (.vfloat 1) s else s
  | none => s

/-- Second thinking constraint: clamp a non-`None` `top_p` into
`[0.95, 1.0]` (comparing a non-numeric `top_p` raises `TypeError` in
Python, modelled by `Except.error`). -/
def clamp_top_p (s : Dict) : Except Unit Dict :=
  match aget "top_p" s with
  | some v =>
      if v.isNull then .ok s
      else
        match v.asNum with
        | some q =>
            if !(decide ((0.95 : ℚ) ≤ q) && decide (q ≤ (1 : ℚ))) then
              .ok (aset "top_p" (.vfloat (max 0.95 (min 1 q))) s)
            else .ok s
        | none => .error ()
  | none => .ok s

/-- Third thinking constraint: remove `top_k` when present. -/
def drop_top_k (s : Dict) : Dict :=
  if (aget "top_k" s).isSome then adel "top_k" s else s

/-- The thinking-enabled constraints of `sanitize_anthropic_request`, in
source order: temperature, `top_p`, `top_k`. -/
def apply_thinking_constraints (s : Dict) : Except Unit Dict :=
  match clamp_top_p (force_temperature s) with
  | .ok s2 => .ok (drop_top_k s2)
  | .error e => .error e

/-- Python `d.get("type") == "enabled"`: strings compare by value, any
other type (or a missing key) compares unequal. -/
def typeIsEnabled : Option Value → Bool
  | some (.vstr s) => s == "enabled"
  | _ => false

/-- The `thinking` pass: `None` (or absent) is popped; a truthy dict with
`type = "enabled"` triggers the thinking constraints; a truthy non-dict
raises `AttributeError` (`.get` on a non-dict), modelled by `Except.error`;
anything falsy is kept untouched. -/
def sanitize_thinking (s : Dict) : Except Unit Dict :=
  match aget "thinking" s with
  | none => .ok (adel "thinking" s)
  | some .vnull => .ok (adel "thinking" s)
  | some v =>
      if !v.truthy then .ok s
      else
        match v with
        | .vdict d =>
            if typeIsEnabled (aget "type" d) then
              apply_thinking_constraints s
            else .ok s
        | _ => .error ()

/-- `sanitize_anthropic_request` (src/anthropic/request_sanitizer.py): the
five passes in source order (`top_p`, `temperature`, `top_k`, `tools`,
`thinking`). -/
def sanitize_anthropic_request (r : Dict) : Except Unit Dict :=
  sanitize_thinking (sanitize_tools (sanitize_top_k (sanitize_temperature (sanitize_top_p r))))

/-! ### Idempotence of the sanitizer (claim C4) -/

/-- `v.asNum.getD 0` — the numeric value used in the sanitizer branches. -/
def numD (v : Value) : ℚ := v.asNum.getD 0

/-- Whether the sanitizer's thinking-enabled branch fires on this request. -/
def thinkingEnabledB (s : Dict) : Bool :=
  match aget "thinking" s with
  | some v =>
      v.truthy &&
        (match v with
          | .vdict d => typeIsEnabled (aget "type" d)
          | _ => false)
  | none => false

theorem aget_sanitize_top_p_ne (k : String) (s : Dict) (h : k ≠ "top_p") :
    aget k (sanitize_top_p s) = aget k s := by
  unfold sanitize_top_p
  split
  · rfl
  · split
    · exact aget_adel_ne _ _ _ h
    · split
      · exact aget_adel_ne _ _ _ h
      · rfl

theorem aget_sanitize_temperature_ne (k : String) (s : Dict) (h : k ≠ "temperature") :
    aget k (sanitize_temperature s) = aget k s := by
  unfold sanitize_temperature
  split
  · rfl
  · split
    · exact aget_adel_ne _ _ _ h
    · rfl

theorem aget_sanitize_top_k_ne (k : String) (s : Dict) (h : k ≠ "top_k") :
    aget k (sanitize_top_k s) = aget k s := by
  unfold sanitize_top_k
  split
  · rfl
  · split
    · exact aget_adel_ne _ _ _ h
    · split
      · exact aget_adel_ne _ _ _ h
      · rfl

theorem aget_sanitize_tools_ne (k : String) (s : Dict) (h : k ≠ "tools") :
    aget k (sanitize_tools s) = aget k s := by
  unfold sanitize_tools
  split
  · rfl
  · exact aget_adel_ne _ _ _ h
  · exact aget_adel_ne _ _ _ h
  · rfl
  · exact aget_adel_ne _ _ _ h

/-- Validity of `top_p` after the `top_p` pass. -/
theorem sanitize_top_p_valid (s : Dict) (v : Value)
    (h : aget "top_p" (sanitize_top_p s) = some v) :
    (v.isNull || v.isEmptyStr || !v.isNumPy) = false ∧
      (0 : ℚ) ≤ numD v ∧ numD v ≤ 1 := by
  unfold sanitize_top_p at h
  split at h
  · rename_i hnone
    rw [hnone] at h
    cases h
  · rename_i w hw
    split at h
    · rw [aget_adel_self] at h
      cases h
    · split at h
      · rw [aget_adel_self] at h
        cases h
      · rename_i h1 h2
        rw [hw] at h
        cases h
        refine ⟨by simpa using h1, ?_⟩
        have h2' : (decide ((0 : ℚ) ≤ v.asNum.getD 0) && decide (v.asNum.getD 0 ≤ (1 : ℚ))) = true := by
          rcases Bool.eq_false_or_eq_true
              (decide ((0 : ℚ) ≤ v.asNum.getD 0) && decide (v.asNum.getD 0 ≤ (1 : ℚ))) with hx | hx
          · exact hx
          · exact absurd (by simp [hx]) h2
        simp only [Bool.and_eq_true, decide_eq_true_eq] at h2'
        exact ⟨h2'.1, h2'.2⟩

/-- Validity of `temperature` after the `temperature` pass. -/
theorem sanitize_temperature_valid (s : Dict) (v : Value)
    (h : aget "temperature" (sanitize_temperature s) = some v) :
    (v.isNull || v.isEmptyStr || !v.isNumPy) = false := by
  unfold sanitize_temperature at h
  split at h
  · rename_i hnone
    rw [hnone] at h
    cases h
  · rename_i w hw
    split at h
    · rw [aget_adel_self] at h
      cases h
    · rename_i h1
      rw [hw] at h
      cases h
      simpa using h1

/-- Validity of `top_k` after the `top_k` pass. -/
theorem sanitize_top_k_valid (s : Dict) (v : Value)
    (h : aget "top_k" (sanitize_top_k s) = some v) :
    (v.isNull || v.isEmptyStr || !v.isIntPy) = false ∧ (0 : ℚ) < numD v := by
  unfold sanitize_top_k at h
  split at h
  · rename_i hnone
    rw [hnone] at h
    cases h
  · rename_i w hw
    split at h
    · rw [aget_adel_self] at h
      cases h
    · split at h
      · rw [aget_adel_self] at h
        cases h
      · rename_i h1 h2
        rw [hw] at h
        cases h
        refine ⟨by simpa using h1, ?_⟩
        simp only [decide_eq_true_eq] at h2
        exact lt_of_not_le (by simpa [numD] using h2)

/-- Validity of `tools` after the `tools` pass. -/
theorem sanitize_tools_valid (s : Dict) (v : Value)
    (h : aget "tools" (sanitize_tools s) = some v) :
    ∃ x xs, v = .vlist (x :: xs) := by
  unfold sanitize_tools at h
  split at h
  · rename_i hnone
    rw [hnone] at h
    cases h
  · rw [aget_adel_self] at h
    cases h
  · rw [aget_adel_self] at h
    cases h
  · rename_i x xs hw
    rw [hw] at h
    cases h
    exact ⟨x, xs, rfl⟩
  · rw [aget_adel_self] at h
    cases h

/-- `top_p` is absent or a number in `[0, 1]`. -/
def validTopP (s : Dict) : Prop :=
  ∀ v, aget "top_p" s = some v →
    (v.isNull || v.isEmptyStr || !v.isNumPy) = false ∧
      (0 : ℚ) ≤ v.asNum.getD 0 ∧ v.asNum.getD 0 ≤ 1

/-- `temperature` is absent or a Python number. -/
def validTemp (s : Dict) : Prop :=
  ∀ v, aget "temperature" s = some v → (v.isNull || v.isEmptyStr || !v.isNumPy) = false

/-- `top_k` is absent or a positive Python int. -/
def validTopK (s : Dict) : Prop :=
  ∀ v, aget "top_k" s = some v →
    (v.isNull || v.isEmptyStr || !v.isIntPy) = false ∧ (0 : ℚ) < v.asNum.getD 0

/-- `tools` is absent or a non-empty list. -/
def validTools (s : Dict) : Prop :=
  ∀ v, aget "tools" s = some v → ∃ x xs, v = .vlist (x :: xs)

theorem sanitize_top_p_noop (s : Dict) (h : validTopP s) : sanitize_top_p s = s := by
  unfold sanitize_top_p
  split
  · rfl
  · rename_i v hv
    obtain ⟨h1, h2, h3⟩ := h v hv
    rw [if_neg (by simp [h1]), if_neg (by simp [h2, h3])]

theorem sanitize_temperature_noop (s : Dict) (h : validTemp s) :
    sanitize_temperature s = s := by
  unfold sanitize_temperature
  split
  · rfl
  · rename_i v hv
    rw [if_neg (by simp [h v hv])]

theorem sanitize_top_k_noop (s : Dict) (h : validTopK s) : sanitize_top_k s = s := by
  unfold sanitize_top_k
  split
  · rfl
  · rename_i v hv
    obtain ⟨h1, h2⟩ := h v hv
    rw [if_neg (by simp [h1]), if_neg (by simp [not_le.mpr h2])]

theorem sanitize_tools_noop (s : Dict) (h : validTools s) : sanitize_tools s = s := by
  unfold sanitize_tools
  split
  · rfl
  · rename_i hv
    obtain ⟨x, xs, hx⟩ := h _ hv
    cases hx
  · rename_i hv
    obtain ⟨x, xs, hx⟩ := h _ hv
    cases hx
  · rfl
  · rename_i hne hv
    obtain ⟨x, xs, hx⟩ := h _ hv
    exact absurd hx (hne x xs)

theorem isNumPy_asNum (v : Value) (h : v.isNumPy = true) : ∃ q, v.asNum = some q := by
  cases v <;> simp_all [Value.isNumPy, Value.asNum]

theorem cond_false_of_isNumPy (v : Value) (h : v.isNumPy = true) :
    (v.isNull || v.isEmptyStr || !v.isNumPy) = false := by
  cases v <;> simp_all [Value.isNumPy, Value.isNull, Value.isEmptyStr]

theorem isNumPy_of_numEq (v : Value) (q : ℚ) (h : v.numEq q = true) : v.isNumPy = true := by
  cases v <;> simp_all [Value.numEq, Value.asNum, Value.isNumPy]

theorem isNull_false_of_isNumPy (v : Value) (h : v.isNumPy = true) : v.isNull = false := by
  cases v <;> simp_all [Value.isNumPy, Value.isNull]

theorem aget_force_temperature_ne (k : String) (s : Dict) (h : k ≠ "temperature") :
    aget k (force_temperature s) = aget k s := by
  unfold force_temperature
  split
  · split
    · exact aget_aset_ne _ _ _ _ h
    · rfl
  · rfl

theorem aget_clamp_top_p_ne (k : String) (s s2 : Dict) (h : k ≠ "top_p")
    (hc : clamp_top_p s = .ok s2) : aget k s2 = aget k s := by
  unfold clamp_top_p at hc
  split at hc
  · split at hc
    · injection hc with hh
      subst hh
      rfl
    · split at hc
      · split at hc
        · injection hc with hh
          subst hh
          exact aget_aset_ne _ _ _ _ h
        · injection hc with hh
          subst hh
          rfl
      · exact Except.noConfusion hc
  · injection hc with hh
    subst hh
    rfl

theorem aget_drop_top_k_ne (k : String) (s : Dict) (h : k ≠ "top_k") :
    aget k (drop_top_k s) = aget k s := by
  unfold drop_top_k
  split
  · exact aget_adel_ne _ _ _ h
  · rfl

theorem atc_ok_preserve (k : String) (s s2 : Dict)
    (h1 : k ≠ "temperature") (h2 : k ≠ "top_p") (h3 : k ≠ "top_k")
    (h : apply_thinking_constraints s = .ok s2) : aget k s2 = aget k s := by
  unfold apply_thinking_constraints at h
  split at h
  · rename_i sc hc
    injection h with hh
    subst hh
    rw [aget_drop_top_k_ne _ _ h3, aget_clamp_top_p_ne _ _ _ h2 hc,
      aget_force_temperature_ne _ _ h1]
  · exact Except.noConfusion h

theorem atc_ok_top_k (s s2 : Dict) (h : apply_thinking_constraints s = .ok s2) :
    aget "top_k" s2 = none := by
  unfold apply_thinking_constraints at h
  split at h
  · injection h with hh
    subst hh
    unfold drop_top_k
    split
    · exact aget_adel_self _ _
    · rename_i hk
      simpa using hk
  · exact Except.noConfusion h

theorem atc_ok_temperature (s s2 : Dict) (hs : validTemp s)
    (h : apply_thinking_constraints s = .ok s2) :
    ∀ v, aget "temperature" s2 = some v → v.numEq 1 = true := by
  intro v hv
  unfold apply_thinking_constraints at h
  split at h
  · rename_i sc hc
    injection h with hh
    subst hh
    rw [aget_drop_top_k_ne _ _ (by decide), aget_clamp_top_p_ne _ _ _ (by decide) hc] at hv
    revert hv
    unfold force_temperature
    split
    · rename_i w hw
      split
      · rw [aget_aset_self]
        intro hv
        cases hv
        rfl
      · rename_i hcond
        rw [hw]
        intro hv
        cases hv
        have hnum := hs v hw
        have : v.isNull = false := by
          cases v <;> simp_all [Value.isNull]
        simp only [this, Bool.not_false, Bool.true_and, Bool.not_eq_true,
          Bool.not_eq_false] at hcond
        simpa using hcond
    · rename_i hw
      rw [hw]
      intro hv
      cases hv
  · exact Except.noConfusion h

theorem clamp_top_p_ok_field (t sc : Dict) (hsf : validTopP t)
    (hc : clamp_top_p t = .ok sc) :
    ∀ v, aget "top_p" sc = some v →
      v.isNumPy = true ∧ (0.95 : ℚ) ≤ v.asNum.getD 0 ∧ v.asNum.getD 0 ≤ 1 := by
  intro v hv
  unfold clamp_top_p at hc
  split at hc
  · rename_i w hw
    split at hc
    · rename_i hnull
      obtain ⟨hw1, _, _⟩ := hsf w hw
      simp [hnull] at hw1
    · split at hc
      · rename_i q hq
        split at hc
        · injection hc with hh
          subst hh
          rw [aget_aset_self] at hv
          cases hv
          refine ⟨rfl, ?_, ?_⟩
          · simp only [Value.asNum, Option.getD_some]
            exact le_max_left (0.95 : ℚ) (min 1 q)
          · simp only [Value.asNum, Option.getD_some]
            exact max_le (by norm_num) (min_le_left (1 : ℚ) q)
        · rename_i hrange
          injection hc with hh
          subst hh
          have hvw : v = w := by
            have := hv.symm.trans hw
            exact (Option.some.injEq _ _ ▸ this).symm ▸ rfl
          subst hvw
          obtain ⟨hw1, _, _⟩ := hsf v hv
          have hnum : v.isNumPy = true := by
            revert hw1
            cases v <;> simp [Value.isNull, Value.isEmptyStr, Value.isNumPy]
          have hdec : (decide ((0.95 : ℚ) ≤ q) && decide (q ≤ (1 : ℚ))) = true := by
            rcases Bool.eq_false_or_eq_true
                (decide ((0.95 : ℚ) ≤ q) && decide (q ≤ (1 : ℚ))) with hx | hx
            · exact hx
            · exact absurd (by simp [hx]) hrange
          simp only [Bool.and_eq_true, decide_eq_true_eq] at hdec
          exact ⟨hnum, by rw [hq]; simpa using hdec.1, by rw [hq]; simpa using hdec.2⟩
      · exact Except.noConfusion hc
  · rename_i hw
    injection hc with hh
    subst hh
    rw [hw] at hv
    cases hv

theorem atc_ok_top_p (s s2 : Dict) (hs : validTopP s)
    (h : apply_thinking_constraints s = .ok s2) :
    ∀ v, aget "top_p" s2 = some v →
      v.isNumPy = true ∧ (0.95 : ℚ) ≤ v.asNum.getD 0 ∧ v.asNum.getD 0 ≤ 1 := by
  intro v hv
  unfold apply_thinking_constraints at h
  split at h
  · rename_i sc hc
    injection h with hh
    subst hh
    rw [aget_drop_top_k_ne _ _ (by decide)] at hv
    have hsf : validTopP (force_temperature s) := by
      intro w hw
      exact hs w (by rw [← aget_force_temperature_ne _ _ (by decide)]; exact hw)
    exact clamp_top_p_ok_field _ _ hsf hc v hv
  · exact Except.noConfusion h

theorem atc_noop (s : Dict)
    (htemp : ∀ v, aget "temperature" s = some v → v.numEq 1 = true)
    (htopp : ∀ v, aget "top_p" s = some v →
      v.isNumPy = true ∧ (0.95 : ℚ) ≤ v.asNum.getD 0 ∧ v.asNum.getD 0 ≤ 1)
    (htopk : aget "top_k" s = none) :
    apply_thinking_constraints s = .ok s := by
  have hft : force_temperature s = s := by
    unfold force_temperature
    split
    · rename_i v hv
      rw [if_neg (by simp [htemp v hv])]
    · rfl
  have hcl : clamp_top_p s = .ok s := by
    unfold clamp_top_p
    split
    · rename_i v hv
      obtain ⟨h1, h2, h3⟩ := htopp v hv
      rw [if_neg (by simp [isNull_false_of_isNumPy v h1])]
      obtain ⟨q, hq⟩ := isNumPy_asNum v h1
      rw [hq] at h2 h3
      simp only [Option.getD_some] at h2 h3
      rw [hq]
      split
      · rename_i q' hq'
        injection hq' with hqq
        subst hqq
        rw [if_neg (by simp [h2, h3])]
      · rename_i hq'
        exact Option.noConfusion hq'
    · rfl
  have hdk : drop_top_k s = s := by
    unfold drop_top_k
    rw [if_neg (by simp [htopk])]
  unfold apply_thinking_constraints
  rw [hft, hcl]
  show Except.ok (drop_top_k s) = Except.ok s
  rw [hdk]

/--
Claim C4 (confirmed): `sanitize_anthropic_request` is idempotent — whenever
a request sanitizes without raising, sanitizing the result again returns it
unchanged: `sanitize(sanitize(x)) = sanitize(x)`.
-/
theorem sanitize_anthropic_request_idempotent (r r' : Dict)
    (h : sanitize_anthropic_request r = .ok r') :
    sanitize_anthropic_request r' = .ok r' := by
  unfold sanitize_anthropic_request at h
  set s4 := sanitize_tools (sanitize_top_k (sanitize_temperature (sanitize_top_p r)))
    with hs4
  -- validity of the four scalar fields after the four unconditional passes
  have hvp4 : validTopP s4 := by
    intro v hv
    rw [hs4, aget_sanitize_tools_ne _ _ (by decide), aget_sanitize_top_k_ne _ _ (by decide),
      aget_sanitize_temperature_ne _ _ (by decide)] at hv
    exact sanitize_top_p_valid _ _ hv
  have hvt4 : validTemp s4 := by
    intro v hv
    rw [hs4, aget_sanitize_tools_ne _ _ (by decide),
      aget_sanitize_top_k_ne _ _ (by decide)] at hv
    exact sanitize_temperature_valid _ _ hv
  have hvk4 : validTopK s4 := by
    intro v hv
    rw [hs4, aget_sanitize_tools_ne _ _ (by decide)] at hv
    exact sanitize_top_k_valid _ _ hv
  have hvtools4 : validTools s4 := by
    intro v hv
    exact sanitize_tools_valid _ _ hv
  -- dispatch on the thinking pass
  clear_value s4
  clear hs4
  unfold sanitize_thinking at h
  -- facts we will establish about r'
  suffices hsuff :
      validTopP r' ∧ validTemp r' ∧ validTopK r' ∧ validTools r' ∧
      (aget "thinking" r' = none ∨
        (∃ v, aget "thinking" r' = some v ∧ v.truthy = false ∧ v ≠ .vnull) ∨
        (∃ d, aget "thinking" r' = some (.vdict d) ∧ (Value.vdict d).truthy = true ∧
          typeIsEnabled (aget "type" d) = false) ∨
        (∃ d, aget "thinking" r' = some (.vdict d) ∧ (Value.vdict d).truthy = true ∧
          typeIsEnabled (aget "type" d) = true ∧
          (∀ v, aget "temperature" r' = some v → v.numEq 1 = true) ∧
          (∀ v, aget "top_p" r' = some v →
            v.isNumPy = true ∧ (0.95 : ℚ) ≤ v.asNum.getD 0 ∧ v.asNum.getD 0 ≤ 1) ∧
          aget "top_k" r' = none)) by
    obtain ⟨hp, ht, hk, htl, hth⟩ := hsuff
    unfold sanitize_anthropic_request
    rw [sanitize_top_p_noop _ hp, sanitize_temperature_noop _ ht,
      sanitize_top_k_noop _ hk, sanitize_tools_noop _ htl]
    unfold sanitize_thinking
    rcases hth with hnone | ⟨v, hv, hfalsy, hvn⟩ | ⟨d, hd, htr, hen⟩ |
        ⟨d, hd, htr, hen, htemp', htopp', htopk'⟩
    · rw [hnone]
      rw [adel_of_aget_none _ _ hnone]
    · rw [hv]
      cases v with
      | vnull => exact absurd rfl hvn
      | vbool b => simp [hfalsy]
      | vint n => simp [hfalsy]
      | vfloat q => simp [hfalsy]
      | vstr st => simp [hfalsy]
      | vlist l => simp [hfalsy]
      | vdict dd => simp [hfalsy]
    · rw [hd]
      simp only [htr, Bool.not_true, Bool.false_eq_true, if_false]
      rw [if_neg (by simp [hen])]
    · rw [hd]
      simp only [htr, Bool.not_true, Bool.false_eq_true, if_false]
      rw [if_pos (by simp [hen])]
      exact atc_noop _ htemp' htopp' htopk'
  -- now the forward analysis of the thinking pass on `s4`
  split at h
  · rename_i hnone
    injection h with hh
    subst hh
    rw [adel_of_aget_none _ _ hnone]
    refine ⟨hvp4, hvt4, hvk4, hvtools4, Or.inl hnone⟩
  · rename_i hnull
    injection h with hh
    subst hh
    refine ⟨?_, ?_, ?_, ?_, Or.inl (aget_adel_self _ _)⟩
    · intro v hv
      rw [aget_adel_ne _ _ _ (by decide)] at hv
      exact hvp4 v hv
    · intro v hv
      rw [aget_adel_ne _ _ _ (by decide)] at hv
      exact hvt4 v hv
    · intro v hv
      rw [aget_adel_ne _ _ _ (by decide)] at hv
      exact hvk4 v hv
    · intro v hv
      rw [aget_adel_ne _ _ _ (by decide)] at hv
      exact hvtools4 v hv
  · rename_i v hne hvget
    split at h
    · rename_i hfalsy
      injection h with hh
      subst hh
      refine ⟨hvp4, hvt4, hvk4, hvtools4, Or.inr (Or.inl ⟨v, hvget, ?_, hne⟩)⟩
      simpa using hfalsy
    · rename_i htruthy
      split at h
      · rename_i d
        split at h
        · rename_i hen
          -- enabled: h : apply_thinking_constraints s4 = .ok r'
          have hthink : aget "thinking" r' = some (.vdict d) := by
            rw [atc_ok_preserve _ _ _ (by decide) (by decide) (by decide) h]
            exact hvget
          have htr : (Value.vdict d).truthy = true := by
            rcases Bool.eq_false_or_eq_true (Value.vdict d).truthy with hx | hx
            · exact hx
            · exact absurd (by simp [hx]) htruthy
          refine ⟨?_, ?_, ?_, ?_, Or.inr (Or.inr (Or.inr
            ⟨d, hthink, htr, hen, atc_ok_temperature _ _ hvt4 h,
              atc_ok_top_p _ _ hvp4 h, atc_ok_top_k _ _ h⟩))⟩
          · intro w hw
            obtain ⟨h1, h2, h3⟩ := atc_ok_top_p _ _ hvp4 h w hw
            exact ⟨cond_false_of_isNumPy _ h1, le_trans (by norm_num) h2, h3⟩
          · intro w hw
            have := atc_ok_temperature _ _ hvt4 h w hw
            exact cond_false_of_isNumPy _ (isNumPy_of_numEq _ _ this)
          · intro w hw
            rw [atc_ok_top_k _ _ h] at hw
            cases hw
          · intro w hw
            rw [atc_ok_preserve _ _ _ (by decide) (by decide) (by decide) h] at hw
            exact hvtools4 w hw
        · rename_i hen
          injection h with hh
          subst hh
          refine ⟨hvp4, hvt4, hvk4, hvtools4, Or.inr (Or.inr (Or.inl
            ⟨d, hvget, ?_, by simpa using hen⟩))⟩
          rcases Bool.eq_false_or_eq_true (Value.vdict d).truthy with hx | hx
          · exact hx
          · exact absurd (by simp [hx]) htruthy
      · exact Except.noConfusion h

/-- Witness for C4: a request with an out-of-range `top_p`, a string
temperature and thinking enabled sanitizes to its thinking-only core, and
sanitizing that result again returns it unchanged. -/
theorem sanitize_anthropic_request_idempotent_witness :
    sanitize_anthropic_request [("thinking", Value.vdict [("type", Value.vstr "enabled")])] =
      .ok [("thinking", Value.vdict [("type", Value.vstr "enabled")])] :=
  sanitize_anthropic_request_idempotent
    [("top_p", Value.vfloat 2), ("temperature", Value.vstr "x"), ("top_k", Value.vint 3),
      ("thinking", Value.vdict [("type", Value.vstr "enabled")])]
    [("thinking", Value.vdict [("type", Value.vstr "enabled")])]
    (by rfl)

/-! ## Prompt caching (`src/anthropic/prompt_caching.py`) -/

/-- The `cache_control: ephemeral` marker value. -/
def cc_ephemeral : Value := .vdict [("type", .vstr "ephemeral")]

/-- Whether a content block is a dict carrying a `cache_control` key. -/
def isMarkedBlock : Value → Bool
  | .vdict d => (aget "cache_control" d).isSome
  | _ => false

/-- Number of marked blocks in a list (`tools`, `system`, or a message's
`content`). -/
def countList (l : List Value) : ℕ := l.countP isMarkedBlock

/-- Markers contributed by one message: blocks of a list-valued `content`. -/
def countMsg (m : Dict) : ℕ :=
  match aget "content" m with
  | some (.vlist l) => countList l
  | _ => 0

/-- Markers contributed by a `messages` list.  Python iterates the list and
calls `.get` on each element, so a non-dict element raises
(`AttributeError`), modelled by `Except.error`. -/
def countMsgsL : List Value → Except Unit ℕ
  | [] => .ok 0
  | .vdict m :: rest => do
      let n ← countMsgsL rest
      .ok (countMsg m + n)
  | _ :: _ => .error ()

/-- Markers contributed by the `tools` entry (only counted for a list). -/
def countTools (r : Dict) : ℕ :=
  match aget "tools" r with
  | some (.vlist l) => countList l
  | _ => 0

/-- Markers contributed by the `system` entry (only counted for a list). -/
def countSystem (r : Dict) : ℕ :=
  match aget "system" r with
  | some (.vlist l) => countList l
  | _ => 0

/-- `count_existing_cache_controls`: markers across tools, system blocks and
message content blocks.  Iterating a present non-list `messages` value (or a
list with non-dict elements) raises in Python, modelled by `Except.error`. -/
def count_existing_cache_controls (r : Dict) : Except Unit ℕ :=
  match aget "messages" r with
  | none => .ok (countTools r + countSystem r)
  | some (.vlist msgs) => do
      let n ← countMsgsL msgs
      .ok (countTools r + countSystem r + n)
  | some _ => .error ()

/-- Mark the last block of a list for caching when it is a dict that is not
yet marked (the shape shared by the tools, system and messages branches of
`add_prompt_caching`); `none` when nothing is added. -/
def mark_last_block (l : List Value) : Option (List Value) :=
  match l.getLast? with
  | some (.vdict d) =>
      if (aget "cache_control" d).isSome then none
      else some (l.dropLast ++ [.vdict (aset "cache_control" cc_ephemeral d)])
  | _ => none

/-- The tools phase of `add_prompt_caching`: mark the last tool when slots
remain. -/
def cache_tools_phase (r : Dict) (slots : ℕ) : Dict × ℕ :=
  if (aget "tools" r).isSome ∧ 0 < slots then
    match aget "tools" r with
    | some (.vlist l) =>
        if l.isEmpty then (r, slots)
        else
          match mark_last_block l with
          | some l' => (aset "tools" (.vlist l') r, slots - 1)
          | none => (r, slots)
    | _ => (r, slots)
  else (r, slots)

/-- A `{type: text, text: s, cache_control: ephemeral}` block (the dict the
source builds when converting a string `system`/`content` to a list). -/
def textBlockCC (s : String) : Value :=
  .vdict [("type", .vstr "text"), ("text", .vstr s), ("cache_control", cc_ephemeral)]

/-- The system phase of `add_prompt_caching`: mark the last system block, or
convert a string system into a single marked text block. -/
def cache_system_phase (r : Dict) (slots : ℕ) : Dict × ℕ :=
  if (aget "system" r).isSome ∧ 0 < slots then
    match aget "system" r with
    | some (.vlist l) =>
        if l.isEmpty then (r, slots)
        else
          match mark_last_block l with
          | some l' => (aset "system" (.vlist l') r, slots - 1)
          | none => (r, slots)
    | some (.vstr s) => (aset "system" (.vlist [textBlockCC s]) r, slots - 1)
    | _ => (r, slots)
  else (r, slots)

/-- One iteration of the messages loop: mark the last content block of the
message at `idx` (or convert a string content into a marked text block). The
index always points at a dict message because it came from the role scan. -/
def cache_one_message (msgs : List Value) (idx : ℕ) (slots : ℕ) : List Value × ℕ :=
  match msgs.get? idx with
  | some (.vdict m) =>
      (match aget "content" m with
        | some (.vlist l) =>
            if l.isEmpty then (msgs, slots)
            else
              match mark_last_block l with
              | some l' => (msgs.set idx (.vdict (aset "content" (.vlist l') m)), slots - 1)
              | none => (msgs, slots)
        | some (.vstr s) =>
            (msgs.set idx (.vdict (aset "content" (.vlist [textBlockCC s]) m)), slots - 1)
        | _ => (msgs, slots))
  | _ => (msgs, slots)

/-- The `for idx in cache_indices` loop with its `break` on exhausted
slots. -/
def cache_messages_loop : List ℕ → List Value → ℕ → List Value × ℕ
  | [], msgs, slots => (msgs, slots)
  | idx :: rest, msgs, slots =>
      if slots ≤ 0 then (msgs, slots)
      else
        cache_messages_loop rest (cache_one_message msgs idx slots).1
          (cache_one_message msgs idx slots).2

/-- Indices of the messages whose `role` equals `"user"` (Python raises on a
non-dict message via `.get`). -/
def userIndicesFrom (start : ℕ) : List Value → Except Unit (List ℕ)
  | [] => .ok []
  | .vdict m :: rest => do
      let is ← userIndicesFrom (start + 1) rest
      match aget "role" m with
      | some (.vstr s) => if s == "user" then .ok (start :: is) else .ok is
      | _ => .ok is
  | _ :: _ => .error ()

/-- The messages phase of `add_prompt_caching`: cache the last content block
of (up to) the last two user messages. -/
def cache_messages_phase (r : Dict) (slots : ℕ) : Except Unit Dict :=
  if (aget "messages" r).isSome ∧ 0 < slots then
    match aget "messages" r with
    | some (.vlist msgs) => do
        let idxs ← userIndicesFrom 0 msgs
        let num := min 2 (min idxs.length slots)
        let cacheIdxs := if 0 < num then idxs.drop (idxs.length - num) else []
        .ok (aset "messages" (.vlist (cache_messages_loop cacheIdxs msgs slots).1) r)
    | some _ => .error ()
    | none => .ok r
  else .ok r

/-- `add_prompt_caching`: skip when 4 or more markers already exist, else
add markers — tools, then system, then the last two user messages — while
slots out of `4 - existing` remain. -/
def add_prompt_caching (r : Dict) : Except Unit Dict := do
  let existing ← count_existing_cache_controls r
  if 4 ≤ existing then .ok r
  else
    cache_messages_phase
      (cache_system_phase (cache_tools_phase r (4 - existing)).1
        (cache_tools_phase r (4 - existing)).2).1
      (cache_system_phase (cache_tools_phase r (4 - existing)).1
        (cache_tools_phase r (4 - existing)).2).2

theorem eq_dropLast_append_of_getLast? (l : List Value) (x : Value)
    (h : l.getLast? = some x) : l = l.dropLast ++ [x] := by
  induction l with
  | nil => cases h
  | cons a t ih =>
      cases t with
      | nil =>
          simp [List.getLast?] at h
          subst h
          rfl
      | cons b t' =>
          rw [List.getLast?_cons_cons] at h
          have := ih h
          calc a :: b :: t' = a :: (b :: t') := rfl
            _ = a :: ((b :: t').dropLast ++ [x]) := by rw [← this]
            _ = (a :: b :: t').dropLast ++ [x] := by simp [List.dropLast]

theorem countList_mark_last (l l' : List Value) (h : mark_last_block l = some l') :
    countList l' = countList l + 1 := by
  unfold mark_last_block at h
  split at h
  · rename_i d hd
    split at h
    · cases h
    · rename_i hcc
      injection h with hh
      subst hh
      have hl := eq_dropLast_append_of_getLast? l _ hd
      calc countList (l.dropLast ++ [Value.vdict (aset "cache_control" cc_ephemeral d)])
          = countList l.dropLast + countList [Value.vdict (aset "cache_control" cc_ephemeral d)] := by
            simp [countList, List.countP_append]
        _ = countList l.dropLast + 1 := by
            simp [countList, List.countP, List.countP.go, isMarkedBlock, aget_aset_self]
        _ = countList l.dropLast + countList [Value.vdict d] + 1 := by
            have hcc' : (aget "cache_control" d).isSome = false := by
              rcases Bool.eq_false_or_eq_true (aget "cache_control" d).isSome with hx | hx
              · exact absurd hx hcc
              · exact hx
            simp [countList, List.countP, List.countP.go, isMarkedBlock, hcc']
        _ = countList l + 1 := by
            conv_rhs => rw [hl]
            simp [countList, List.countP_append]
  · cases h

theorem cache_tools_phase_spec (r : Dict) (slots : ℕ) :
    countTools (cache_tools_phase r slots).1 + (cache_tools_phase r slots).2 =
        countTools r + slots ∧
      (cache_tools_phase r slots).2 ≤ slots ∧
      (∀ k, k ≠ "tools" → aget k (cache_tools_phase r slots).1 = aget k r) := by
  unfold cache_tools_phase
  split
  · rename_i hcond
    split
    · rename_i l hl
      split
      · exact ⟨rfl, le_refl _, fun k hk => rfl⟩
      · split
        · rename_i l' hml
          refine ⟨?_, Nat.sub_le _ _, fun k hk => aget_aset_ne _ _ _ _ hk⟩
          have hc : countTools (aset "tools" (.vlist l') r) = countList l' := by
            unfold countTools
            rw [aget_aset_self]
          have hr : countTools r = countList l := by
            unfold countTools
            rw [hl]
          rw [hc, countList_mark_last _ _ hml, hr]
          omega
        · exact ⟨rfl, le_refl _, fun k hk => rfl⟩
    · exact ⟨rfl, le_refl _, fun k hk => rfl⟩
  · exact ⟨rfl, le_refl _, fun k hk => rfl⟩

theorem cache_system_phase_spec (r : Dict) (slots : ℕ) :
    countSystem (cache_system_phase r slots).1 + (cache_system_phase r slots).2 =
        countSystem r + slots ∧
      (cache_system_phase r slots).2 ≤ slots ∧
      (∀ k, k ≠ "system" → aget k (cache_system_phase r slots).1 = aget k r) := by
  unfold cache_system_phase
  split
  · rename_i hcond
    split
    · rename_i l hl
      split
      · exact ⟨rfl, le_refl _, fun k hk => rfl⟩
      · split
        · rename_i l' hml
          refine ⟨?_, Nat.sub_le _ _, fun k hk => aget_aset_ne _ _ _ _ hk⟩
          have hc : countSystem (aset "system" (.vlist l') r) = countList l' := by
            unfold countSystem
            rw [aget_aset_self]
          have hr : countSystem r = countList l := by
            unfold countSystem
            rw [hl]
          rw [hc, countList_mark_last _ _ hml, hr]
          omega
        · exact ⟨rfl, le_refl _, fun k hk => rfl⟩
    · rename_i s hl
      refine ⟨?_, Nat.sub_le _ _, fun k hk => aget_aset_ne _ _ _ _ hk⟩
      have hc : countSystem (aset "system" (.vlist [textBlockCC s]) r) =
          countList [textBlockCC s] := by
        unfold countSystem
        rw [aget_aset_self]
      have hr : countSystem r = 0 := by
        unfold countSystem
        rw [hl]
      have h1 : countList [textBlockCC s] = 1 := by
        simp [countList, List.countP, List.countP.go, isMarkedBlock, textBlockCC, aget]
      rw [hc, h1, hr]
      omega
    · exact ⟨rfl, le_refl _, fun k hk => rfl⟩
  · exact ⟨rfl, le_refl _, fun k hk => rfl⟩

theorem countTools_congr (a b : Dict) (h : aget "tools" a = aget "tools" b) :
    countTools a = countTools b := by
  unfold countTools
  rw [h]

theorem countSystem_congr (a b : Dict) (h : aget "system" a = aget "system" b) :
    countSystem a = countSystem b := by
  unfold countSystem
  rw [h]

theorem countMsgsL_set_succ (msgs : List Value) (n idx : ℕ) (m m' : Dict)
    (h1 : countMsgsL msgs = .ok n) (h2 : msgs.get? idx = some (.vdict m))
    (h3 : countMsg m' = countMsg m + 1) :
    countMsgsL (msgs.set idx (.vdict m')) = .ok (n + 1) := by
  induction msgs generalizing idx n with
  | nil => cases h2
  | cons hd rest ih =>
      cases hd with
      | vdict m0 =>
          cases hr : countMsgsL rest with
          | ok nr =>
              have hn : n = countMsg m0 + nr := by
                unfold countMsgsL at h1
                rw [hr] at h1
                simp only [bind, Except.bind] at h1
                injection h1 with hh
                omega
              cases idx with
              | zero =>
                  injection h2 with h2'
                  injection h2' with h2''
                  subst h2''
                  show countMsgsL (.vdict m' :: rest) = .ok (n + 1)
                  unfold countMsgsL
                  rw [hr]
                  simp only [bind, Except.bind]
                  rw [h3, hn]
                  congr 1
                  omega
              | succ i =>
                  have h2r : rest.get? i = some (.vdict m) := h2
                  have := ih nr i hr h2r
                  show countMsgsL (.vdict m0 :: rest.set i (.vdict m')) = .ok (n + 1)
                  unfold countMsgsL
                  rw [this]
                  simp only [bind, Except.bind]
                  rw [hn]
                  exact congrArg Except.ok (by omega)
          | error e =>
              unfold countMsgsL at h1
              rw [hr] at h1
              simp only [bind, Except.bind] at h1
              exact Except.noConfusion h1
      | vnull => exact Except.noConfusion h1
      | vbool b => exact Except.noConfusion h1
      | vint i => exact Except.noConfusion h1
      | vfloat q => exact Except.noConfusion h1
      | vstr s => exact Except.noConfusion h1
      | vlist l => exact Except.noConfusion h1

theorem cache_one_message_spec (msgs : List Value) (idx slots n : ℕ)
    (hs : 0 < slots) (h1 : countMsgsL msgs = .ok n) :
    ∃ n', countMsgsL (cache_one_message msgs idx slots).1 = .ok n' ∧
      n' + (cache_one_message msgs idx slots).2 = n + slots ∧
      (cache_one_message msgs idx slots).2 ≤ slots := by
  unfold cache_one_message
  split
  · rename_i m hm
    split
    · rename_i l hl
      split
      · exact ⟨n, h1, rfl, le_refl _⟩
      · split
        · rename_i l' hml
          refine ⟨n + 1, ?_, by omega, Nat.sub_le _ _⟩
          refine countMsgsL_set_succ msgs n idx m _ h1 hm ?_
          unfold countMsg
          rw [aget_aset_self, hl]
          show countList l' = countList l + 1
          exact countList_mark_last _ _ hml
        · exact ⟨n, h1, rfl, le_refl _⟩
    · rename_i str hl
      refine ⟨n + 1, ?_, by omega, Nat.sub_le _ _⟩
      refine countMsgsL_set_succ msgs n idx m _ h1 hm ?_
      unfold countMsg
      rw [aget_aset_self, hl]
      show countList [textBlockCC str] = 0 + 1
      simp [countList, List.countP, List.countP.go, isMarkedBlock, textBlockCC, aget]
    · exact ⟨n, h1, rfl, le_refl _⟩
  · exact ⟨n, h1, rfl, le_refl _⟩

theorem cache_messages_loop_spec (idxs : List ℕ) (msgs : List Value) (slots n : ℕ)
    (h1 : countMsgsL msgs = .ok n) :
    ∃ n', countMsgsL (cache_messages_loop idxs msgs slots).1 = .ok n' ∧
      n' + (cache_messages_loop idxs msgs slots).2 = n + slots ∧
      (cache_messages_loop idxs msgs slots).2 ≤ slots := by
  induction idxs generalizing msgs slots n with
  | nil => exact ⟨n, h1, rfl, le_refl _⟩
  | cons idx rest ih =>
      unfold cache_messages_loop
      split
      · exact ⟨n, h1, rfl, le_refl _⟩
      · rename_i hpos
        have hs : 0 < slots := by omega
        obtain ⟨n1, hn1, he1, hl1⟩ := cache_one_message_spec msgs idx slots n hs h1
        obtain ⟨n', hn', he', hl'⟩ :=
          ih (cache_one_message msgs idx slots).1 (cache_one_message msgs idx slots).2 n1 hn1
        exact ⟨n', hn', by omega, by omega⟩

theorem count_decomp (r : Dict) (n : ℕ) (h : count_existing_cache_controls r = .ok n) :
    (aget "messages" r = none ∧ n = countTools r + countSystem r) ∨
    (∃ msgs nm, aget "messages" r = some (.vlist msgs) ∧ countMsgsL msgs = .ok nm ∧
      n = countTools r + countSystem r + nm) := by
  unfold count_existing_cache_controls at h
  split at h
  · rename_i hm
    injection h with hh
    exact Or.inl ⟨hm, hh.symm⟩
  · rename_i msgs hm
    cases hc : countMsgsL msgs with
    | ok nm =>
        rw [hc] at h
        simp only [bind, Except.bind] at h
        injection h with hh
        exact Or.inr ⟨msgs, nm, hm, hc, hh.symm⟩
    | error e =>
        rw [hc] at h
        simp only [bind, Except.bind] at h
        exact Except.noConfusion h
  · exact Except.noConfusion h

/--
Claim C3 (corrected): after `add_prompt_caching` the total number of
`cache_control` markers — across tools, system blocks and message content
blocks — is at most `max 4 n` where `n` is the count already present; in
particular it is at most 4 whenever the incoming request carried at most 4
markers.  (The unamended claim fails when the input already exceeds the
limit: the function then returns the request unchanged, see the
counterexample.)
-/
theorem add_prompt_caching_bounded (r r2 : Dict) (n n2 : ℕ)
    (hadd : add_prompt_caching r = .ok r2)
    (hn : count_existing_cache_controls r = .ok n)
    (hn2 : count_existing_cache_controls r2 = .ok n2) :
    n2 ≤ max 4 n := by
  unfold add_prompt_caching at hadd
  rw [hn] at hadd
  simp only [bind, Except.bind] at hadd
  by_cases h4 : 4 ≤ n
  · rw [if_pos h4] at hadd
    injection hadd with hh
    subst hh
    rw [hn] at hn2
    injection hn2 with hh2
    rw [← hh2]
    exact le_max_right 4 n
  · rw [if_neg h4] at hadd
    obtain ⟨ht1, ht2, ht3⟩ := cache_tools_phase_spec r (4 - n)
    obtain ⟨hs1, hs2, hs3⟩ :=
      cache_system_phase_spec (cache_tools_phase r (4 - n)).1 (cache_tools_phase r (4 - n)).2
    generalize hR1 : (cache_tools_phase r (4 - n)).1 = r1 at ht1 ht3 hs1 hs2 hs3 hadd
    generalize hS1 : (cache_tools_phase r (4 - n)).2 = s1 at ht1 ht2 hs1 hs2 hs3 hadd
    generalize hR2 : (cache_system_phase r1 s1).1 = rB at hs1 hs3 hadd
    generalize hS2 : (cache_system_phase r1 s1).2 = s2 at hs1 hs2 hadd
    have hctB : countTools rB = countTools r1 := countTools_congr _ _ (hs3 _ (by decide))
    have hcs1 : countSystem r1 = countSystem r := countSystem_congr _ _ (ht3 _ (by decide))
    have hmsgB : aget "messages" rB = aget "messages" r := by
      rw [hs3 _ (by decide), ht3 _ (by decide)]
    -- common conclusion when the messages phase leaves the request untouched
    have hrB : rB = r2 → n2 ≤ max 4 n := by
      intro hr2
      rw [← hr2] at hn2
      rcases count_decomp r n hn with ⟨hmr, hnr⟩ | ⟨msgs, nm, hmr, hcm, hnr⟩
      · rcases count_decomp rB n2 hn2 with ⟨hmB2, hn2e⟩ | ⟨m2, nm2, hm2, hc2, hn2e⟩
        · have : n2 ≤ 4 := by omega
          omega
        · rw [hmsgB, hmr] at hm2
          exact Option.noConfusion hm2
      · rcases count_decomp rB n2 hn2 with ⟨hmB2, hn2e⟩ | ⟨m2, nm2, hm2, hc2, hn2e⟩
        · rw [hmsgB, hmr] at hmB2
          exact Option.noConfusion hmB2
        · rw [hmsgB, hmr] at hm2
          injection hm2 with hm2'
          injection hm2' with hm2''
          subst hm2''
          rw [hcm] at hc2
          injection hc2 with hc2'
          omega
    unfold cache_messages_phase at hadd
    split at hadd
    · split at hadd
      · rename_i msgs0 hm0
        cases hui : userIndicesFrom 0 msgs0 with
        | error e =>
            rw [hui] at hadd
            simp only [bind, Except.bind] at hadd
            exact Except.noConfusion hadd
        | ok idxs =>
            rw [hui] at hadd
            simp only [bind, Except.bind] at hadd
            injection hadd with hh
            rcases count_decomp r n hn with ⟨hmr, hnr⟩ | ⟨msgs, nm, hmr, hcm, hnr⟩
            · rw [hmsgB, hmr] at hm0
              exact Option.noConfusion hm0
            · rw [hmsgB, hmr] at hm0
              injection hm0 with hm0'
              injection hm0' with hm0''
              rw [hm0''] at hcm
              obtain ⟨n', hcnt', heq', hle'⟩ :=
                cache_messages_loop_spec
                  (if 0 < min 2 (min idxs.length s2) then
                    idxs.drop (idxs.length - min 2 (min idxs.length s2)) else [])
                  msgs0 s2 nm hcm
              rw [← hh] at hn2
              rcases count_decomp _ n2 hn2 with ⟨hmB2, hn2e⟩ | ⟨m2, nm2, hm2, hc2, hn2e⟩
              · rw [aget_aset_self] at hmB2
                exact Option.noConfusion hmB2
              · rw [aget_aset_self] at hm2
                injection hm2 with hm2'
                injection hm2' with hm2''
                rw [← hm2''] at hc2
                rw [hcnt'] at hc2
                injection hc2 with hc2'
                have hct2 : countTools (aset "messages"
                    (.vlist (cache_messages_loop
                      (if 0 < min 2 (min idxs.length s2) then
                        idxs.drop (idxs.length - min 2 (min idxs.length s2)) else [])
                      msgs0 s2).1) rB) = countTools rB :=
                  countTools_congr _ _ (aget_aset_ne _ _ _ _ (by decide))
                have hcs2 : countSystem (aset "messages"
                    (.vlist (cache_messages_loop
                      (if 0 < min 2 (min idxs.length s2) then
                        idxs.drop (idxs.length - min 2 (min idxs.length s2)) else [])
                      msgs0 s2).1) rB) = countSystem rB :=
                  countSystem_congr _ _ (aget_aset_ne _ _ _ _ (by decide))
                omega
      · exact Except.noConfusion hadd
      · injection hadd with hh
        exact hrB hh
    · injection hadd with hh
      exact hrB hh

/-- Witness for C3: a request with a plain string system prompt gains one
marker (so 1 ≤ max 4 0). -/
theorem add_prompt_caching_bounded_witness :
    (1 : ℕ) ≤ max 4 0 :=
  add_prompt_caching_bounded [("system", Value.vstr "hi")]
    [("system", Value.vlist [textBlockCC "hi"])] 0 1 (by rfl) (by rfl) (by rfl)

/-- Counterexample to C3 as stated: a request that already carries five
`cache_control` markers is returned unchanged by `add_prompt_caching`, so
its marker count after the call is 5 > 4. -/
theorem add_prompt_caching_cex :
    add_prompt_caching
        [("tools", Value.vlist [Value.vdict [("cache_control", cc_ephemeral)],
          Value.vdict [("cache_control", cc_ephemeral)],
          Value.vdict [("cache_control", cc_ephemeral)],
          Value.vdict [("cache_control", cc_ephemeral)],
          Value.vdict [("cache_control", cc_ephemeral)]])] =
      .ok [("tools", Value.vlist [Value.vdict [("cache_control", cc_ephemeral)],
          Value.vdict [("cache_control", cc_ephemeral)],
          Value.vdict [("cache_control", cc_ephemeral)],
          Value.vdict [("cache_control", cc_ephemeral)],
          Value.vdict [("cache_control", cc_ephemeral)]])] ∧
    count_existing_cache_controls
        [("tools", Value.vlist [Value.vdict [("cache_control", cc_ephemeral)],
          Value.vdict [("cache_control", cc_ephemeral)],
          Value.vdict [("cache_control", cc_ephemeral)],
          Value.vdict [("cache_control", cc_ephemeral)],
          Value.vdict [("cache_control", cc_ephemeral)]])] = .ok 5 ∧
    ¬ (5 : ℕ) ≤ 4 :=
  ⟨by rfl, by rfl, by omega⟩

/-! ## Spoof system message (`src/anthropic/system_message.py`,
`src/headers/constants.py`) -/

/-- The fixed spoof text (`CLAUDE_CODE_SPOOF_MESSAGE`); the possessive
apostrophe is ASCII 39. -/
def CLAUDE_CODE_SPOOF_MESSAGE : String :=
  "You are Claude Code, Anthropic" ++ String.singleton (Char.ofNat 39) ++
    "s official CLI for Claude."

/-- The `{type: text, text: spoof}` block the source prepends. -/
def spoof_block : Value :=
  .vdict [("type", .vstr "text"), ("text", .vstr CLAUDE_CODE_SPOOF_MESSAGE)]

/-- `existing_system and isinstance(existing_system[0], dict) and
existing_system[0].get("text") == claude_code_spoof`. -/
def firstTextIsSpoof : List Value → Bool
  | (.vdict d) :: _ =>
      match aget "text" d with
      | some (.vstr t) => t == CLAUDE_CODE_SPOOF_MESSAGE
      | _ => false
  | _ => false

/-- `inject_claude_code_system_message`: ensure the spoof text leads the
`system` field, converting to a block list when needed.  A `system` value
that is absent or `None` becomes `[spoof]`; a list keeps (or gains) the
spoof as its first block; a string keeps its spoof prefix or is wrapped; a
dict whose `text` is the spoof is wrapped as a singleton list; any other
value is put after the spoof block when truthy and dropped when falsy. -/
def inject_claude_code_system_message (r : Dict) : Dict :=
  match aget "system" r with
  | some (.vlist l) =>
      if firstTextIsSpoof l then r
      else aset "system" (.vlist (spoof_block :: l)) r
  | some (.vstr s) =>
      if CLAUDE_CODE_SPOOF_MESSAGE.isPrefixOf s then r
      else
        aset "system"
          (.vlist [spoof_block, .vdict [("type", .vstr "text"), ("text", .vstr s)]]) r
  | none => aset "system" (.vlist [spoof_block]) r
  | some .vnull => aset "system" (.vlist [spoof_block]) r
  | some (.vdict d) =>
      if (match aget "text" d with
          | some (.vstr t) => t == CLAUDE_CODE_SPOOF_MESSAGE
          | _ => false) then
        aset "system" (.vlist [.vdict d]) r
      else if (Value.vdict d).truthy then aset "system" (.vlist [spoof_block, .vdict d]) r
      else aset "system" (.vlist [spoof_block]) r
  | some v =>
      if v.truthy then aset "system" (.vlist [spoof_block, v]) r
      else aset "system" (.vlist [spoof_block]) r

/-- The `system` field starts with the spoof text: first block of a list
carries `text = spoof`, or a string system has the spoof as prefix. -/
def systemBeginsWithSpoof : Option Value → Bool
  | some (.vlist l) => firstTextIsSpoof l
  | some (.vstr s) => CLAUDE_CODE_SPOOF_MESSAGE.isPrefixOf s
  | _ => false

theorem firstTextIsSpoof_cons_spoof (l : List Value) :
    firstTextIsSpoof (spoof_block :: l) = true := by
  simp [firstTextIsSpoof, spoof_block, aget]

theorem inject_of_aget (r : Dict) (l : List Value)
    (h : aget "system" r = some (.vlist l)) (hs : firstTextIsSpoof l = true) :
    inject_claude_code_system_message r = r := by
  unfold inject_claude_code_system_message
  rw [h]
  simp [hs]

/--
Claim C9 (confirmed): `inject_claude_code_system_message` is idempotent, and
its result always carries a `system` field beginning with the spoof text —
as the text of the first block of a list, or as the prefix of a
string-valued system.
-/
theorem inject_claude_code_idempotent_and_spoof_first (r : Dict) :
    inject_claude_code_system_message (inject_claude_code_system_message r) =
        inject_claude_code_system_message r ∧
      systemBeginsWithSpoof
        (aget "system" (inject_claude_code_system_message r)) = true := by
  cases hsys : aget "system" r with
  | none =>
      unfold inject_claude_code_system_message
      rw [hsys]
      constructor
      · rw [aget_aset_self]
        simp [firstTextIsSpoof_cons_spoof]
      · rw [aget_aset_self]
        simp [systemBeginsWithSpoof, firstTextIsSpoof_cons_spoof]
  | some v =>
      cases v with
      | vnull =>
          unfold inject_claude_code_system_message
          rw [hsys]
          constructor
          · rw [aget_aset_self]
            simp [firstTextIsSpoof_cons_spoof]
          · rw [aget_aset_self]
            simp [systemBeginsWithSpoof, firstTextIsSpoof_cons_spoof]
      | vlist l =>
          by_cases hf : firstTextIsSpoof l = true
          · have h1 : inject_claude_code_system_message r = r := inject_of_aget r l hsys hf
            rw [h1]
            exact ⟨h1, by rw [hsys]; simpa [systemBeginsWithSpoof] using hf⟩
          · have h1 : inject_claude_code_system_message r =
                aset "system" (.vlist (spoof_block :: l)) r := by
              unfold inject_claude_code_system_message
              rw [hsys]
              simp [hf]
            rw [h1]
            have h2 : aget "system" (aset "system" (.vlist (spoof_block :: l)) r) =
                some (.vlist (spoof_block :: l)) := aget_aset_self _ _ _
            refine ⟨inject_of_aget _ _ h2 (firstTextIsSpoof_cons_spoof l), ?_⟩
            rw [h2]
            simp [systemBeginsWithSpoof, firstTextIsSpoof_cons_spoof]
      | vstr s =>
          by_cases hf : CLAUDE_CODE_SPOOF_MESSAGE.isPrefixOf s = true
          · have h1 : inject_claude_code_system_message r = r := by
              unfold inject_claude_code_system_message
              rw [hsys]
              simp [hf]
            rw [h1]
            exact ⟨h1, by rw [hsys]; simpa [systemBeginsWithSpoof] using hf⟩
          · have h1 : inject_claude_code_system_message r =
                aset "system"
                  (.vlist [spoof_block, .vdict [("type", .vstr "text"), ("text", .vstr s)]])
                  r := by
              unfold inject_claude_code_system_message
              rw [hsys]
              simp [hf]
            rw [h1]
            have h2 := aget_aset_self "system"
              (.vlist [spoof_block, .vdict [("type", .vstr "text"), ("text", .vstr s)]]) r
            refine ⟨inject_of_aget _ _ h2 (firstTextIsSpoof_cons_spoof _), ?_⟩
            rw [h2]
            simp [systemBeginsWithSpoof, firstTextIsSpoof_cons_spoof]
      | vdict d =>
          by_cases hf : (match aget "text" d with
              | some (.vstr t) => t == CLAUDE_CODE_SPOOF_MESSAGE
              | _ => false) = true
          · have h1 : inject_claude_code_system_message r =
                aset "system" (.vlist [.vdict d]) r := by
              unfold inject_claude_code_system_message
              rw [hsys]
              simp [hf]
            rw [h1]
            have h2 := aget_aset_self "system" (.vlist [.vdict d]) r
            have hfl : firstTextIsSpoof [Value.vdict d] = true := by
              simpa [firstTextIsSpoof] using hf
            refine ⟨inject_of_aget _ _ h2 hfl, ?_⟩
            rw [h2]
            simpa [systemBeginsWithSpoof] using hfl
          · by_cases ht : (Value.vdict d).truthy = true
            · have h1 : inject_claude_code_system_message r =
                  aset "system" (.vlist [spoof_block, .vdict d]) r := by
                unfold inject_claude_code_system_message
                rw [hsys]
                simp [hf, ht]
              rw [h1]
              have h2 := aget_aset_self "system" (.vlist [spoof_block, .vdict d]) r
              refine ⟨inject_of_aget _ _ h2 (firstTextIsSpoof_cons_spoof _), ?_⟩
              rw [h2]
              simp [systemBeginsWithSpoof, firstTextIsSpoof_cons_spoof]
            · have h1 : inject_claude_code_system_message r =
                  aset "system" (.vlist [spoof_block]) r := by
                unfold inject_claude_code_system_message
                rw [hsys]
                simp [hf, ht]
              rw [h1]
              have h2 := aget_aset_self "system" (.vlist [spoof_block]) r
              refine ⟨inject_of_aget _ _ h2 (firstTextIsSpoof_cons_spoof _), ?_⟩
              rw [h2]
              simp [systemBeginsWithSpoof, firstTextIsSpoof_cons_spoof]
      | vbool b =>
          by_cases ht : (Value.vbool b).truthy = true
          · have h1 : inject_claude_code_system_message r =
                aset "system" (.vlist [spoof_block, .vbool b]) r := by
              unfold inject_claude_code_system_message
              rw [hsys]
              simp [ht]
            rw [h1]
            have h2 := aget_aset_self "system" (.vlist [spoof_block, .vbool b]) r
            refine ⟨inject_of_aget _ _ h2 (firstTextIsSpoof_cons_spoof _), ?_⟩
            rw [h2]
            simp [systemBeginsWithSpoof, firstTextIsSpoof_cons_spoof]
          · have h1 : inject_claude_code_system_message r =
                aset "system" (.vlist [spoof_block]) r := by
              unfold inject_claude_code_system_message
              rw [hsys]
              simp [ht]
            rw [h1]
            have h2 := aget_aset_self "system" (.vlist [spoof_block]) r
            refine ⟨inject_of_aget _ _ h2 (firstTextIsSpoof_cons_spoof _), ?_⟩
            rw [h2]
            simp [systemBeginsWithSpoof, firstTextIsSpoof_cons_spoof]
      | vint i =>
          by_cases ht : (Value.vint i).truthy = true
          · have h1 : inject_claude_code_system_message r =
                aset "system" (.vlist [spoof_block, .vint i]) r := by
              unfold inject_claude_code_system_message
              rw [hsys]
              simp [ht]
            rw [h1]
            have h2 := aget_aset_self "system" (.vlist [spoof_block, .vint i]) r
            refine ⟨inject_of_aget _ _ h2 (firstTextIsSpoof_cons_spoof _), ?_⟩
            rw [h2]
            simp [systemBeginsWithSpoof, firstTextIsSpoof_cons_spoof]
          · have h1 : inject_claude_code_system_message r =
                aset "system" (.vlist [spoof_block]) r := by
              unfold inject_claude_code_system_message
              rw [hsys]
              simp [ht]
            rw [h1]
            have h2 := aget_aset_self "system" (.vlist [spoof_block]) r
            refine ⟨inject_of_aget _ _ h2 (firstTextIsSpoof_cons_spoof _), ?_⟩
            rw [h2]
            simp [systemBeginsWithSpoof, firstTextIsSpoof_cons_spoof]
      | vfloat q =>
          by_cases ht : (Value.vfloat q).truthy = true
          · have h1 : inject_claude_code_system_message r =
                aset "system" (.vlist [spoof_block, .vfloat q]) r := by
              unfold inject_claude_code_system_message
              rw [hsys]
              simp [ht]
            rw [h1]
            have h2 := aget_aset_self "system" (.vlist [spoof_block, .vfloat q]) r
            refine ⟨inject_of_aget _ _ h2 (firstTextIsSpoof_cons_spoof _), ?_⟩
            rw [h2]
            simp [systemBeginsWithSpoof, firstTextIsSpoof_cons_spoof]
          · have h1 : inject_claude_code_system_message r =
                aset "system" (.vlist [spoof_block]) r := by
              unfold inject_claude_code_system_message
              rw [hsys]
              simp [ht]
            rw [h1]
            have h2 := aget_aset_self "system" (.vlist [spoof_block]) r
            refine ⟨inject_of_aget _ _ h2 (firstTextIsSpoof_cons_spoof _), ?_⟩
            rw [h2]
            simp [systemBeginsWithSpoof, firstTextIsSpoof_cons_spoof]

/-! ## Thinking cache (`src/utils/thinking_cache.py`) -/

/-- Characters Python's `str.strip()` removes. -/
def isPyWs (c : Char) : Bool :=
  c = ' ' || c = '\t' || c = '\n' || c = '\r' || c = Char.ofNat 11 || c = Char.ofNat 12

/-- `bool(s.strip())`: the string has a non-whitespace character. -/
def hasNonWs (s : String) : Bool := s.toList.any (fun c => !isPyWs c)

/-- The cache map: tool_use_id → (block, inserted_at). -/
abbrev TCData := List (String × Value × ℚ)

def tcGet (k : String) : TCData → Option (Value × ℚ)
  | [] => none
  | (k', v) :: t => if k' = k then some v else tcGet k t

def tcSet (k : String) (v : Value × ℚ) : TCData → TCData
  | [] => [(k, v)]
  | (k', v') :: t => if k' = k then (k, v) :: t else (k', v') :: tcSet k v t

def tcDel (k : String) : TCData → TCData
  | [] => []
  | (k', v') :: t => if k' = k then tcDel k t else (k', v') :: tcDel k t

/-- `_ThinkingCache` size cap. -/
def TC_MAX_ENTRIES : ℕ := 256

/-- `_ThinkingCache` time-to-live in seconds. -/
def TC_TTL : ℚ := 600

/-- `_evict_if_needed`: when over the cap, drop the oldest entries
(stable-sorted by insertion time, as Python's `sorted` is stable). -/
def tc_evict_if_needed (c : TCData) : TCData :=
  if c.length ≤ TC_MAX_ENTRIES then c
  else
    let victims := (c.mergeSort (fun a b => a.2.2 ≤ b.2.2)).take (c.length - TC_MAX_ENTRIES)
    victims.foldl (fun acc kv => tcDel kv.1 acc) c

/-- `_cleanup`: drop every entry older than the TTL. -/
def tc_cleanup (now : ℚ) (c : TCData) : TCData :=
  c.filter (fun kv => !decide (now - kv.2.2 > TC_TTL))

/-- `_ThinkingCache.put`: reject an empty id, a non-dict block, a block
missing `thinking` or `signature`, and a signature that is not a string
with a non-whitespace character; otherwise store `(block, now)`, evict if
over the cap and clean up expired entries. -/
def tc_put (now : ℚ) (tool_use_id : String) (thinking_block : Value) (c : TCData) : TCData :=
  if tool_use_id = "" then c
  else
    match thinking_block with
    | .vdict d =>
        if !(aget "thinking" d).isSome || !(aget "signature" d).isSome then c
        else
          match aget "signature" d with
          | some (.vstr sig) =>
              if !hasNonWs sig then c
              else tc_cleanup now (tc_evict_if_needed (tcSet tool_use_id (thinking_block, now) c))
          | _ => c
    | _ => c

/-- `_ThinkingCache.get`: absent on miss; on TTL expiry delete the entry and
return absent; otherwise return the stored block.  Returns the block (if
any) together with the possibly-shrunk map. -/
def tc_get (now : ℚ) (tool_use_id : String) (c : TCData) : Option Value × TCData :=
  match tcGet tool_use_id c with
  | none => (none, c)
  | some (b, ts) =>
      if now - ts > TC_TTL then (none, tcDel tool_use_id c)
      else (some b, c)

/-- The condition under which `put` actually stores a block. -/
def validThinkingBlock (tool_use_id : String) (b : Value) : Bool :=
  (tool_use_id != "") &&
    (match b with
      | .vdict d =>
          (aget "thinking" d).isSome &&
            (match aget "signature" d with
              | some (.vstr sig) => hasNonWs sig
              | _ => false)
      | _ => false)

theorem tcGet_tcSet_self (k : String) (v : Value × ℚ) (c : TCData) :
    tcGet k (tcSet k v c) = some v := by
  induction c with
  | nil => simp [tcGet, tcSet]
  | cons p t ih =>
      obtain ⟨a, w⟩ := p
      by_cases h : a = k <;> simp [tcGet, tcSet, h, ih]

theorem tcGet_tcDel_self (k : String) (c : TCData) : tcGet k (tcDel k c) = none := by
  induction c with
  | nil => rfl
  | cons p t ih =>
      obtain ⟨a, w⟩ := p
      by_cases h : a = k <;> simp [tcGet, tcDel, h, ih]

theorem tcSet_length_of_miss (k : String) (v : Value × ℚ) (c : TCData)
    (h : tcGet k c = none) : (tcSet k v c).length = c.length + 1 := by
  induction c with
  | nil => rfl
  | cons p t ih =>
      obtain ⟨a, w⟩ := p
      by_cases hk : a = k
      · simp [tcGet, hk] at h
      · simp [tcGet, hk] at h
        simp [tcSet, hk, ih h]

theorem tcGet_filter_of_pass (k : String) (v : Value × ℚ) (c : TCData)
    (p : String × Value × ℚ → Bool)
    (h : tcGet k c = some v) (hp : p (k, v) = true) :
    tcGet k (c.filter p) = some v := by
  induction c with
  | nil => cases h
  | cons q t ih =>
      obtain ⟨a, w⟩ := q
      by_cases hk : a = k
      · subst hk
        simp [tcGet] at h
        subst h
        simp [List.filter, hp, tcGet]
      · simp [tcGet, hk] at h
        by_cases hq : p (a, w) = true <;>
          simp [List.filter, hq, tcGet, hk, ih h]

theorem tc_put_of_invalid (now : ℚ) (id : String) (b : Value) (c : TCData)
    (h : validThinkingBlock id b = false) : tc_put now id b c = c := by
  unfold tc_put
  by_cases hid : id = ""
  · simp [hid]
  · rw [if_neg hid]
    have hidB : (id != "") = true := by simpa using hid
    split
    · rename_i d
      simp only [validThinkingBlock, hidB, Bool.true_and] at h
      by_cases h1 : (!(aget "thinking" d).isSome || !(aget "signature" d).isSome) = true
      · rw [if_pos h1]
      · rw [if_neg h1]
        simp only [Bool.or_eq_true, Bool.not_eq_true'] at h1
        push_neg at h1
        split
        · rename_i sig hs
          rw [hs] at h
          have hth : (aget "thinking" d).isSome = true := by
            rcases Bool.eq_false_or_eq_true (aget "thinking" d).isSome with hx | hx
            · exact hx
            · exact absurd hx h1.1
          rw [hth] at h
          simp only [Bool.true_and] at h
          rw [if_pos (by simp [h])]
        · rfl
    · rfl

theorem validThinkingBlock_elim (id : String) (b : Value)
    (h : validThinkingBlock id b = true) :
    ¬ id = "" ∧ ∃ d sig, b = .vdict d ∧ (aget "thinking" d).isSome = true ∧
      aget "signature" d = some (.vstr sig) ∧ hasNonWs sig = true := by
  cases b with
  | vdict d =>
      unfold validThinkingBlock at h
      simp only [Bool.and_eq_true, bne_iff_ne, ne_eq] at h
      obtain ⟨hid, hth, hsigm⟩ := h
      refine ⟨hid, d, ?_⟩
      cases hs : aget "signature" d with
      | none =>
          rw [hs] at hsigm
          cases hsigm
      | some sv =>
          rw [hs] at hsigm
          cases sv with
          | vstr sig => exact ⟨sig, rfl, hth, rfl, hsigm⟩
          | vnull => cases hsigm
          | vbool bb => cases hsigm
          | vint i => cases hsigm
          | vfloat q => cases hsigm
          | vlist l => cases hsigm
          | vdict dd => cases hsigm
  | vnull =>
      unfold validThinkingBlock at h
      simp at h
  | vbool bb =>
      unfold validThinkingBlock at h
      simp at h
  | vint i =>
      unfold validThinkingBlock at h
      simp at h
  | vfloat q =>
      unfold validThinkingBlock at h
      simp at h
  | vstr st =>
      unfold validThinkingBlock at h
      simp at h
  | vlist l =>
      unfold validThinkingBlock at h
      simp at h

/--
Claim C6 (corrected): immediately after `put(id, b)` on a cache without an
entry for `id` (and below the size cap), `get(id)` returns `b` exactly when
`put` accepted the block — that is, when `id` is non-empty and `b` is a
dict with a `thinking` key and a `signature` key whose value is a string
containing a non-whitespace character (not merely "`b.signature` is a
non-empty string", see the counterexample); and every `get` performed more
than 600 seconds (the TTL) after the insertion returns absent and removes
the entry.
-/
theorem thinking_cache_put_get (now : ℚ) (id : String) (b : Value) (c : TCData)
    (hsize : c.length < TC_MAX_ENTRIES) (hmiss : tcGet id c = none) :
    ((tc_get now id (tc_put now id b c)).1 = some b ↔ validThinkingBlock id b = true) ∧
      ∀ t : ℚ, t - now > TC_TTL →
        (tc_get t id (tc_put now id b c)).1 = none ∧
          tcGet id (tc_get t id (tc_put now id b c)).2 = none := by
  by_cases hval : validThinkingBlock id b = true
  · obtain ⟨hid, d, sig, hd, hth, hsig, hnw⟩ := validThinkingBlock_elim id b hval
    subst hd
    have hput : tc_put now id (.vdict d) c =
        tc_cleanup now (tc_evict_if_needed (tcSet id (.vdict d, now) c)) := by
      unfold tc_put
      rw [if_neg hid]
      show (if (!(aget "thinking" d).isSome || !(aget "signature" d).isSome) = true then c
            else
              match aget "signature" d with
              | some (.vstr sg) =>
                  if (!hasNonWs sg) = true then c
                  else tc_cleanup now (tc_evict_if_needed (tcSet id (.vdict d, now) c))
              | _ => c) =
          tc_cleanup now (tc_evict_if_needed (tcSet id (.vdict d, now) c))
      rw [if_neg (by simp [hth, hsig])]
      split
      · rename_i sg hs
        rw [hsig] at hs
        injection hs with hs'
        injection hs' with hs''
        subst hs''
        rw [if_neg (by simp [hnw])]
      · rename_i hne
        exact absurd hsig (hne sig)
    have hlen : (tcSet id (.vdict d, now) c).length = c.length + 1 :=
      tcSet_length_of_miss _ _ _ hmiss
    have hevict : tc_evict_if_needed (tcSet id (.vdict d, now) c) =
        tcSet id (.vdict d, now) c := by
      unfold tc_evict_if_needed
      rw [if_pos (by rw [hlen]; exact hsize)]
    have hlook : tcGet id (tc_put now id (.vdict d) c) = some (.vdict d, now) := by
      rw [hput, hevict]
      exact tcGet_filter_of_pass _ _ _ _ (tcGet_tcSet_self _ _ _)
        (by simp [TC_TTL])
    constructor
    · have hres : (tc_get now id (tc_put now id (.vdict d) c)).1 = some (.vdict d) := by
        unfold tc_get
        simp only [hlook]
        rw [if_neg (by simp [TC_TTL])]
      rw [hres]
      simp [hval]
    · intro t ht
      unfold tc_get
      simp only [hlook]
      rw [if_pos (by simpa [TC_TTL] using ht)]
      exact ⟨rfl, tcGet_tcDel_self _ _⟩
  · have hval' : validThinkingBlock id b = false := by
      rcases Bool.eq_false_or_eq_true (validThinkingBlock id b) with hx | hx
      · exact absurd hx hval
      · exact hx
    rw [tc_put_of_invalid _ _ _ _ hval']
    have hg : tc_get now id c = (none, c) := by
      unfold tc_get
      rw [hmiss]
    constructor
    · rw [hg]
      simp [hval']
    · intro t ht
      have hgt : tc_get t id c = (none, c) := by
        unfold tc_get
        rw [hmiss]
      rw [hgt]
      exact ⟨rfl, hmiss⟩

/-- Witness for C6: a fresh cache, a valid signed block; `get` right after
`put` returns it, and a `get` 601 seconds later returns absent. -/
theorem thinking_cache_put_get_witness :
    (tc_get 0 "t1" (tc_put 0 "t1"
        (.vdict [("thinking", .vstr "x"), ("signature", .vstr "s")]) [])).1 =
      some (.vdict [("thinking", .vstr "x"), ("signature", .vstr "s")]) ∧
    (tc_get 601 "t1" (tc_put 0 "t1"
        (.vdict [("thinking", .vstr "x"), ("signature", .vstr "s")]) [])).1 = none := by
  have h := thinking_cache_put_get 0 "t1"
    (.vdict [("thinking", .vstr "x"), ("signature", .vstr "s")]) []
    (by simp [TC_MAX_ENTRIES]) (by rfl)
  exact ⟨h.1.mpr (by rfl), (h.2 601 (by norm_num [TC_TTL])).1⟩

/-- Counterexample to C6 as stated: a block whose `signature` is the
non-empty string `"s"` but which lacks a `thinking` key is rejected by
`put`, so `get` right after returns absent, not the block. -/
theorem thinking_cache_put_get_cex :
    (tc_get 0 "t1" (tc_put 0 "t1" (.vdict [("signature", .vstr "s")]) [])).1 = none ∧
      aget "signature" [("signature", Value.vstr "s")] = some (.vstr "s") ∧
      "s" ≠ "" := by
  refine ⟨by rfl, by rfl, by decide⟩

/-! ## SSE parser (`src/openai_compat/sse_parser.py`)

Strings are modelled as `List Char` here so that buffer splitting is
structural. -/

/-- A parsed Server-Sent-Events frame. -/
structure SSEEvent where
  event : Option (List Char)
  data : List Char
deriving DecidableEq, Repr

/-- Parser state: text after the last newline, pending `event:` name,
pending `data:` lines. -/
structure SSEState where
  buffer : List Char
  currentEvent : Option (List Char)
  currentData : List (List Char)
deriving DecidableEq, Repr

def sseInit : SSEState := ⟨[], none, []⟩

/-- `"\n".flatten(current_data)`. -/
def joinData (dat : List (List Char)) : List Char := List.intercalate ['\n'] dat

/-- `str.lstrip()` on the event name. -/
def pyLstrip (l : List Char) : List Char := l.dropWhile isPyWs

/-- Process one complete line exactly as the body of the `while` loop in
`SSEParser.feed`: trim a trailing CR; a blank line emits the pending event;
`:` comments are dropped; `event:` sets the name (lstripped); `data:`
appends a line (one leading space stripped); anything else is treated as
data. -/
def procLine (line : List Char) (ev : Option (List Char)) (dat : List (List Char)) :
    List SSEEvent × Option (List Char) × List (List Char) :=
  let line := if line.getLast? = some '\r' then line.dropLast else line
  if line = [] then
    if ev.isSome || !dat.isEmpty then ([⟨ev, joinData dat⟩], none, [])
    else ([], none, [])
  else if [':'].isPrefixOf line then ([], ev, dat)
  else if ('e' :: 'v' :: 'e' :: 'n' :: 't' :: ':' :: []).isPrefixOf line then
    ([], some (pyLstrip (line.drop 6)), dat)
  else if ('d' :: 'a' :: 't' :: 'a' :: ':' :: []).isPrefixOf line then
    ([], ev, dat ++ [if (line.drop 5).head? = some ' ' then (line.drop 5).drop 1
      else line.drop 5])
  else ([], ev, dat ++ [line])

/-- Split the buffer at the first newline (`self._buffer.find("\n")`). -/
def extractLine : List Char → Option (List Char × List Char)
  | [] => none
  | c :: cs =>
      if c = '\n' then some ([], cs)
      else
        match extractLine cs with
        | some (l, r) => some (c :: l, r)
        | none => none

theorem extractLine_cons (c : Char) (y : List Char) :
    extractLine (c :: y) =
      if c = '\n' then some ([], y)
      else
        match extractLine y with
        | some (l, r) => some (c :: l, r)
        | none => none := rfl

theorem extractLine_rest_length : ∀ (buf l r : List Char),
    extractLine buf = some (l, r) → r.length < buf.length := by
  intro buf
  induction buf with
  | nil => intro l r h; cases h
  | cons c cs ih =>
      intro l r h
      rw [extractLine_cons] at h
      by_cases hc : c = '\n'
      · rw [if_pos hc] at h
        injection h with h'
        injection h' with h1 h2
        subst h2
        simp
      · rw [if_neg hc] at h
        cases hex : extractLine cs with
        | none => rw [hex] at h; cases h
        | some p =>
            obtain ⟨l', r'⟩ := p
            rw [hex] at h
            injection h with h'
            injection h' with h1 h2
            have hlen := ih l' r' hex
            rw [← h2]
            simp only [List.length_cons]
            omega

theorem extractLine_append : ∀ (x l r b : List Char),
    extractLine x = some (l, r) → extractLine (x ++ b) = some (l, r ++ b) := by
  intro x
  induction x with
  | nil => intro l r b h; cases h
  | cons c cs ih =>
      intro l r b h
      rw [extractLine_cons] at h
      rw [List.cons_append, extractLine_cons]
      by_cases hc : c = '\n'
      · rw [if_pos hc] at h ⊢
        injection h with h'
        injection h' with h1 h2
        subst h1
        subst h2
        rfl
      · rw [if_neg hc] at h ⊢
        cases hex : extractLine cs with
        | none => rw [hex] at h; cases h
        | some p =>
            obtain ⟨l', r'⟩ := p
            rw [hex] at h
            injection h with h'
            injection h' with h1 h2
            subst h1
            subst h2
            rw [ih l' r' b hex]

/-- The line-extraction loop of `SSEParser.feed`, with a fuel argument so
that it is structural (the wrapper below always supplies enough fuel: each
extracted line strictly shrinks the buffer). -/
def sseGoF : ℕ → List Char → Option (List Char) → List (List Char) →
    List SSEEvent × SSEState
  | 0, buf, ev, dat => ([], ⟨buf, ev, dat⟩)
  | fuel + 1, buf, ev, dat =>
      match extractLine buf with
      | none => ([], ⟨buf, ev, dat⟩)
      | some (l, r) =>
          ((procLine l ev dat).1 ++
              (sseGoF fuel r (procLine l ev dat).2.1 (procLine l ev dat).2.2).1,
            (sseGoF fuel r (procLine l ev dat).2.1 (procLine l ev dat).2.2).2)

/-- Drain the buffer line by line, feeding each complete line to
`procLine`. -/
def sseGo (buf : List Char) (ev : Option (List Char)) (dat : List (List Char)) :
    List SSEEvent × SSEState :=
  sseGoF (buf.length + 1) buf ev dat

theorem sseGoF_fuel : ∀ (m n : ℕ) (buf : List Char), buf.length < m →
    buf.length < n → ∀ ev dat, sseGoF m buf ev dat = sseGoF n buf ev dat := by
  intro m
  induction m with
  | zero => intro n buf hm; omega
  | succ m ih =>
      intro n buf hm hn ev dat
      cases n with
      | zero => omega
      | succ n =>
          show sseGoF (m + 1) buf ev dat = sseGoF (n + 1) buf ev dat
          unfold sseGoF
          cases hex : extractLine buf with
          | none => rfl
          | some p =>
              obtain ⟨l, r⟩ := p
              have hlen := extractLine_rest_length buf l r hex
              show ((procLine l ev dat).1 ++
                    (sseGoF m r (procLine l ev dat).2.1 (procLine l ev dat).2.2).1,
                  (sseGoF m r (procLine l ev dat).2.1 (procLine l ev dat).2.2).2) =
                ((procLine l ev dat).1 ++
                    (sseGoF n r (procLine l ev dat).2.1 (procLine l ev dat).2.2).1,
                  (sseGoF n r (procLine l ev dat).2.1 (procLine l ev dat).2.2).2)
              rw [ih n r (by omega) (by omega)]

/-- `SSEParser.feed`: append the chunk to the buffer (empty chunks return
immediately) and drain complete lines. -/
def sseFeed (st : SSEState) (chunk : List Char) : List SSEEvent × SSEState :=
  if chunk = [] then ([], st)
  else sseGo (st.buffer ++ chunk) st.currentEvent st.currentData

/-- `SSEParser.flush`: emit the pending event (if any) and then the raw
remaining buffer as a final data-only event. -/
def sseFlush (st : SSEState) : List SSEEvent :=
  (if st.currentEvent.isSome || !st.currentData.isEmpty then
      [⟨st.currentEvent, joinData st.currentData⟩]
    else []) ++
  (if st.buffer ≠ [] then [⟨none, st.buffer⟩] else [])

theorem sseGo_eq_none (buf : List Char) (ev : Option (List Char))
    (dat : List (List Char)) (h : extractLine buf = none) :
    sseGo buf ev dat = ([], ⟨buf, ev, dat⟩) := by
  unfold sseGo sseGoF
  rw [h]

theorem sseGo_eq_some (buf l r : List Char) (ev : Option (List Char))
    (dat : List (List Char)) (h : extractLine buf = some (l, r)) :
    sseGo buf ev dat =
      ((procLine l ev dat).1 ++
          (sseGo r (procLine l ev dat).2.1 (procLine l ev dat).2.2).1,
        (sseGo r (procLine l ev dat).2.1 (procLine l ev dat).2.2).2) := by
  have hlen := extractLine_rest_length buf l r h
  show sseGoF (buf.length + 1) buf ev dat = _
  unfold sseGoF
  rw [h]
  show ((procLine l ev dat).1 ++
        (sseGoF buf.length r (procLine l ev dat).2.1 (procLine l ev dat).2.2).1,
      (sseGoF buf.length r (procLine l ev dat).2.1 (procLine l ev dat).2.2).2) = _
  rw [sseGoF_fuel buf.length (r.length + 1) r (by omega) (by omega)]
  rfl

theorem sseGo_append : ∀ (n : ℕ) (x : List Char), x.length ≤ n →
    ∀ (b : List Char) (ev : Option (List Char)) (dat : List (List Char)),
    sseGo (x ++ b) ev dat =
      ((sseGo x ev dat).1 ++
          (sseGo ((sseGo x ev dat).2.buffer ++ b) (sseGo x ev dat).2.currentEvent
            (sseGo x ev dat).2.currentData).1,
        (sseGo ((sseGo x ev dat).2.buffer ++ b) (sseGo x ev dat).2.currentEvent
          (sseGo x ev dat).2.currentData).2) := by
  intro n
  induction n with
  | zero =>
      intro x hx b ev dat
      have hx0 : x = [] := List.length_eq_zero.mp (Nat.le_zero.mp hx)
      subst hx0
      rw [sseGo_eq_none [] ev dat rfl]
      simp
  | succ n ih =>
      intro x hx b ev dat
      cases hex : extractLine x with
      | none =>
          rw [sseGo_eq_none x ev dat hex]
          simp
      | some p =>
          obtain ⟨l, r⟩ := p
          have hlen := extractLine_rest_length x l r hex
          have hex2 : extractLine (x ++ b) = some (l, r ++ b) :=
            extractLine_append x l r b hex
          rw [sseGo_eq_some _ _ _ _ _ hex2, sseGo_eq_some _ _ _ _ _ hex]
          rw [ih r (by omega) b (procLine l ev dat).2.1 (procLine l ev dat).2.2]
          simp [List.append_assoc]

theorem sseFeed_compose (st : SSEState) (a b : List Char) :
    sseFeed st (a ++ b) =
      ((sseFeed st a).1 ++ (sseFeed (sseFeed st a).2 b).1,
        (sseFeed (sseFeed st a).2 b).2) := by
  by_cases ha : a = []
  · subst ha
    simp [sseFeed]
  · by_cases hb : b = []
    · subst hb
      have hne : ¬ (a ++ ([] : List Char)) = [] := by simpa using ha
      simp only [sseFeed, if_neg ha, if_neg hne, if_pos rfl]
      simp
    · have hne : ¬ (a ++ b) = [] := fun hh => ha (List.append_eq_nil.mp hh).1
      simp only [sseFeed, if_neg ha, if_neg hb, if_neg hne]
      rw [← List.append_assoc]
      exact sseGo_append (st.buffer ++ a).length _ (le_refl _) b _ _

/-- Feed a list of chunks in sequence, collecting all emitted events. -/
def sseFeedAll (st : SSEState) : List (List Char) → List SSEEvent × SSEState
  | [] => ([], st)
  | c :: cs =>
      ((sseFeed st c).1 ++ (sseFeedAll (sseFeed st c).2 cs).1,
        (sseFeedAll (sseFeed st c).2 cs).2)

theorem sseFeedAll_eq_join : ∀ (chunks : List (List Char)) (st : SSEState),
    sseFeedAll st chunks = sseFeed st chunks.flatten := by
  intro chunks
  induction chunks with
  | nil =>
      intro st
      simp [sseFeedAll, sseFeed]
  | cons c cs ih =>
      intro st
      show ((sseFeed st c).1 ++ (sseFeedAll (sseFeed st c).2 cs).1,
          (sseFeedAll (sseFeed st c).2 cs).2) = sseFeed st (c :: cs).flatten
      rw [ih (sseFeed st c).2]
      rw [show (c :: cs).flatten = c ++ cs.flatten from rfl]
      rw [sseFeed_compose st c cs.flatten]

/-- `String.toList` shortcut for writing concrete SSE inputs. -/
def chars (s : String) : List Char := s.toList

/--
Claim C5 (confirmed): the SSE parser is chunking-invariant — for every way
of splitting an input into chunks, concatenating the events of the
successive `feed` calls and a final `flush` equals feeding the whole input
in one `feed` followed by `flush`; and feeding
`"event: x\ndata: a\ndata: b\n\n"` in the slices
`["event: x\nda", "ta: a\nda", "ta: b\n\n"]` yields exactly
`[SSEEvent(event="x", data="a\nb")]`.
-/
theorem sse_parser_chunking_invariant :
    (∀ chunks : List (List Char),
      (sseFeedAll sseInit chunks).1 ++ sseFlush (sseFeedAll sseInit chunks).2 =
        (sseFeed sseInit chunks.flatten).1 ++ sseFlush (sseFeed sseInit chunks.flatten).2) ∧
    (sseFeedAll sseInit [chars "event: x\nda", chars "ta: a\nda", chars "ta: b\n\n"]).1 ++
        sseFlush
          (sseFeedAll sseInit [chars "event: x\nda", chars "ta: a\nda",
            chars "ta: b\n\n"]).2 =
      [⟨some (chars "x"), chars "a\nb"⟩] := by
  constructor
  · intro chunks
    rw [sseFeedAll_eq_join]
  · rw [sseFeedAll_eq_join]
    rfl

/-! ## Streaming converter (`src/openai_compat/stream_converter.py`)

The converter is modelled at the level of decoded Anthropic SSE events (the
code's `data` dict after `json.loads`, with `data.get("type")` resolved):
`badData` stands for a frame whose JSON failed to decode (logged and
skipped) and `unknown` for a data type no branch handles. -/

/-- `map_stop_reason_to_finish_reason`
(src/openai_compat/response_converter.py). -/
def map_stop_reason_to_finish_reason (stop_reason : Option String) : String :=
  match stop_reason with
  | some "end_turn" => "stop"
  | some "max_tokens" => "length"
  | some "stop_sequence" => "stop"
  | some "tool_use" => "tool_calls"
  | _ => "stop"

/-- The `content_block` of a `content_block_start` event, as far as the
converter inspects it.  A missing `id`/`name` behaves as `""`. -/
inductive BlockKind where
  | toolUse (id name : String)
  | thinkingB (redacted : Bool) (signature : Option String)
  | otherBlock
deriving DecidableEq, Repr

/-- The `delta` of a `content_block_delta` event.  For thinking deltas the
string is the resolved `delta.get("text") or delta.get("thinking") or
delta.get("partial_text") or ""`. -/
inductive DeltaKind where
  | textDelta (text : String)
  | inputJsonDelta (partialJson : String)
  | thinkingDelta (redacted : Bool) (text : String)
  | otherDelta
deriving DecidableEq, Repr

/-- The `error` value of an `error` event: a plain string, a structured
dict (optional `message`/`type`), or anything else (carried as its `str()`
rendering). -/
inductive ErrVal where
  | estr (s : String)
  | edict (message ty : Option String)
  | eother (rendered : String)
deriving DecidableEq, Repr

/-- A decoded Anthropic stream event. -/
inductive AnthEvent where
  | ping
  | messageStart
  | contentBlockStart (index : Option ℕ) (block : BlockKind)
  | contentBlockDelta (index : Option ℕ) (delta : DeltaKind)
  | contentBlockStop (index : Option ℕ)
  | messageDelta (stopReason : Option String)
  | messageStop
  | errorEvt (e : ErrVal)
  | badData
  | unknown
deriving DecidableEq, Repr

/-- An emitted OpenAI chunk, structurally. -/
inductive OutChunk where
  | roleChunk
  | contentChunk (text : String)
  | toolCallChunk (openaiIndex : ℕ) (id name args : String)
  | reasoningChunk (text : String)
  | finishChunk (finishReason : String)
  | errorChunk (message ty : String)
  | doneChunk
deriving DecidableEq, Repr

/-- `tool_call_states` entry. -/
structure CallState where
  openaiIndex : ℕ
  id : String
  name : String
  arguments : String
deriving DecidableEq, Repr

/-- `current_thinking_blocks` entry. -/
structure ThinkAcc where
  thinking : String
  signature : Option String
deriving DecidableEq, Repr

/-- Association-list helpers for the ℕ-keyed per-request dicts. -/
def nGet {α : Type} (k : ℕ) : List (ℕ × α) → Option α
  | [] => none
  | (k', v) :: t => if k' = k then some v else nGet k t

def nSet {α : Type} (k : ℕ) (v : α) : List (ℕ × α) → List (ℕ × α)
  | [] => [(k, v)]
  | (k', v') :: t => if k' = k then (k, v) :: t else (k', v') :: nSet k v t

def nDel {α : Type} (k : ℕ) : List (ℕ × α) → List (ℕ × α)
  | [] => []
  | (k', v') :: t => if k' = k then nDel k t else (k', v') :: nDel k t

/-- Per-request converter state. -/
structure ConvState where
  toolCallStates : List (ℕ × CallState)
  nextToolIndex : ℕ
  thinkingStates : List ℕ
  currentToolUseIds : List String
  currentThinkingBlocks : List (ℕ × ThinkAcc)
  cachePuts : List (String × String × String)
  finished : Bool
deriving DecidableEq, Repr

def convInit : ConvState := ⟨[], 0, [], [], [], [], false⟩

/-- The first `current_thinking_blocks` accumulator holding accumulated
thinking text and a signature that is a non-whitespace string
(`message_stop` persists it to the thinking cache). -/
def firstSignedBlock : List (ℕ × ThinkAcc) → Option (String × String)
  | [] => none
  | (_, acc) :: t =>
      match acc.signature with
      | some sig =>
          if acc.thinking ≠ "" ∧ hasNonWs sig then some (acc.thinking, sig)
          else firstSignedBlock t
      | none => firstSignedBlock t

/-- One step of the converter's event loop (the body of
`for event in parser.feed(chunk)` in `convert_anthropic_stream_to_openai`,
after JSON decoding). -/
def convStep (s : ConvState) (e : AnthEvent) : List OutChunk × ConvState :=
  match e with
  | .ping => ([], s)
  | .badData => ([], s)
  | .unknown => ([], s)
  | .messageStart => ([.roleChunk], s)
  | .contentBlockStart idx blk =>
      match blk with
      | .toolUse id name =>
          match idx with
          | none => ([], s)
          | some i =>
              ([.toolCallChunk s.nextToolIndex id name ""],
                { s with
                    toolCallStates := nSet i ⟨s.nextToolIndex, id, name, ""⟩ s.toolCallStates,
                    nextToolIndex := s.nextToolIndex + 1,
                    currentToolUseIds :=
                      s.currentToolUseIds ++ (if id ≠ "" then [id] else []) })
      | .thinkingB _ sig =>
          match idx with
          | none => ([], s)
          | some i =>
              ([], { s with
                  thinkingStates :=
                    if i ∈ s.thinkingStates then s.thinkingStates
                    else s.thinkingStates ++ [i],
                  currentThinkingBlocks := nSet i ⟨"", sig⟩ s.currentThinkingBlocks })
      | .otherBlock => ([], s)
  | .contentBlockDelta idx dk =>
      match dk with
      | .textDelta t => if t ≠ "" then ([.contentChunk t], s) else ([], s)
      | .inputJsonDelta pj =>
          match idx with
          | none => ([], s)
          | some i =>
              match nGet i s.toolCallStates with
              | none => ([], s)
              | some cs =>
                  let cs2 : CallState := ⟨cs.openaiIndex, cs.id, cs.name, cs.arguments ++ pj⟩
                  ([], { s with toolCallStates := nSet i cs2 s.toolCallStates })
      | .thinkingDelta _ t =>
          match idx with
          | none => ([], s)
          | some i =>
              let s1 :=
                if i ∈ s.thinkingStates then s
                else { s with thinkingStates := s.thinkingStates ++ [i] }
              if t ≠ "" then
                ([.reasoningChunk t],
                  match nGet i s1.currentThinkingBlocks with
                  | some acc =>
                      let acc2 : ThinkAcc := ⟨acc.thinking ++ t, acc.signature⟩
                      { s1 with currentThinkingBlocks := nSet i acc2 s1.currentThinkingBlocks }
                  | none => s1)
              else ([], s1)
      | .otherDelta => ([], s)
  | .contentBlockStop idx =>
      match idx with
      | none => ([], s)
      | some i =>
          ((match nGet i s.toolCallStates with
            | some cs =>
                if cs.arguments ≠ "" then
                  [.toolCallChunk cs.openaiIndex cs.id cs.name cs.arguments]
                else []
            | none => []),
            { s with
                toolCallStates := nDel i s.toolCallStates,
                thinkingStates := s.thinkingStates.filter (fun j => j ≠ i) })
  | .messageStop =>
      let puts :=
        match firstSignedBlock s.currentThinkingBlocks with
        | some (th, sig) =>
            if s.currentToolUseIds ≠ [] then
              s.currentToolUseIds.map (fun tid => (tid, th, sig))
            else []
        | none => []
      ([], { s with
          currentToolUseIds := [], currentThinkingBlocks := [],
          cachePuts := s.cachePuts ++ puts, finished := true })
  | .messageDelta stopReason =>
      match stopReason with
      | some r =>
          if r ≠ "" then
            ([.finishChunk (map_stop_reason_to_finish_reason (some r))], s)
          else ([], s)
      | none => ([], s)
  | .errorEvt ev =>
      (([match ev with
          | .estr m => .errorChunk m "api_error"
          | .edict m t => .errorChunk (m.getD "Unknown error") (t.getD "api_error")
          | .eother m => .errorChunk m "api_error"]),
        { s with finished := true })

/-- The event loop: once a terminator set `stream_finished`, later events
are not consumed. -/
def processEvents (s : ConvState) : List AnthEvent → List OutChunk × ConvState
  | [] => ([], s)
  | e :: es =>
      if s.finished then ([], s)
      else
        ((convStep s e).1 ++ (processEvents (convStep s e).2 es).1,
          (processEvents (convStep s e).2 es).2)

/-- `convert_anthropic_stream_to_openai`: the emitted chunk sequence,
always closed by the `data: [DONE]` marker. -/
def convert_anthropic_stream_to_openai (events : List AnthEvent) : List OutChunk :=
  (processEvents convInit events).1 ++ [.doneChunk]

theorem convStep_no_done (s : ConvState) (e : AnthEvent) :
    OutChunk.doneChunk ∉ (convStep s e).1 := by
  cases e <;> simp only [convStep] <;> (repeat' split) <;> simp

theorem processEvents_no_done (events : List AnthEvent) :
    ∀ s : ConvState, OutChunk.doneChunk ∉ (processEvents s events).1 := by
  induction events with
  | nil => intro s; simp [processEvents]
  | cons e es ih =>
      intro s
      unfold processEvents
      split
      · simp
      · simp only [List.mem_append]
        intro hmem
        rcases hmem with hmem | hmem
        · exact convStep_no_done s e hmem
        · exact ih (convStep s e).2 hmem

/--
Claim C8 (confirmed): for every upstream event sequence the converter's
output contains the `data: [DONE]` terminator exactly once and it is the
last chunk; every modelled error path (upstream `error` event, JSON decode
failure) funnels into the same single terminator.
-/
theorem stream_done_terminator (events : List AnthEvent) :
    (convert_anthropic_stream_to_openai events).count OutChunk.doneChunk = 1 ∧
      (convert_anthropic_stream_to_openai events).getLast? = some OutChunk.doneChunk := by
  constructor
  · unfold convert_anthropic_stream_to_openai
    rw [List.count_append]
    rw [List.count_eq_zero.mpr (processEvents_no_done events convInit)]
    rfl
  · unfold convert_anthropic_stream_to_openai
    simp

theorem nGet_nSet_self {α : Type} (k : ℕ) (v : α) (l : List (ℕ × α)) :
    nGet k (nSet k v l) = some v := by
  induction l with
  | nil => simp [nGet, nSet]
  | cons p t ih =>
      obtain ⟨a, b⟩ := p
      by_cases h : a = k <;> simp [nGet, nSet, h, ih]

theorem nGet_nSet_ne {α : Type} (k k' : ℕ) (v : α) (l : List (ℕ × α)) (h : k' ≠ k) :
    nGet k' (nSet k v l) = nGet k' l := by
  induction l with
  | nil => simp [nGet, nSet, Ne.symm h]
  | cons p t ih =>
      obtain ⟨a, b⟩ := p
      by_cases hk : a = k
      · subst hk
        simp [nGet, nSet, Ne.symm h]
      · by_cases hk' : a = k' <;> simp [nGet, nSet, hk, hk', ih, h]

theorem nGet_nDel_self {α : Type} (k : ℕ) (l : List (ℕ × α)) :
    nGet k (nDel k l) = none := by
  induction l with
  | nil => rfl
  | cons p t ih =>
      obtain ⟨a, b⟩ := p
      by_cases h : a = k <;> simp [nGet, nDel, h, ih]

theorem nGet_nDel_ne {α : Type} (k k' : ℕ) (l : List (ℕ × α)) (h : k' ≠ k) :
    nGet k' (nDel k l) = nGet k' l := by
  induction l with
  | nil => rfl
  | cons p t ih =>
      obtain ⟨a, b⟩ := p
      by_cases hk : a = k
      · subst hk
        simp [nGet, nDel, Ne.symm h, ih]
      · by_cases hk' : a = k' <;> simp [nGet, nDel, hk, hk', ih, h]

theorem nGet_mem {α : Type} (k : ℕ) (v : α) (l : List (ℕ × α))
    (h : nGet k l = some v) : (k, v) ∈ l := by
  induction l with
  | nil => cases h
  | cons p t ih =>
      obtain ⟨a, b⟩ := p
      by_cases hk : a = k
      · subst hk
        simp [nGet] at h
        subst h
        exact List.mem_cons_self _ _
      · simp [nGet, hk] at h
        exact List.mem_cons_of_mem _ (ih h)

theorem nSet_mem {α : Type} (k : ℕ) (v : α) (l : List (ℕ × α)) (p : ℕ × α)
    (h : p ∈ nSet k v l) : p ∈ l ∨ p = (k, v) := by
  induction l with
  | nil =>
      simp [nSet] at h
      exact Or.inr h
  | cons q t ih =>
      obtain ⟨a, b⟩ := q
      by_cases hk : a = k
      · subst hk
        simp [nSet] at h
        rcases h with h | h
        · exact Or.inr h
        · exact Or.inl (List.mem_cons_of_mem _ h)
      · simp [nSet, hk] at h
        rcases h with h | h
        · exact Or.inl (by simp [h])
        · rcases ih h with h' | h'
          · exact Or.inl (List.mem_cons_of_mem _ h')
          · exact Or.inr h'

theorem nDel_mem {α : Type} (k : ℕ) (l : List (ℕ × α)) (p : ℕ × α)
    (h : p ∈ nDel k l) : p ∈ l ∧ p.1 ≠ k := by
  induction l with
  | nil => cases h
  | cons q t ih =>
      obtain ⟨a, b⟩ := q
      by_cases hk : a = k
      · subst hk
        simp [nDel] at h
        obtain ⟨h1, h2⟩ := ih h
        exact ⟨List.mem_cons_of_mem _ h1, h2⟩
      · simp [nDel, hk] at h
        rcases h with h | h
        · subst h
          exact ⟨List.mem_cons_self _ _, hk⟩
        · obtain ⟨h1, h2⟩ := ih h
          exact ⟨List.mem_cons_of_mem _ h1, h2⟩

/-- Terminator events: they set `stream_finished`, after which the loop
consumes nothing more. -/
def isTerminalEvt : AnthEvent → Bool
  | .messageStop => true
  | .errorEvt _ => true
  | _ => false

/-- Does the event start a `tool_use` block at input index `i`? -/
def startsToolAt (i : ℕ) : AnthEvent → Bool
  | .contentBlockStart (some k) (.toolUse _ _) => k == i
  | _ => false

/-- Does the event stop the block at input index `i`? -/
def stopsAt (i : ℕ) : AnthEvent → Bool
  | .contentBlockStop (some k) => k == i
  | _ => false

/-- The `partial_json` fragment an event contributes to block `i`. -/
def fragAtEvent (i : ℕ) : AnthEvent → String
  | .contentBlockDelta (some k) (.inputJsonDelta pj) => if k = i then pj else ""
  | _ => ""

/-- Accumulator-style concatenation of the `input_json_delta` fragments
addressed to block `i`. -/
def fragsAtAux (i : ℕ) : List AnthEvent → String → String
  | [], acc => acc
  | e :: t, acc => fragsAtAux i t (acc ++ fragAtEvent i e)

/-- Concatenation of all `input_json_delta` fragments for block `i`. -/
def fragsAt (i : ℕ) (es : List AnthEvent) : String := fragsAtAux i es ""

/-- The OpenAI tool-call index a chunk is addressed to, if any. -/
def chunkToolIdx : OutChunk → Option ℕ
  | .toolCallChunk k _ _ _ => some k
  | _ => none

/-- The sub-sequence of emitted chunks addressed to OpenAI tool-call
index `j`. -/
def argsChunksFor (j : ℕ) (out : List OutChunk) : List OutChunk :=
  out.filter (fun c => decide (chunkToolIdx c = some j))

/-- Every live tool-call state carries an OpenAI index below the counter. -/
def IdxBound (s : ConvState) : Prop :=
  ∀ q ∈ s.toolCallStates, (q : ℕ × CallState).2.openaiIndex < s.nextToolIndex

/-- OpenAI index `j` is retired: below the counter and owned by no live
tool-call state. -/
def Retired (j : ℕ) (s : ConvState) : Prop :=
  j < s.nextToolIndex ∧
    ∀ q ∈ s.toolCallStates, (q : ℕ × CallState).2.openaiIndex ≠ j

/-- Mid-episode invariant: the stream is not finished, input index `i`
holds a live tool-call state with OpenAI index `j`, identity `tid`/`nm`
and accumulated arguments `A`, `j` is below the counter, and no other
live state shares `j`. -/
def MidInv (i j : ℕ) (tid nm A : String) (s : ConvState) : Prop :=
  s.finished = false ∧
  nGet i s.toolCallStates = some ⟨j, tid, nm, A⟩ ∧
  j < s.nextToolIndex ∧
  ∀ q ∈ s.toolCallStates,
    (q : ℕ × CallState).1 ≠ i → (q : ℕ × CallState).2.openaiIndex ≠ j

theorem processEvents_finished (es : List AnthEvent) (s : ConvState)
    (h : s.finished = true) : processEvents s es = ([], s) := by
  cases es with
  | nil => rfl
  | cons e t => simp [processEvents, h]

theorem processEvents_append (xs ys : List AnthEvent) :
    ∀ s : ConvState,
      processEvents s (xs ++ ys) =
        ((processEvents s xs).1 ++ (processEvents (processEvents s xs).2 ys).1,
          (processEvents (processEvents s xs).2 ys).2) := by
  induction xs with
  | nil => intro s; simp [processEvents]
  | cons e t ih =>
      intro s
      by_cases h : s.finished = true
      · simp [processEvents, h, processEvents_finished ys s h]
      · simp [processEvents, h, ih, List.append_assoc]

theorem convStep_finished_eq (s : ConvState) (e : AnthEvent)
    (he : isTerminalEvt e = false) :
    (convStep s e).2.finished = s.finished := by
  cases e <;>
    first
      | rfl
      | (simp only [convStep]; (repeat' split) <;> rfl)
      | exact absurd he (by simp [isTerminalEvt])

theorem convStep_next_mono (s : ConvState) (e : AnthEvent) :
    s.nextToolIndex ≤ (convStep s e).2.nextToolIndex := by
  cases e <;> simp only [convStep] <;> (repeat' split) <;> simp

theorem processEvents_nofin (es : List AnthEvent) :
    ∀ s : ConvState, s.finished = false →
      (∀ e ∈ es, isTerminalEvt e = false) →
      (processEvents s es).2.finished = false := by
  induction es with
  | nil => intro s hs _; simpa [processEvents] using hs
  | cons e t ih =>
      intro s hs hall
      have hstep : (convStep s e).2.finished = false := by
        rw [convStep_finished_eq s e (hall e (List.mem_cons_self _ _))]
        exact hs
      have := ih (convStep s e).2 hstep (fun e' he' => hall e' (List.mem_cons_of_mem _ he'))
      simpa [processEvents, hs] using this

theorem convStep_start_tool (s : ConvState) (i : ℕ) (id nm : String) :
    convStep s (.contentBlockStart (some i) (.toolUse id nm)) =
      ([.toolCallChunk s.nextToolIndex id nm ""],
        { s with
            toolCallStates := nSet i ⟨s.nextToolIndex, id, nm, ""⟩ s.toolCallStates,
            nextToolIndex := s.nextToolIndex + 1,
            currentToolUseIds :=
              s.currentToolUseIds ++ (if id ≠ "" then [id] else []) }) := rfl

theorem convStep_start_think (s : ConvState) (idx : Option ℕ) (r : Bool)
    (sig : Option String) :
    (convStep s (.contentBlockStart idx (.thinkingB r sig))).1 = [] ∧
      (convStep s (.contentBlockStart idx (.thinkingB r sig))).2.toolCallStates =
        s.toolCallStates ∧
      (convStep s (.contentBlockStart idx (.thinkingB r sig))).2.nextToolIndex =
        s.nextToolIndex ∧
      (convStep s (.contentBlockStart idx (.thinkingB r sig))).2.finished =
        s.finished := by
  cases idx <;> simp [convStep]

theorem convStep_textDelta (s : ConvState) (idx : Option ℕ) (t : String) :
    (convStep s (.contentBlockDelta idx (.textDelta t))).2 = s ∧
      ∀ c ∈ (convStep s (.contentBlockDelta idx (.textDelta t))).1,
        chunkToolIdx c = none := by
  simp only [convStep]
  split <;> simp [chunkToolIdx]

theorem convStep_jsonDelta_none (s : ConvState) (i : ℕ) (pj : String)
    (h : nGet i s.toolCallStates = none) :
    convStep s (.contentBlockDelta (some i) (.inputJsonDelta pj)) = ([], s) := by
  simp only [convStep, h]

theorem convStep_jsonDelta_some (s : ConvState) (i : ℕ) (pj : String)
    (cs : CallState) (h : nGet i s.toolCallStates = some cs) :
    convStep s (.contentBlockDelta (some i) (.inputJsonDelta pj)) =
      ([], { s with
          toolCallStates :=
            nSet i ⟨cs.openaiIndex, cs.id, cs.name, cs.arguments ++ pj⟩
              s.toolCallStates }) := by
  simp only [convStep, h]

theorem convStep_thinkDelta (s : ConvState) (idx : Option ℕ) (r : Bool)
    (t : String) :
    (convStep s (.contentBlockDelta idx (.thinkingDelta r t))).2.toolCallStates =
        s.toolCallStates ∧
      (convStep s (.contentBlockDelta idx (.thinkingDelta r t))).2.nextToolIndex =
        s.nextToolIndex ∧
      (convStep s (.contentBlockDelta idx (.thinkingDelta r t))).2.finished =
        s.finished ∧
      ∀ c ∈ (convStep s (.contentBlockDelta idx (.thinkingDelta r t))).1,
        chunkToolIdx c = none := by
  cases idx <;> simp only [convStep] <;> (repeat' split) <;> simp [chunkToolIdx]

theorem convStep_stop_none (s : ConvState) (i : ℕ)
    (h : nGet i s.toolCallStates = none) :
    convStep s (.contentBlockStop (some i)) =
      ([], { s with
          toolCallStates := nDel i s.toolCallStates,
          thinkingStates := s.thinkingStates.filter (fun k => k ≠ i) }) := by
  simp only [convStep, h]

theorem convStep_stop_some (s : ConvState) (i : ℕ) (cs : CallState)
    (h : nGet i s.toolCallStates = some cs) :
    convStep s (.contentBlockStop (some i)) =
      ((if cs.arguments ≠ "" then
          [.toolCallChunk cs.openaiIndex cs.id cs.name cs.arguments]
        else []),
        { s with
            toolCallStates := nDel i s.toolCallStates,
            thinkingStates := s.thinkingStates.filter (fun k => k ≠ i) }) := by
  simp only [convStep, h]

theorem convStep_messageDelta (s : ConvState) (sr : Option String) :
    (convStep s (.messageDelta sr)).2 = s ∧
      ∀ c ∈ (convStep s (.messageDelta sr)).1, chunkToolIdx c = none := by
  cases sr <;> simp only [convStep] <;> (repeat' split) <;> simp [chunkToolIdx]

theorem convStep_messageStop (s : ConvState) :
    (convStep s .messageStop).1 = [] ∧
      (convStep s .messageStop).2.toolCallStates = s.toolCallStates ∧
      (convStep s .messageStop).2.nextToolIndex = s.nextToolIndex := by
  simp [convStep]

theorem convStep_errorEvt (s : ConvState) (ev : ErrVal) :
    (convStep s (.errorEvt ev)).2.toolCallStates = s.toolCallStates ∧
      (convStep s (.errorEvt ev)).2.nextToolIndex = s.nextToolIndex ∧
      ∀ c ∈ (convStep s (.errorEvt ev)).1, chunkToolIdx c = none := by
  cases ev <;> simp [convStep, chunkToolIdx]

theorem convStep_bound (s : ConvState) (e : AnthEvent) (h : IdxBound s) :
    IdxBound (convStep s e).2 ∧
      ∀ c ∈ (convStep s e).1, ∀ k, chunkToolIdx c = some k →
        k < (convStep s e).2.nextToolIndex := by
  cases e with
  | ping => exact ⟨h, by simp [convStep]⟩
  | badData => exact ⟨h, by simp [convStep]⟩
  | unknown => exact ⟨h, by simp [convStep]⟩
  | messageStart =>
      refine ⟨h, ?_⟩
      intro c hc k hk
      simp only [convStep, List.mem_singleton] at hc
      subst hc
      cases hk
  | contentBlockStart idx blk =>
      cases blk with
      | toolUse id nm =>
          cases idx with
          | none => exact ⟨h, by simp [convStep]⟩
          | some i =>
              rw [convStep_start_tool]
              constructor
              · intro q hq
                rcases nSet_mem i _ s.toolCallStates q hq with hq' | hq'
                · exact Nat.lt_succ_of_lt (h q hq')
                · rw [hq']
                  exact Nat.lt_succ_self _
              · intro c hc k hk
                simp only [List.mem_singleton] at hc
                subst hc
                simp only [chunkToolIdx, Option.some.injEq] at hk
                subst hk
                exact Nat.lt_succ_self _
      | thinkingB r sig =>
          obtain ⟨h1, h2, h3, _⟩ := convStep_start_think s idx r sig
          constructor
          · intro q hq
            rw [h2] at hq
            rw [h3]
            exact h q hq
          · intro c hc k hk
            rw [h1] at hc
            cases hc
      | otherBlock => exact ⟨h, by simp [convStep]⟩
  | contentBlockDelta idx dk =>
      cases dk with
      | textDelta t =>
          obtain ⟨h1, h2⟩ := convStep_textDelta s idx t
          constructor
          · intro q hq
            rw [h1] at hq
            rw [h1]
            exact h q hq
          · intro c hc k hk
            rw [h2 c hc] at hk
            cases hk
      | inputJsonDelta pj =>
          cases idx with
          | none => exact ⟨h, by simp [convStep]⟩
          | some i =>
              cases hg : nGet i s.toolCallStates with
              | none =>
                  rw [convStep_jsonDelta_none s i pj hg]
                  exact ⟨h, by simp⟩
              | some cs =>
                  rw [convStep_jsonDelta_some s i pj cs hg]
                  constructor
                  · intro q hq
                    rcases nSet_mem i _ s.toolCallStates q hq with hq' | hq'
                    · exact h q hq'
                    · rw [hq']
                      exact h (i, cs) (nGet_mem i cs s.toolCallStates hg)
                  · intro c hc k hk
                    simp at hc
      | thinkingDelta r t =>
          obtain ⟨h1, h2, _, h4⟩ := convStep_thinkDelta s idx r t
          constructor
          · intro q hq
            rw [h1] at hq
            rw [h2]
            exact h q hq
          · intro c hc k hk
            rw [h4 c hc] at hk
            cases hk
      | otherDelta => exact ⟨h, by simp [convStep]⟩
  | contentBlockStop idx =>
      cases idx with
      | none => exact ⟨h, by simp [convStep]⟩
      | some i =>
          cases hg : nGet i s.toolCallStates with
          | none =>
              rw [convStep_stop_none s i hg]
              constructor
              · intro q hq
                exact h q (nDel_mem i s.toolCallStates q hq).1
              · intro c hc k hk
                cases hc
          | some cs =>
              rw [convStep_stop_some s i cs hg]
              constructor
              · intro q hq
                exact h q (nDel_mem i s.toolCallStates q hq).1
              · intro c hc k hk
                split at hc
                · simp only [List.mem_singleton] at hc
                  subst hc
                  simp only [chunkToolIdx, Option.some.injEq] at hk
                  subst hk
                  exact h (i, cs) (nGet_mem i cs s.toolCallStates hg)
                · cases hc
  | messageDelta sr =>
      obtain ⟨h1, h2⟩ := convStep_messageDelta s sr
      constructor
      · intro q hq
        rw [h1] at hq
        rw [h1]
        exact h q hq
      · intro c hc k hk
        rw [h2 c hc] at hk
        cases hk
  | messageStop =>
      obtain ⟨h1, h2, h3⟩ := convStep_messageStop s
      constructor
      · intro q hq
        rw [h2] at hq
        rw [h3]
        exact h q hq
      · intro c hc k hk
        rw [h1] at hc
        cases hc
  | errorEvt ev =>
      obtain ⟨h1, h2, h3⟩ := convStep_errorEvt s ev
      constructor
      · intro q hq
        rw [h1] at hq
        rw [h2]
        exact h q hq
      · intro c hc k hk
        rw [h3 c hc] at hk
        cases hk

theorem processEvents_bound (es : List AnthEvent) :
    ∀ s : ConvState, IdxBound s →
      IdxBound (processEvents s es).2 ∧
        s.nextToolIndex ≤ (processEvents s es).2.nextToolIndex ∧
        ∀ c ∈ (processEvents s es).1, ∀ k, chunkToolIdx c = some k →
          k < (processEvents s es).2.nextToolIndex := by
  induction es with
  | nil =>
      intro s h
      exact ⟨h, le_refl _, by simp [processEvents]⟩
  | cons e t ih =>
      intro s h
      by_cases hf : s.finished = true
      · rw [processEvents, if_pos hf]
        exact ⟨h, le_refl _, by simp⟩
      · obtain ⟨h1, h2⟩ := convStep_bound s e h
        obtain ⟨ih1, ih2, ih3⟩ := ih (convStep s e).2 h1
        rw [processEvents, if_neg hf]
        refine ⟨ih1, le_trans (convStep_next_mono s e) ih2, ?_⟩
        intro c hc k hk
        rcases List.mem_append.mp hc with hc' | hc'
        · exact lt_of_lt_of_le (h2 c hc' k hk) ih2
        · exact ih3 c hc' k hk

theorem convStep_retired (j : ℕ) (s : ConvState) (e : AnthEvent)
    (h : Retired j s) :
    Retired j (convStep s e).2 ∧
      ∀ c ∈ (convStep s e).1, chunkToolIdx c ≠ some j := by
  obtain ⟨hlt, hown⟩ := h
  cases e with
  | ping => exact ⟨⟨hlt, hown⟩, by simp [convStep]⟩
  | badData => exact ⟨⟨hlt, hown⟩, by simp [convStep]⟩
  | unknown => exact ⟨⟨hlt, hown⟩, by simp [convStep]⟩
  | messageStart =>
      refine ⟨⟨hlt, hown⟩, ?_⟩
      intro c hc
      simp only [convStep, List.mem_singleton] at hc
      subst hc
      simp [chunkToolIdx]
  | contentBlockStart idx blk =>
      cases blk with
      | toolUse id nm =>
          cases idx with
          | none => exact ⟨⟨hlt, hown⟩, by simp [convStep]⟩
          | some i =>
              rw [convStep_start_tool]
              constructor
              · refine ⟨Nat.lt_succ_of_lt hlt, ?_⟩
                intro q hq
                rcases nSet_mem i _ s.toolCallStates q hq with hq' | hq'
                · exact hown q hq'
                · rw [hq']
                  exact Nat.ne_of_gt hlt
              · intro c hc
                simp only [List.mem_singleton] at hc
                subst hc
                simp only [chunkToolIdx, ne_eq, Option.some.injEq]
                exact Nat.ne_of_gt hlt
      | thinkingB r sig =>
          obtain ⟨h1, h2, h3, _⟩ := convStep_start_think s idx r sig
          constructor
          · refine ⟨by rw [h3]; exact hlt, ?_⟩
            intro q hq
            rw [h2] at hq
            exact hown q hq
          · intro c hc
            rw [h1] at hc
            cases hc
      | otherBlock => exact ⟨⟨hlt, hown⟩, by simp [convStep]⟩
  | contentBlockDelta idx dk =>
      cases dk with
      | textDelta t =>
          obtain ⟨h1, h2⟩ := convStep_textDelta s idx t
          constructor
          · rw [h1]
            exact ⟨hlt, hown⟩
          · intro c hc
            rw [h2 c hc]
            simp
      | inputJsonDelta pj =>
          cases idx with
          | none => exact ⟨⟨hlt, hown⟩, by simp [convStep]⟩
          | some i =>
              cases hg : nGet i s.toolCallStates with
              | none =>
                  rw [convStep_jsonDelta_none s i pj hg]
                  exact ⟨⟨hlt, hown⟩, by simp⟩
              | some cs =>
                  rw [convStep_jsonDelta_some s i pj cs hg]
                  constructor
                  · refine ⟨hlt, ?_⟩
                    intro q hq
                    rcases nSet_mem i _ s.toolCallStates q hq with hq' | hq'
                    · exact hown q hq'
                    · rw [hq']
                      exact hown (i, cs) (nGet_mem i cs s.toolCallStates hg)
                  · intro c hc
                    cases hc
      | thinkingDelta r t =>
          obtain ⟨h1, h2, _, h4⟩ := convStep_thinkDelta s idx r t
          constructor
          · refine ⟨by rw [h2]; exact hlt, ?_⟩
            intro q hq
            rw [h1] at hq
            exact hown q hq
          · intro c hc
            rw [h4 c hc]
            simp
      | otherDelta => exact ⟨⟨hlt, hown⟩, by simp [convStep]⟩
  | contentBlockStop idx =>
      cases idx with
      | none => exact ⟨⟨hlt, hown⟩, by simp [convStep]⟩
      | some i =>
          cases hg : nGet i s.toolCallStates with
          | none =>
              rw [convStep_stop_none s i hg]
              constructor
              · refine ⟨hlt, ?_⟩
                intro q hq
                exact hown q (nDel_mem i s.toolCallStates q hq).1
              · intro c hc
                cases hc
          | some cs =>
              rw [convStep_stop_some s i cs hg]
              constructor
              · refine ⟨hlt, ?_⟩
                intro q hq
                exact hown q (nDel_mem i s.toolCallStates q hq).1
              · intro c hc
                split at hc
                · simp only [List.mem_singleton] at hc
                  subst hc
                  simp only [chunkToolIdx, ne_eq, Option.some.injEq]
                  exact hown (i, cs) (nGet_mem i cs s.toolCallStates hg)
                · cases hc
  | messageDelta sr =>
      obtain ⟨h1, h2⟩ := convStep_messageDelta s sr
      constructor
      · rw [h1]
        exact ⟨hlt, hown⟩
      · intro c hc
        rw [h2 c hc]
        simp
  | messageStop =>
      obtain ⟨h1, h2, h3⟩ := convStep_messageStop s
      constructor
      · refine ⟨by rw [h3]; exact hlt, ?_⟩
        intro q hq
        rw [h2] at hq
        exact hown q hq
      · intro c hc
        rw [h1] at hc
        cases hc
  | errorEvt ev =>
      obtain ⟨h1, h2, h3⟩ := convStep_errorEvt s ev
      constructor
      · refine ⟨by rw [h2]; exact hlt, ?_⟩
        intro q hq
        rw [h1] at hq
        exact hown q hq
      · intro c hc
        rw [h3 c hc]
        simp

theorem processEvents_retired (j : ℕ) (es : List AnthEvent) :
    ∀ s : ConvState, Retired j s →
      Retired j (processEvents s es).2 ∧
        ∀ c ∈ (processEvents s es).1, chunkToolIdx c ≠ some j := by
  induction es with
  | nil =>
      intro s h
      exact ⟨h, by simp [processEvents]⟩
  | cons e t ih =>
      intro s h
      by_cases hf : s.finished = true
      · rw [processEvents, if_pos hf]
        exact ⟨h, by simp⟩
      · obtain ⟨h1, h2⟩ := convStep_retired j s e h
        obtain ⟨ih1, ih2⟩ := ih (convStep s e).2 h1
        rw [processEvents, if_neg hf]
        refine ⟨ih1, ?_⟩
        intro c hc
        rcases List.mem_append.mp hc with hc' | hc'
        · exact h2 c hc'
        · exact ih2 c hc'

theorem convStep_mid (i j : ℕ) (tid nm A : String) (s : ConvState) (e : AnthEvent)
    (hterm : isTerminalEvt e = false)
    (hstart : startsToolAt i e = false)
    (hstop : stopsAt i e = false)
    (h : MidInv i j tid nm A s) :
    MidInv i j tid nm (A ++ fragAtEvent i e) (convStep s e).2 ∧
      ∀ c ∈ (convStep s e).1, chunkToolIdx c ≠ some j := by
  obtain ⟨hfin, hget, hlt, hoth⟩ := h
  cases e with
  | ping =>
      refine ⟨?_, by simp [convStep]⟩
      simpa [fragAtEvent, String.append_empty, convStep] using
        ⟨hfin, hget, hlt, hoth⟩
  | badData =>
      refine ⟨?_, by simp [convStep]⟩
      simpa [fragAtEvent, String.append_empty, convStep] using
        ⟨hfin, hget, hlt, hoth⟩
  | unknown =>
      refine ⟨?_, by simp [convStep]⟩
      simpa [fragAtEvent, String.append_empty, convStep] using
        ⟨hfin, hget, hlt, hoth⟩
  | messageStart =>
      constructor
      · simpa [fragAtEvent, String.append_empty, convStep] using
          ⟨hfin, hget, hlt, hoth⟩
      · intro c hc
        simp only [convStep, List.mem_singleton] at hc
        subst hc
        simp [chunkToolIdx]
  | contentBlockStart idx blk =>
      cases blk with
      | toolUse id nm2 =>
          cases idx with
          | none =>
              refine ⟨?_, by simp [convStep]⟩
              simpa [fragAtEvent, String.append_empty, convStep] using
                ⟨hfin, hget, hlt, hoth⟩
          | some k =>
              have hki : k ≠ i := by
                simpa [startsToolAt] using hstart
              rw [convStep_start_tool]
              constructor
              · rw [show fragAtEvent i
                    (.contentBlockStart (some k) (.toolUse id nm2)) = ""
                    from rfl, String.append_empty]
                refine ⟨hfin, ?_, Nat.lt_succ_of_lt hlt, ?_⟩
                · rw [nGet_nSet_ne k i _ s.toolCallStates (Ne.symm hki)]
                  exact hget
                · intro q hq hq1
                  rcases nSet_mem k _ s.toolCallStates q hq with hq' | hq'
                  · exact hoth q hq' hq1
                  · rw [hq']
                    exact Nat.ne_of_gt hlt
              · intro c hc
                simp only [List.mem_singleton] at hc
                subst hc
                simp only [chunkToolIdx, ne_eq, Option.some.injEq]
                exact Nat.ne_of_gt hlt
      | thinkingB r sig =>
          obtain ⟨h1, h2, h3, h4⟩ := convStep_start_think s idx r sig
          constructor
          · rw [show fragAtEvent i (.contentBlockStart idx (.thinkingB r sig)) = ""
                from rfl, String.append_empty]
            refine ⟨by rw [h4]; exact hfin, by rw [h2]; exact hget,
              by rw [h3]; exact hlt, ?_⟩
            intro q hq hq1
            rw [h2] at hq
            exact hoth q hq hq1
          · intro c hc
            rw [h1] at hc
            cases hc
      | otherBlock =>
          refine ⟨?_, by simp [convStep]⟩
          simpa [fragAtEvent, String.append_empty, convStep] using
            ⟨hfin, hget, hlt, hoth⟩
  | contentBlockDelta idx dk =>
      cases dk with
      | textDelta t =>
          obtain ⟨h1, h2⟩ := convStep_textDelta s idx t
          constructor
          · rw [h1, show fragAtEvent i (.contentBlockDelta idx (.textDelta t)) = ""
                from by cases idx <;> rfl, String.append_empty]
            exact ⟨hfin, hget, hlt, hoth⟩
          · intro c hc
            rw [h2 c hc]
            simp
      | inputJsonDelta pj =>
          cases idx with
          | none =>
              refine ⟨?_, by simp [convStep]⟩
              simpa [fragAtEvent, String.append_empty, convStep] using
                ⟨hfin, hget, hlt, hoth⟩
          | some k =>
              by_cases hki : k = i
              · subst hki
                rw [convStep_jsonDelta_some s k pj ⟨j, tid, nm, A⟩ hget]
                constructor
                · rw [show fragAtEvent k
                      (.contentBlockDelta (some k) (.inputJsonDelta pj)) = pj
                      from by simp [fragAtEvent]]
                  refine ⟨hfin, ?_, hlt, ?_⟩
                  · exact nGet_nSet_self k _ s.toolCallStates
                  · intro q hq hq1
                    rcases nSet_mem k _ s.toolCallStates q hq with hq' | hq'
                    · exact hoth q hq' hq1
                    · exact absurd (by rw [hq']) hq1
                · intro c hc
                  cases hc
              · cases hg : nGet k s.toolCallStates with
                | none =>
                    rw [convStep_jsonDelta_none s k pj hg]
                    refine ⟨?_, by simp⟩
                    rw [show fragAtEvent i
                        (.contentBlockDelta (some k) (.inputJsonDelta pj)) =
                          (if k = i then pj else "") from rfl,
                      if_neg hki, String.append_empty]
                    exact ⟨hfin, hget, hlt, hoth⟩
                | some cs =>
                    rw [convStep_jsonDelta_some s k pj cs hg]
                    constructor
                    · rw [show fragAtEvent i
                          (.contentBlockDelta (some k) (.inputJsonDelta pj)) =
                            (if k = i then pj else "") from rfl,
                        if_neg hki, String.append_empty]
                      refine ⟨hfin, ?_, hlt, ?_⟩
                      · rw [nGet_nSet_ne k i _ s.toolCallStates (Ne.symm hki)]
                        exact hget
                      · intro q hq hq1
                        rcases nSet_mem k _ s.toolCallStates q hq with hq' | hq'
                        · exact hoth q hq' hq1
                        · rw [hq']
                          exact hoth (k, cs) (nGet_mem k cs s.toolCallStates hg) hki
                    · intro c hc
                      cases hc
      | thinkingDelta r t =>
          obtain ⟨h1, h2, h3, h4⟩ := convStep_thinkDelta s idx r t
          constructor
          · rw [show fragAtEvent i (.contentBlockDelta idx (.thinkingDelta r t)) = ""
                from by cases idx <;> rfl, String.append_empty]
            refine ⟨by rw [h3]; exact hfin, by rw [h1]; exact hget,
              by rw [h2]; exact hlt, ?_⟩
            intro q hq hq1
            rw [h1] at hq
            exact hoth q hq hq1
          · intro c hc
            rw [h4 c hc]
            simp
      | otherDelta =>
          refine ⟨?_, by simp [convStep]⟩
          simpa [fragAtEvent, String.append_empty, convStep] using
            ⟨hfin, hget, hlt, hoth⟩
  | contentBlockStop idx =>
      cases idx with
      | none =>
          refine ⟨?_, by simp [convStep]⟩
          simpa [fragAtEvent, String.append_empty, convStep] using
            ⟨hfin, hget, hlt, hoth⟩
      | some k =>
          have hki : k ≠ i := by
            simpa [stopsAt] using hstop
          have hmid : MidInv i j tid nm (A ++ fragAtEvent i (.contentBlockStop (some k)))
              { s with
                  toolCallStates := nDel k s.toolCallStates,
                  thinkingStates := s.thinkingStates.filter (fun m => m ≠ k) } := by
            rw [show fragAtEvent i (.contentBlockStop (some k)) = "" from rfl,
              String.append_empty]
            refine ⟨hfin, ?_, hlt, ?_⟩
            · rw [nGet_nDel_ne k i s.toolCallStates (Ne.symm hki)]
              exact hget
            · intro q hq hq1
              exact hoth q (nDel_mem k s.toolCallStates q hq).1 hq1
          cases hg : nGet k s.toolCallStates with
          | none =>
              rw [convStep_stop_none s k hg]
              exact ⟨hmid, by simp⟩
          | some cs =>
              rw [convStep_stop_some s k cs hg]
              refine ⟨hmid, ?_⟩
              intro c hc
              split at hc
              · simp only [List.mem_singleton] at hc
                subst hc
                simp only [chunkToolIdx, ne_eq, Option.some.injEq]
                exact hoth (k, cs) (nGet_mem k cs s.toolCallStates hg) hki
              · cases hc
  | messageDelta sr =>
      obtain ⟨h1, h2⟩ := convStep_messageDelta s sr
      constructor
      · rw [h1, show fragAtEvent i (.messageDelta sr) = "" from rfl,
          String.append_empty]
        exact ⟨hfin, hget, hlt, hoth⟩
      · intro c hc
        rw [h2 c hc]
        simp
  | messageStop => exact absurd hterm (by simp [isTerminalEvt])
  | errorEvt ev => exact absurd hterm (by simp [isTerminalEvt])

theorem processEvents_mid (i j : ℕ) (tid nm : String) (m : List AnthEvent) :
    ∀ (A : String) (s : ConvState),
      (∀ e ∈ m, isTerminalEvt e = false ∧ startsToolAt i e = false ∧
        stopsAt i e = false) →
      MidInv i j tid nm A s →
      MidInv i j tid nm (fragsAtAux i m A) (processEvents s m).2 ∧
        ∀ c ∈ (processEvents s m).1, chunkToolIdx c ≠ some j := by
  induction m with
  | nil =>
      intro A s _ h
      exact ⟨h, by simp [processEvents]⟩
  | cons e t ih =>
      intro A s hall h
      have hf : s.finished = false := h.1
      have he := hall e (List.mem_cons_self _ _)
      obtain ⟨h1, h2⟩ := convStep_mid i j tid nm A s e he.1 he.2.1 he.2.2 h
      obtain ⟨ih1, ih2⟩ :=
        ih (A ++ fragAtEvent i e) (convStep s e).2
          (fun e' he' => hall e' (List.mem_cons_of_mem _ he')) h1
      rw [processEvents, if_neg (by rw [hf]; exact Bool.false_ne_true)]
      refine ⟨ih1, ?_⟩
      intro c hc
      rcases List.mem_append.mp hc with hc' | hc'
      · exact h2 c hc'
      · exact ih2 c hc'

theorem argsChunksFor_append (j : ℕ) (a b : List OutChunk) :
    argsChunksFor j (a ++ b) = argsChunksFor j a ++ argsChunksFor j b := by
  unfold argsChunksFor
  exact List.filter_append _ _

theorem argsChunksFor_none (j : ℕ) (l : List OutChunk)
    (h : ∀ c ∈ l, chunkToolIdx c ≠ some j) :
    argsChunksFor j l = [] := by
  unfold argsChunksFor
  refine List.filter_eq_nil_iff.mpr ?_
  intro c hc
  simpa using h c hc

theorem midInv_after_start (s0 : ConvState) (i : ℕ) (tid nm : String)
    (hB : IdxBound s0) (hfin : s0.finished = false) :
    MidInv i s0.nextToolIndex tid nm ""
      (convStep s0 (.contentBlockStart (some i) (.toolUse tid nm))).2 := by
  rw [convStep_start_tool]
  refine ⟨hfin, nGet_nSet_self i _ s0.toolCallStates, Nat.lt_succ_self _, ?_⟩
  intro q hq hq1
  rcases nSet_mem i _ s0.toolCallStates q hq with hq' | hq'
  · exact Nat.ne_of_lt (hB q hq')
  · exact absurd (by rw [hq']) hq1

theorem retired_after_stop (i j : ℕ) (tid nm A : String) (s2 : ConvState)
    (h : MidInv i j tid nm A s2) :
    Retired j (convStep s2 (.contentBlockStop (some i))).2 := by
  obtain ⟨_, hget, hlt, hoth⟩ := h
  rw [convStep_stop_some s2 i _ hget]
  exact ⟨hlt, fun q' hq' =>
    hoth q' (nDel_mem i _ q' hq').1 (nDel_mem i _ q' hq').2⟩

theorem run_from_start_pre (s0 : ConvState) (m : List AnthEvent) (i : ℕ)
    (tid nm : String) (hfin : s0.finished = false) (hB : IdxBound s0)
    (hm : ∀ e ∈ m, isTerminalEvt e = false ∧ startsToolAt i e = false ∧
      stopsAt i e = false) :
    argsChunksFor s0.nextToolIndex
        (processEvents s0
          (.contentBlockStart (some i) (.toolUse tid nm) :: m)).1 =
      [.toolCallChunk s0.nextToolIndex tid nm ""] := by
  obtain ⟨hmid2, hnc⟩ := processEvents_mid i s0.nextToolIndex tid nm m ""
    (convStep s0 (.contentBlockStart (some i) (.toolUse tid nm))).2 hm
    (midInv_after_start s0 i tid nm hB hfin)
  have hhdr : argsChunksFor s0.nextToolIndex
      (convStep s0 (.contentBlockStart (some i) (.toolUse tid nm))).1 =
      [.toolCallChunk s0.nextToolIndex tid nm ""] := by
    rw [convStep_start_tool]
    simp [argsChunksFor, chunkToolIdx]
  rw [processEvents, if_neg (by rw [hfin]; exact Bool.false_ne_true),
    argsChunksFor_append, hhdr, argsChunksFor_none _ _ hnc, List.append_nil]

theorem run_from_start_full (s0 : ConvState) (m q : List AnthEvent) (i : ℕ)
    (tid nm : String) (hfin : s0.finished = false) (hB : IdxBound s0)
    (hm : ∀ e ∈ m, isTerminalEvt e = false ∧ startsToolAt i e = false ∧
      stopsAt i e = false) :
    argsChunksFor s0.nextToolIndex
        (processEvents s0
          (.contentBlockStart (some i) (.toolUse tid nm) ::
            (m ++ .contentBlockStop (some i) :: q))).1 =
      .toolCallChunk s0.nextToolIndex tid nm "" ::
        (if fragsAt i m = "" then []
          else [.toolCallChunk s0.nextToolIndex tid nm (fragsAt i m)]) := by
  obtain ⟨hmid2, hnc⟩ := processEvents_mid i s0.nextToolIndex tid nm m ""
    (convStep s0 (.contentBlockStart (some i) (.toolUse tid nm))).2 hm
    (midInv_after_start s0 i tid nm hB hfin)
  have hfin2 : (processEvents
      (convStep s0 (.contentBlockStart (some i) (.toolUse tid nm))).2
      m).2.finished = false := hmid2.1
  have hget2 : nGet i (processEvents
      (convStep s0 (.contentBlockStart (some i) (.toolUse tid nm))).2
      m).2.toolCallStates =
      some ⟨s0.nextToolIndex, tid, nm, fragsAt i m⟩ := hmid2.2.1
  have hq_none := (processEvents_retired s0.nextToolIndex q
    (convStep (processEvents
        (convStep s0 (.contentBlockStart (some i) (.toolUse tid nm))).2 m).2
      (.contentBlockStop (some i))).2
    (retired_after_stop i s0.nextToolIndex tid nm (fragsAt i m) _ hmid2)).2
  have hhdr : argsChunksFor s0.nextToolIndex
      (convStep s0 (.contentBlockStart (some i) (.toolUse tid nm))).1 =
      [.toolCallChunk s0.nextToolIndex tid nm ""] := by
    rw [convStep_start_tool]
    simp [argsChunksFor, chunkToolIdx]
  have hstopc : argsChunksFor s0.nextToolIndex
      (convStep (processEvents
          (convStep s0 (.contentBlockStart (some i) (.toolUse tid nm))).2 m).2
        (.contentBlockStop (some i))).1 =
      (if fragsAt i m = "" then []
        else [.toolCallChunk s0.nextToolIndex tid nm (fragsAt i m)]) := by
    rw [convStep_stop_some _ i _ hget2]
    by_cases hA : fragsAt i m = ""
    · simp [argsChunksFor, hA]
    · simp [argsChunksFor, chunkToolIdx, hA]
  rw [processEvents, if_neg (by rw [hfin]; exact Bool.false_ne_true),
    argsChunksFor_append, hhdr,
    processEvents_append m (.contentBlockStop (some i) :: q) _,
    argsChunksFor_append, argsChunksFor_none _ _ hnc,
    processEvents, if_neg (by rw [hfin2]; exact Bool.false_ne_true),
    argsChunksFor_append, hstopc, argsChunksFor_none _ _ hq_none]
  simp

theorem processEvents_append_fst (xs ys : List AnthEvent) (s : ConvState) :
    (processEvents s (xs ++ ys)).1 =
      (processEvents s xs).1 ++ (processEvents (processEvents s xs).2 ys).1 := by
  rw [processEvents_append]

/--
Claim C1 (corrected): tool-call arguments are atomic, but only once the
block's `content_block_stop` arrives. For every run made of a
non-terminating prelude `p`, a `tool_use` `content_block_start` at input
index `i`, and a middle segment `m` that neither terminates the stream nor
starts a tool block or stops a block at index `i`: the chunks addressed to
this call's OpenAI tool index are exactly the empty-arguments header — and,
once the block's `content_block_stop` is consumed, additionally one single
chunk carrying exactly the concatenation of all `partial_json` fragments of
`m` (no chunk at all when no fragment arrived), whatever events `q` follow.
So no chunk ever carries a proper non-empty prefix of the arguments; but on
a stream that ends or terminates before the block's stop, the fragments are
dropped and no non-empty-arguments chunk is emitted, refuting the original
unconditional "exactly one non-empty arguments chunk" reading.
-/
theorem stream_tool_args_atomic
    (p m q : List AnthEvent) (i : ℕ) (tid nm : String)
    (hp : ∀ e ∈ p, isTerminalEvt e = false)
    (hm : ∀ e ∈ m, isTerminalEvt e = false ∧ startsToolAt i e = false ∧
      stopsAt i e = false) :
    ∃ j : ℕ,
      argsChunksFor j (convert_anthropic_stream_to_openai
          (p ++ AnthEvent.contentBlockStart (some i) (BlockKind.toolUse tid nm)
            :: m)) =
        [OutChunk.toolCallChunk j tid nm ""] ∧
      argsChunksFor j (convert_anthropic_stream_to_openai
          (p ++ AnthEvent.contentBlockStart (some i) (BlockKind.toolUse tid nm)
            :: (m ++ AnthEvent.contentBlockStop (some i) :: q))) =
        OutChunk.toolCallChunk j tid nm "" ::
          (if fragsAt i m = "" then []
            else [OutChunk.toolCallChunk j tid nm (fragsAt i m)]) := by
  have hinit : IdxBound convInit := by intro c hc; cases hc
  obtain ⟨hB, _, hpc⟩ := processEvents_bound p convInit hinit
  have hfin0 : (processEvents convInit p).2.finished = false :=
    processEvents_nofin p convInit rfl hp
  have hp_none : ∀ c ∈ (processEvents convInit p).1,
      chunkToolIdx c ≠ some (processEvents convInit p).2.nextToolIndex := by
    intro c hc hk
    exact lt_irrefl _ (hpc c hc _ hk)
  refine ⟨(processEvents convInit p).2.nextToolIndex, ?_, ?_⟩
  · unfold convert_anthropic_stream_to_openai
    rw [processEvents_append_fst p
        (AnthEvent.contentBlockStart (some i) (BlockKind.toolUse tid nm) :: m)
        convInit,
      argsChunksFor_append, argsChunksFor_append,
      argsChunksFor_none _ _ hp_none,
      run_from_start_pre (processEvents convInit p).2 m i tid nm hfin0 hB hm]
    simp [argsChunksFor, chunkToolIdx]
  · unfold convert_anthropic_stream_to_openai
    rw [processEvents_append_fst p
        (AnthEvent.contentBlockStart (some i) (BlockKind.toolUse tid nm)
          :: (m ++ AnthEvent.contentBlockStop (some i) :: q))
        convInit,
      argsChunksFor_append, argsChunksFor_append,
      argsChunksFor_none _ _ hp_none,
      run_from_start_full (processEvents convInit p).2 m q i tid nm hfin0 hB hm]
    simp [argsChunksFor, chunkToolIdx]

/--
Claim C1 witness: the episode theorem applied at the concrete run
start(tool), one fragment "ab", stop — the header plus exactly one chunk
carrying "ab".
-/
theorem stream_tool_args_atomic_witness :
    ∃ j : ℕ,
      argsChunksFor j (convert_anthropic_stream_to_openai
          ([] ++ AnthEvent.contentBlockStart (some 0) (BlockKind.toolUse "t" "f")
            :: [AnthEvent.contentBlockDelta (some 0)
                  (DeltaKind.inputJsonDelta "ab")])) =
        [OutChunk.toolCallChunk j "t" "f" ""] ∧
      argsChunksFor j (convert_anthropic_stream_to_openai
          ([] ++ AnthEvent.contentBlockStart (some 0) (BlockKind.toolUse "t" "f")
            :: ([AnthEvent.contentBlockDelta (some 0)
                  (DeltaKind.inputJsonDelta "ab")] ++
                AnthEvent.contentBlockStop (some 0) :: []))) =
        OutChunk.toolCallChunk j "t" "f" "" ::
          (if fragsAt 0 [AnthEvent.contentBlockDelta (some 0)
              (DeltaKind.inputJsonDelta "ab")] = "" then []
            else [OutChunk.toolCallChunk j "t" "f"
              (fragsAt 0 [AnthEvent.contentBlockDelta (some 0)
                (DeltaKind.inputJsonDelta "ab")])]) :=
  stream_tool_args_atomic []
    [AnthEvent.contentBlockDelta (some 0) (DeltaKind.inputJsonDelta "ab")]
    [] 0 "t" "f" (by intro e he; cases he) (by decide)

/--
Claim C1 counterexample: a `partial_json` fragment arrives but the stream
terminates (`message_stop`) before the block's `content_block_stop`; only
the empty-arguments header and the terminator are emitted, so no chunk
carries the non-empty arguments "ab" — the original claim's unconditional
"exactly one chunk carries a non-empty arguments value" fails.
-/
theorem stream_tool_args_atomic_cex :
    convert_anthropic_stream_to_openai
        [AnthEvent.contentBlockStart (some 0) (BlockKind.toolUse "t" "f"),
         AnthEvent.contentBlockDelta (some 0) (DeltaKind.inputJsonDelta "ab"),
         AnthEvent.messageStop] =
      [OutChunk.toolCallChunk 0 "t" "f" "", OutChunk.doneChunk] := rfl

/-! ## OpenAI → Anthropic message conversion
(`src/openai_compat/message_converter.py` together with the content and
tool converters it calls)

`json.loads` (`jloads`), `json.dumps` (`jdumps`), the `str()` rendering
(`pyStr`) and the data-URI regex of the image branch (`reImg`, returning
the media-type and base64 groups of
`data:image/(\w+);base64,(.+)`) are taken as parameters.  An
`Except.error ()` models a raised exception — or, for the merge loop,
non-termination: the Python `while` never advances past a message whose
role is none of user/tool/function/assistant, so the fuel
(`length + 1`, enough for every productive run) runs out exactly on the
diverging inputs. -/

def pyRstrip (s : String) : String :=
  String.mk ((s.toList.reverse.dropWhile isPyWs).reverse)

def hasKey (k : String) (d : Dict) : Bool := (aget k d).isSome

/-- One item of `convert_openai_content_to_anthropic`
(content_converter.py): the `tool_result` inner `content` normalisation. -/
def toolResultInner (jdumps pyStr : Value → String) :
    Option Value → Except Unit String
  | some (.vlist parts) => do
      let texts ← parts.mapM (fun part =>
        match part with
        | .vdict p =>
            match aget "type" p with
            | some (.vstr "text") =>
                match aget "text" p with
                | none => Except.ok ""
                | some (.vstr t) => Except.ok t
                | some _ => Except.error ()
            | _ => Except.ok (jdumps part)
        | _ => Except.ok (pyStr part))
      Except.ok (String.intercalate "\n" texts)
  | some (.vstr s) => Except.ok s
  | some .vnull => Except.ok ""
  | none => Except.ok ""
  | some v => Except.ok (jdumps v)

/-- `convert_openai_content_to_anthropic` (content_converter.py). -/
def convert_openai_content_to_anthropic
    (jdumps pyStr : Value → String)
    (reImg : String → Option (String × String)) :
    List Value → Except Unit (List Value)
  | [] => Except.ok []
  | item :: rest => do
      let tail ← convert_openai_content_to_anthropic jdumps pyStr reImg rest
      match item with
      | .vdict d =>
          match aget "type" d with
          | some (.vstr "text") =>
              Except.ok (Value.vdict
                [("type", .vstr "text"),
                 ("text", (aget "text" d).getD (.vstr ""))] :: tail)
          | some (.vstr "tool_result") => do
              let rc ← toolResultInner jdumps pyStr (aget "content" d)
              let blk := [("type", Value.vstr "tool_result"),
                ("tool_use_id", (aget "tool_use_id" d).getD (.vstr "")),
                ("content", Value.vstr rc)]
              let blk := match aget "status" d with
                | some v => blk ++ [("status", v)]
                | none => blk
              let blk := match aget "is_error" d with
                | some v => blk ++ [("is_error", v)]
                | none => blk
              Except.ok (Value.vdict blk :: tail)
          | some (.vstr "tool_use") =>
              let base := [("type", Value.vstr "tool_use"),
                ("id", (aget "id" d).getD (.vstr "")),
                ("name", (aget "name" d).getD (.vstr "")),
                ("input", (aget "input" d).getD (.vdict []))]
              let extra := d.filter (fun kv =>
                !(kv.1 = "type" || kv.1 = "id" || kv.1 = "name" ||
                  kv.1 = "input"))
              Except.ok (Value.vdict (base ++ extra) :: tail)
          | some (.vstr "image_url") => do
              let url ← match aget "image_url" d with
                | some (.vdict iu) =>
                    match aget "url" iu with
                    | none => Except.ok ""
                    | some (.vstr u) => Except.ok u
                    | some _ => Except.error ()
                | some (.vstr u) => Except.ok u
                | some _ => Except.error ()
                | none =>
                    -- `item.get("image_url", {})` defaults to `{}`
                    Except.ok ""
              if url.startsWith "data:image" then
                match reImg url with
                | some (mt, b64) =>
                    Except.ok (Value.vdict
                      [("type", .vstr "image"),
                       ("source", .vdict
                         [("type", .vstr "base64"),
                          ("media_type", .vstr ("image/" ++ mt)),
                          ("data", .vstr b64)])] :: tail)
                | none => Except.ok tail
              else
                Except.ok (Value.vdict
                  [("type", .vstr "image"),
                   ("source", .vdict
                     [("type", .vstr "url"), ("url", .vstr url)])] :: tail)
          | _ => Except.ok tail
      | _ => Except.error ()

/-- `convert_openai_tool_calls_to_anthropic` (tool_converter.py); a
JSONDecodeError is caught (input falls back to `{}`), any other raise
(non-dict entries, non-string arguments) propagates. -/
def convert_openai_tool_calls_to_anthropic
    (jloads : String → Except Unit Value) :
    List Value → Except Unit (List Value)
  | [] => Except.ok []
  | tc :: rest => do
      let tail ← convert_openai_tool_calls_to_anthropic jloads rest
      match tc with
      | .vdict d => do
          let fn ← match aget "function" d with
            | some (.vdict f) => Except.ok f
            | none => Except.ok []
            | some _ => Except.error ()
          let argsStr ← match aget "arguments" fn with
            | some (.vstr s) => Except.ok s
            | none => Except.ok "\x7b\x7d"
            | some _ => Except.error ()
          let parsed := match jloads argsStr with
            | .ok v => v
            | .error _ => Value.vdict []
          Except.ok (Value.vdict
            [("type", .vstr "tool_use"),
             ("id", (aget "id" d).getD (.vstr "")),
             ("name", (aget "name" fn).getD (.vstr "")),
             ("input", parsed)] :: tail)
      | _ => Except.error ()

/-- `convert_openai_function_call_to_anthropic` (tool_converter.py);
here `json.loads` is not wrapped in try, so a decode failure raises. -/
def convert_openai_function_call_to_anthropic
    (jloads : String → Except Unit Value) (pyStr : Value → String)
    (fc : Value) : Except Unit (List Value) := do
  match fc with
  | .vdict d => do
      let nameV := (aget "name" d).getD (.vstr "")
      let nameStr := match nameV with
        | .vstr s => s
        | v => pyStr v
      let argsStr ← match aget "arguments" d with
        | some (.vstr s) => Except.ok s
        | none => Except.ok "\x7b\x7d"
        | some _ => Except.error ()
      let parsed ← jloads argsStr
      Except.ok [Value.vdict
        [("type", .vstr "tool_use"),
         ("id", .vstr ("func_" ++ nameStr)),
         ("name", nameV),
         ("input", parsed)]]
  | _ => Except.error ()

/-- The role value of a message, when it is a string. -/
def roleStr (m : Dict) : Option String :=
  match aget "role" m with
  | some (.vstr s) => some s
  | _ => none

/-- `.get("role") in {"user", "tool", "function"}`. -/
def isUserish (m : Dict) : Bool :=
  match roleStr m with
  | some s => s = "user" || s = "tool" || s = "function"
  | none => false

/-- System-list items loop of the extraction phase. -/
def sysItemsBlocks : List Value → Except Unit (List Value)
  | [] => Except.ok []
  | item :: rest => do
      let tail ← sysItemsBlocks rest
      match item with
      | .vdict d =>
          match aget "type" d with
          | some (.vstr "text") =>
              let blk := [("type", Value.vstr "text"),
                ("text", (aget "text" d).getD (.vstr ""))]
              let blk := if hasKey "cache_control" d then
                  blk ++ [("cache_control", (aget "cache_control" d).getD .vnull)]
                else blk
              Except.ok (Value.vdict blk :: tail)
          | _ => Except.ok tail
      | _ => Except.error ()

/-- The system-message extraction loop of
`convert_openai_messages_to_anthropic`: system text blocks and the
remaining non-system messages, in order. -/
def systemBlocksOf : List Dict → Except Unit (List Value × List Dict)
  | [] => Except.ok ([], [])
  | m :: rest => do
      let (blks, nonSys) ← systemBlocksOf rest
      match aget "role" m with
      | some (.vstr "system") =>
          match aget "content" m with
          | some (.vstr s) =>
              let blk := [("type", Value.vstr "text"), ("text", Value.vstr s)]
              let blk := if hasKey "cache_control" m then
                  blk ++ [("cache_control", (aget "cache_control" m).getD .vnull)]
                else blk
              Except.ok (Value.vdict blk :: blks, nonSys)
          | some (.vlist items) => do
              let newBlks ← sysItemsBlocks items
              Except.ok (newBlks ++ blks, nonSys)
          | _ => Except.ok (blks, nonSys)
      | _ => Except.ok (blks, m :: nonSys)

/-- The body of the inner user/tool/function merge loop: the content
blocks one message contributes. -/
def userMsgBlocks (jdumps pyStr : Value → String)
    (reImg : String → Option (String × String)) (m : Dict) :
    Except Unit (List Value) :=
  match roleStr m with
  | some "user" =>
      match aget "content" m with
      | some (.vstr s) =>
          Except.ok (if s ≠ "" then
            [Value.vdict [("type", .vstr "text"), ("text", .vstr s)]] else [])
      | some (.vlist l) => convert_openai_content_to_anthropic jdumps pyStr reImg l
      | _ => Except.ok []
  | some "tool" =>
      let tuid := (aget "tool_call_id" m).getD (.vstr "")
      let rc := match aget "content" m with
        | some (.vstr s) => s
        | some v => jdumps v
        | none => jdumps .vnull
      Except.ok [Value.vdict
        [("type", .vstr "tool_result"), ("tool_use_id", tuid),
         ("content", .vstr rc)]]
  | some "function" =>
      let nameV := (aget "name" m).getD (.vstr "")
      let nameStr := match nameV with
        | .vstr s => s
        | v => pyStr v
      let rc := match aget "content" m with
        | some (.vstr s) => s
        | some v => jdumps v
        | none => jdumps .vnull
      Except.ok [Value.vdict
        [("type", .vstr "tool_result"),
         ("tool_use_id", .vstr ("func_" ++ nameStr)),
         ("content", .vstr rc)]]
  | _ => Except.ok []

/-- The inner `while … role in user_message_types` loop. -/
def takeUserRun (jdumps pyStr : Value → String)
    (reImg : String → Option (String × String)) :
    List Dict → Except Unit (List Value × List Dict)
  | [] => Except.ok ([], [])
  | m :: rest =>
      if isUserish m then do
        let blks ← userMsgBlocks jdumps pyStr reImg m
        let (tailBlks, rem) ← takeUserRun jdumps pyStr reImg rest
        Except.ok (blks ++ tailBlks, rem)
      else Except.ok ([], m :: rest)

/-- The content blocks one assistant message contributes. -/
def asstMsgBlocks (jloads : String → Except Unit Value)
    (pyStr : Value → String) (m : Dict) : Except Unit (List Value) := do
  let base : List Value := match aget "content" m with
    | some (.vstr s) =>
        if s ≠ "" then [Value.vdict [("type", .vstr "text"), ("text", .vstr s)]]
        else []
    | some (.vlist l) => l
    | _ => []
  let base2 ← match aget "tool_calls" m with
    | some tcv =>
        if Value.truthy tcv then
          match tcv with
          | .vlist tcs => do
              let blks ← convert_openai_tool_calls_to_anthropic jloads tcs
              Except.ok (base ++ blks)
          | _ => Except.error ()
        else Except.ok base
    | none => Except.ok base
  match aget "function_call" m with
  | some fcv =>
      if Value.truthy fcv then do
        let blks ← convert_openai_function_call_to_anthropic jloads pyStr fcv
        Except.ok (base2 ++ blks)
      else Except.ok base2
  | none => Except.ok base2

/-- The inner `while … role == "assistant"` loop. -/
def takeAsstRun (jloads : String → Except Unit Value) (pyStr : Value → String) :
    List Dict → Except Unit (List Value × List Dict)
  | [] => Except.ok ([], [])
  | m :: rest =>
      if roleStr m = some "assistant" then do
        let blks ← asstMsgBlocks jloads pyStr m
        let (tailBlks, rem) ← takeAsstRun jloads pyStr rest
        Except.ok (blks ++ tailBlks, rem)
      else Except.ok ([], m :: rest)

/-- The outer merge loop, fuelled: each productive iteration consumes at
least one message, so `length + 1` fuel only runs out on inputs where the
Python loop spins forever (a head message with an unrecognised role). -/
def mergeLoopF (jloads : String → Except Unit Value)
    (jdumps pyStr : Value → String)
    (reImg : String → Option (String × String)) :
    ℕ → List Dict → Except Unit (List Dict)
  | _, [] => Except.ok []
  | 0, _ :: _ => Except.error ()
  | fuel + 1, msgs => do
      let (uc, rest1) ← takeUserRun jdumps pyStr reImg msgs
      let (ac, rest2) ← takeAsstRun jloads pyStr rest1
      let tail ← mergeLoopF jloads jdumps pyStr reImg fuel rest2
      let userPart : List Dict := match uc with
        | [] => []
        | _ => [[("role", Value.vstr "user"), ("content", Value.vlist uc)]]
      let asstPart : List Dict := match ac with
        | [] => []
        | _ => [[("role", Value.vstr "assistant"), ("content", Value.vlist ac)]]
      Except.ok (userPart ++ asstPart ++ tail)

/-- `if anthropic_messages and anthropic_messages[0]["role"] != "user"`:
prepend the placeholder user turn. -/
def ensureFirstUser (msgs : List Dict) : Except Unit (List Dict) :=
  match msgs with
  | [] => Except.ok []
  | m :: _ =>
      match aget "role" m with
      | none => Except.error ()
      | some (.vstr "user") => Except.ok msgs
      | some _ =>
          Except.ok (([("role", Value.vstr "user"),
            ("content", Value.vlist [Value.vdict
              [("type", .vstr "text"), ("text", .vstr ".")]])] : Dict) :: msgs)

/-- The trailing-whitespace strip applied to one content block of the
final assistant message. -/
def stripBlock (b : Value) : Except Unit Value :=
  match b with
  | .vdict d =>
      match aget "type" d with
      | some (.vstr "text") =>
          match aget "text" d with
          | none => Except.ok (Value.vdict d)
          | some (.vstr t) =>
              if t ≠ pyRstrip t then
                Except.ok (Value.vdict (aset "text" (.vstr (pyRstrip t)) d))
              else Except.ok (Value.vdict d)
          | some _ => Except.error ()
      | _ => Except.ok (Value.vdict d)
  | v => Except.ok v

/-- The final trailing-whitespace pass over the last assistant message. -/
def stripFinalAssistant (msgs : List Dict) : Except Unit (List Dict) :=
  match msgs.getLast? with
  | none => Except.ok msgs
  | some last =>
      match aget "role" last with
      | none => Except.error ()
      | some (.vstr "assistant") => do
          let content ← match aget "content" last with
            | none => Except.error ()
            | some v => Except.ok v
          match content with
          | .vlist blks => do
              let blks2 ← blks.mapM stripBlock
              Except.ok (msgs.dropLast ++ [aset "content" (.vlist blks2) last])
          | .vstr _ => Except.ok msgs
          | .vdict _ => Except.ok msgs
          | _ => Except.error ()
      | some _ => Except.ok msgs

/-- `convert_openai_messages_to_anthropic` (message_converter.py). -/
def convert_openai_messages_to_anthropic
    (jloads : String → Except Unit Value) (jdumps pyStr : Value → String)
    (reImg : String → Option (String × String))
    (openai_messages : List Dict) :
    Except Unit (List Dict × Option (List Value)) := do
  let (sysBlks, nonSys) ← systemBlocksOf openai_messages
  let merged ← mergeLoopF jloads jdumps pyStr reImg (nonSys.length + 1) nonSys
  let merged2 ← ensureFirstUser merged
  let merged3 ← stripFinalAssistant merged2
  Except.ok (merged3, match sysBlks with | [] => none | _ => some sysBlks)

/--
Claim C2 (code_bug): `convert_openai_messages_to_anthropic` violates its
own documented postcondition that no two adjacent returned messages share
a role.  On the input user "a" / assistant "" / user "b" the assistant
message contributes no content blocks, so its merged message is skipped
(`if assistant_content:`) and the two surrounding user turns are emitted
adjacently without being merged: the output is exactly
[user ["a"], user ["b"]] (with no system blocks), whose role list is
[user, user].  The first-turn-user and trailing-whitespace postconditions
hold on this run; alternation does not, for every choice of the
`json`/`str`/regex parameters (none is consulted on this path).
-/
theorem message_alternation_bug :
    ∀ (jloads : String → Except Unit Value) (jdumps pyStr : Value → String)
      (reImg : String → Option (String × String)),
      convert_openai_messages_to_anthropic jloads jdumps pyStr reImg
          [[("role", Value.vstr "user"), ("content", Value.vstr "a")],
           [("role", Value.vstr "assistant"), ("content", Value.vstr "")],
           [("role", Value.vstr "user"), ("content", Value.vstr "b")]] =
        Except.ok
          ([[("role", Value.vstr "user"),
             ("content", Value.vlist [Value.vdict
               [("type", Value.vstr "text"), ("text", Value.vstr "a")]])],
            [("role", Value.vstr "user"),
             ("content", Value.vlist [Value.vdict
               [("type", Value.vstr "text"), ("text", Value.vstr "b")]])]],
           none) ∧
      (match convert_openai_messages_to_anthropic jloads jdumps pyStr reImg
          [[("role", Value.vstr "user"), ("content", Value.vstr "a")],
           [("role", Value.vstr "assistant"), ("content", Value.vstr "")],
           [("role", Value.vstr "user"), ("content", Value.vstr "b")]] with
        | .ok (msgs, _) => msgs.map roleStr
        | .error _ => []) = [some "user", some "user"] := by
  intro jloads jdumps pyStr reImg
  exact ⟨rfl, rfl⟩

/-! ## Token storage (`src/utils/storage.py`)

The token file is modelled by its observable state: absent, present but
failing `json.loads`/`read_text` (both caught in `load_tokens`), or
parsed to a JSON value.  `now` stands for `int(time.time())`.  A parsed
non-dict value follows CPython: the `in` containment test works on
strings (substring) and lists (membership) but the subsequent
`data["token_type"] = …` assignment — or `tokens.get(…)` later — raises,
modelled as `Except.error`. -/

inductive FileState where
  | missing
  | badJson
  | parsed (v : Value)

/-- `TokenStorage.load_tokens`. -/
def load_tokens : FileState → Except Unit (Option Value)
  | .missing => .ok none
  | .badJson => .ok none
  | .parsed v =>
      match v with
      | .vdict d =>
          if hasKey "token_type" d then .ok (some (.vdict d))
          else .ok (some (.vdict (aset "token_type" (.vstr "oauth_flow") d)))
      | .vstr s =>
          if decide (List.IsInfix (chars "token_type") (chars s)) then
            .ok (some (.vstr s))
          else .error ()
      | .vlist l =>
          if l.any (fun x => match x with
            | .vstr t => t = "token_type"
            | _ => false) then .ok (some (.vlist l))
          else .error ()
      | _ => .error ()

/-- `TokenStorage.is_token_expired`: `int(time.time()) >= expires_at - 5`
(Python `bool` is an `int`, so a boolean `expires_at` still computes). -/
def is_token_expired (fs : FileState) (now : ℤ) : Except Unit Bool := do
  let t ← load_tokens fs
  match t with
  | none => .ok true
  | some v =>
      if Value.truthy v = false then .ok true
      else
        match v with
        | .vdict d =>
            match (aget "expires_at" d).getD (.vint 0) with
            | .vint n => .ok (decide (now ≥ n - 5))
            | .vfloat q => .ok (decide ((now : ℚ) ≥ q - 5))
            | .vbool b => .ok (decide (now ≥ (if b then 1 else 0) - 5))
            | _ => .error ()
        | _ => .error ()

/-- `TokenStorage.get_access_token`. -/
def get_access_token (fs : FileState) (now : ℤ) :
    Except Unit (Option Value) := do
  let t ← load_tokens fs
  match t with
  | none => .ok none
  | some v =>
      if Value.truthy v = false then .ok none
      else do
        let exp ← is_token_expired fs now
        if exp then .ok none
        else
          match v with
          | .vdict d => .ok (aget "access_token" d)
          | _ => .error ()

theorem aset_ne_nil (k : String) (v : Value) (l : Dict) : aset k v l ≠ [] := by
  cases l with
  | nil => simp [aset]
  | cons p t =>
      obtain ⟨a, b⟩ := p
      by_cases h : a = k <;> simp [aset, h]

theorem loaded_dict_truthy (fs : FileState) (d : Dict)
    (h : load_tokens fs = .ok (some (.vdict d))) :
    Value.truthy (.vdict d) = true := by
  cases fs with
  | missing => cases h
  | badJson => cases h
  | parsed v =>
      cases v with
      | vdict d0 =>
          by_cases htk : hasKey "token_type" d0
          · rw [show load_tokens (.parsed (.vdict d0)) =
                .ok (some (.vdict d0)) from by simp [load_tokens, htk]] at h
            injection h with h
            injection h with h
            injection h with h
            subst h
            cases d0 with
            | nil => simp [hasKey, aget] at htk
            | cons p t => simp [Value.truthy]
          · rw [show load_tokens (.parsed (.vdict d0)) =
                .ok (some (.vdict (aset "token_type" (.vstr "oauth_flow") d0)))
                from by simp [load_tokens, htk]] at h
            injection h with h
            injection h with h
            injection h with h
            subst h
            rcases hd : aset "token_type" (.vstr "oauth_flow") d0 with _ | ⟨p, t⟩
            · exact absurd hd (aset_ne_nil _ _ _)
            · simp [Value.truthy]
      | vstr s =>
          simp only [load_tokens] at h
          split at h <;> simp at h
      | vlist l =>
          simp only [load_tokens] at h
          split at h <;> simp at h
      | vnull => cases h
      | vbool b => cases h
      | vint n => cases h
      | vfloat q => cases h

theorem ite_dict (fs : FileState) (now : ℤ) (d : Dict)
    (hload : load_tokens fs = .ok (some (.vdict d))) :
    is_token_expired fs now =
      match (aget "expires_at" d).getD (.vint 0) with
      | .vint n => .ok (decide (now ≥ n - 5))
      | .vfloat q => .ok (decide ((now : ℚ) ≥ q - 5))
      | .vbool b => .ok (decide (now ≥ (if b then 1 else 0) - 5))
      | _ => .error () := by
  unfold is_token_expired
  rw [hload]
  simp [bind, Except.bind, loaded_dict_truthy fs d hload]

theorem gat_dict (fs : FileState) (now : ℤ) (d : Dict)
    (hload : load_tokens fs = .ok (some (.vdict d))) :
    get_access_token fs now =
      match is_token_expired fs now with
      | .ok true => .ok none
      | .ok false => .ok (aget "access_token" d)
      | .error e => .error e := by
  unfold get_access_token
  rw [hload]
  simp only [bind, Except.bind, loaded_dict_truthy fs d hload]
  cases hexp : is_token_expired fs now with
  | error e => simp
  | ok b => cases b <;> simp

theorem load_parsed_shape (v : Value) :
    load_tokens (.parsed v) = .error () ∨
    (∃ d : Dict, load_tokens (.parsed v) = .ok (some (.vdict d))) ∨
    (load_tokens (.parsed v) = .ok (some v) ∧ ∀ d : Dict, v ≠ .vdict d) := by
  cases v with
  | vdict d0 =>
      refine Or.inr (Or.inl ?_)
      by_cases htk : hasKey "token_type" d0
      · exact ⟨d0, by simp [load_tokens, htk]⟩
      · exact ⟨aset "token_type" (.vstr "oauth_flow") d0,
          by simp [load_tokens, htk]⟩
  | vstr s =>
      by_cases hs : decide (List.IsInfix (chars "token_type") (chars s)) = true
      · exact Or.inr (Or.inr ⟨by simp [load_tokens, hs], fun d => by simp⟩)
      · exact Or.inl (by simp [load_tokens, hs])
  | vlist l =>
      by_cases hs : l.any (fun x => match x with
          | .vstr t => t = "token_type"
          | _ => false) = true
      · exact Or.inr (Or.inr ⟨by simp [load_tokens, hs], fun d => by simp⟩)
      · exact Or.inl (by simp [load_tokens, hs])
  | vnull => exact Or.inl rfl
  | vbool b => exact Or.inl rfl
  | vint n => exact Or.inl rfl
  | vfloat q => exact Or.inl rfl

/--
Claim C10 (confirmed): `get_access_token` never hands out an expired
token.  If it returns a token then the expiry check passed, the loaded
bundle is a dict holding that token, and for an integer `expires_at` the
current time is strictly below `expires_at - 5`; a missing or unparsable
token file yields absent (not a raise), and whenever the loaded bundle is
reported expired the function yields absent as well.
-/
theorem get_access_token_never_expired (fs : FileState) (now : ℤ) :
    (∀ tok : Value, get_access_token fs now = .ok (some tok) →
      is_token_expired fs now = .ok false ∧
      ∃ d : Dict, load_tokens fs = .ok (some (.vdict d)) ∧
        aget "access_token" d = some tok ∧
        ∀ n : ℤ, aget "expires_at" d = some (.vint n) → now < n - 5) ∧
    get_access_token .missing now = .ok none ∧
    get_access_token .badJson now = .ok none ∧
    (∀ d : Dict, load_tokens fs = .ok (some (.vdict d)) →
      is_token_expired fs now = .ok true →
      get_access_token fs now = .ok none) := by
  refine ⟨?_, rfl, rfl, ?_⟩
  · intro tok h
    cases fs with
    | missing => simp [get_access_token, load_tokens, bind, Except.bind] at h
    | badJson => simp [get_access_token, load_tokens, bind, Except.bind] at h
    | parsed v =>
        rcases load_parsed_shape v with hl | ⟨d, hl⟩ | ⟨hl, hnd⟩
        · rw [show get_access_token (.parsed v) now = .error () from by
            unfold get_access_token; rw [hl]; rfl] at h
          cases h
        · rw [gat_dict _ now d hl] at h
          cases hexp : is_token_expired (.parsed v) now with
          | error e => rw [hexp] at h; cases h
          | ok b =>
              cases b with
              | true => rw [hexp] at h; simp at h
              | false =>
                  rw [hexp] at h
                  refine ⟨rfl, d, hl, ?_, ?_⟩
                  · injection h
                  · intro n hn
                    have hch := ite_dict _ now d hl
                    rw [hn, hexp] at hch
                    simp at hch
                    omega
        · unfold get_access_token at h
          rw [hl] at h
          simp only [bind, Except.bind] at h
          by_cases htr : Value.truthy v = false
          · rw [if_pos htr] at h
            simp at h
          · rw [if_neg htr] at h
            have hexp : is_token_expired (.parsed v) now = .error () ∨
                is_token_expired (.parsed v) now = .ok true := by
              unfold is_token_expired
              rw [hl]
              simp only [bind, Except.bind]
              rw [if_neg htr]
              cases v with
              | vdict d => exact absurd rfl (hnd d)
              | vnull => exact Or.inl rfl
              | vbool b => exact Or.inl rfl
              | vint n => exact Or.inl rfl
              | vfloat q => exact Or.inl rfl
              | vstr s => exact Or.inl rfl
              | vlist l => exact Or.inl rfl
            rcases hexp with hexp | hexp <;> rw [hexp] at h <;>
              simp [bind, Except.bind] at h
  · intro d hload hexp
    rw [gat_dict fs now d hload, hexp]

/--
Claim C10 witness: the theorem applied at a live bundle (expires 1000,
now 200: the token is produced and the expiry bound is strict) and at an
expired bundle (expires 100, now 200: absent is returned).
-/
theorem get_access_token_never_expired_witness :
    (is_token_expired (.parsed (.vdict
        [("token_type", Value.vstr "oauth_flow"),
         ("access_token", Value.vstr "tok"),
         ("expires_at", Value.vint 1000)])) 200 = .ok false ∧
      ∃ d : Dict,
        load_tokens (.parsed (.vdict
          [("token_type", Value.vstr "oauth_flow"),
           ("access_token", Value.vstr "tok"),
           ("expires_at", Value.vint 1000)])) = .ok (some (.vdict d)) ∧
        aget "access_token" d = some (Value.vstr "tok") ∧
        ∀ n : ℤ, aget "expires_at" d = some (.vint n) → (200 : ℤ) < n - 5) ∧
    get_access_token (.parsed (.vdict
        [("token_type", Value.vstr "oauth_flow"),
         ("access_token", Value.vstr "tok"),
         ("expires_at", Value.vint 100)])) 200 = .ok none :=
  ⟨(get_access_token_never_expired (.parsed (.vdict
      [("token_type", Value.vstr "oauth_flow"),
       ("access_token", Value.vstr "tok"),
       ("expires_at", Value.vint 1000)])) 200).1 (Value.vstr "tok") (by rfl),
   (get_access_token_never_expired (.parsed (.vdict
      [("token_type", Value.vstr "oauth_flow"),
       ("access_token", Value.vstr "tok"),
       ("expires_at", Value.vint 100)])) 200).2.2.2
      [("token_type", Value.vstr "oauth_flow"),
       ("access_token", Value.vstr "tok"),
       ("expires_at", Value.vint 100)] (by rfl) (by rfl)⟩

/-! ## OpenAI → Anthropic request conversion
(`src/openai_compat/request_converter.py`, `src/openai_compat/thinking_utils.py`,
`src/models/reasoning.py`, and `prepare_anthropic_request` of
`src/proxy/handlers/request_handler.py`)

`src/models` mixes two generations of the code base: the
`resolve_model_metadata` in `src/models/resolution.py` returns
`(codex_id, reasoning_effort, text_verbosity)` and reads a `codex_id`
attribute that the registry entries built by `src/models/registry.py` and
`src/models/specifications.py` do not have, while the caller in
`request_converter.py` destructures `(base_model, model_reasoning_level,
use_1m_context)`.  The resolver this program needs is therefore absent
from the source tree and is modelled from the spec below. -/

/-- `REASONING_BUDGET_MAP` (src/models/reasoning.py). -/
def REASONING_BUDGET_MAP : List (String × ℕ) :=
  [("low", 8000), ("medium", 16000), ("high", 32000)]

def slookup (k : String) : List (String × α) → Option α
  | [] => none
  | (k', v) :: t => if k' = k then some v else slookup k t

/-- Modelled from the spec: the registry rows for the `sonnet-4-5` family
of S1/S2 — the short alias and the backend id itself, each with the
`-reasoning-{low|medium|high}` variants emitted per §4.D.1, all mapping to
backend `claude-sonnet-4-5-20250929` with no 1M context. -/
def MODEL_REGISTRY : List (String × String × Option String × Bool) :=
  [("sonnet-4-5", ("claude-sonnet-4-5-20250929", none, false)),
   ("sonnet-4-5-reasoning-low",
     ("claude-sonnet-4-5-20250929", some "low", false)),
   ("sonnet-4-5-reasoning-medium",
     ("claude-sonnet-4-5-20250929", some "medium", false)),
   ("sonnet-4-5-reasoning-high",
     ("claude-sonnet-4-5-20250929", some "high", false)),
   ("claude-sonnet-4-5-20250929",
     ("claude-sonnet-4-5-20250929", none, false)),
   ("claude-sonnet-4-5-20250929-reasoning-low",
     ("claude-sonnet-4-5-20250929", some "low", false)),
   ("claude-sonnet-4-5-20250929-reasoning-medium",
     ("claude-sonnet-4-5-20250929", some "medium", false)),
   ("claude-sonnet-4-5-20250929-reasoning-high",
     ("claude-sonnet-4-5-20250929", some "high", false))]

/-- The characters after the first `/`. -/
def afterFirstSlash : List Char → List Char
  | [] => []
  | c :: t => if c = '/' then t else afterFirstSlash t

/-- `s.rsplit(sep, 1)`: split around the last occurrence of `sep`. -/
def lastSplit (sep s : List Char) : Option (List Char × List Char) :=
  match (List.range (s.length + 1)).reverse.find?
      (fun i => decide ((s.drop i).take sep.length = sep)) with
  | some i => some (s.take i, s.drop (i + sep.length))
  | none => none

/-- Modelled from the spec: §4.D `Resolve(name) → (backend_id,
reasoning_level?, use_1m_context)` — strip a leading `provider/` handle,
look up the exact id, then try the `-reasoning-{level}` suffix rule
against `REASONING_EFFORT_LEVELS = {low, medium, high}`, else return the
input name with neutral defaults (§8.4: resolution is total, unknown
names resolve to themselves). -/
def resolve_model_metadata (model_name : String) : String × Option String × Bool :=
  let cs := chars model_name
  let cs := if cs.contains '/' then afterFirstSlash cs else cs
  let nm := String.mk cs
  match slookup nm MODEL_REGISTRY with
  | some e => e
  | none =>
      match lastSplit (chars "-reasoning-") cs with
      | some (base, lvl) =>
          let lvlS := String.mk lvl
          if lvlS = "low" ∨ lvlS = "medium" ∨ lvlS = "high" then
            match slookup (String.mk base) MODEL_REGISTRY with
            | some (backend, _, m1) => (backend, some lvlS, m1)
            | none => (nm, none, false)
          else (nm, none, false)
      | none => (nm, none, false)

/-- `_last_assistant_starts_with_thinking` (thinking_utils.py), walking
the reversed message list. -/
def _last_assistant_starts_with_thinking (msgs : List Value) :
    Except Unit Bool :=
  go msgs.reverse
where
  go : List Value → Except Unit Bool
    | [] => .ok false
    | m :: t =>
        match m with
        | .vdict d =>
            if roleStr d = some "assistant" then
              match aget "content" d with
              | some (.vlist (first :: _)) =>
                  match first with
                  | .vdict fd =>
                      match aget "type" fd with
                      | some (.vstr "thinking") => .ok true
                      | some (.vstr "redacted_thinking") => .ok true
                      | _ => .ok false
                  | _ => .ok false
              | _ => .ok false
            else go t
        | _ => .error ()

/-- `_last_assistant_has_tool_use` (thinking_utils.py). -/
def _last_assistant_has_tool_use (msgs : List Value) : Except Unit Bool :=
  go msgs.reverse
where
  go : List Value → Except Unit Bool
    | [] => .ok false
    | m :: t =>
        match m with
        | .vdict d =>
            if roleStr d = some "assistant" then
              match aget "content" d with
              | some (.vlist blks) =>
                  .ok (blks.any (fun b =>
                    match b with
                    | .vdict bd =>
                        match aget "type" bd with
                        | some (.vstr "tool_use") => true
                        | _ => false
                    | _ => false))
              | _ => .ok false
            else go t
        | _ => .error ()

/-- `convert_openai_tools_to_anthropic` (tool_converter.py); the items
are `List[Dict]` per the source annotation, a non-dict entry raises. -/
def convert_openai_tools_to_anthropic (tools : Value) :
    Except Unit (Option (List Value)) :=
  if Value.truthy tools = false then .ok none
  else
    match tools with
    | .vlist l => do
        let rows ← go l
        match rows with
        | [] => .ok none
        | _ => .ok (some rows)
    | _ => .error ()
where
  go : List Value → Except Unit (List Value)
    | [] => .ok []
    | t :: rest => do
        let tail ← go rest
        match t with
        | .vdict d =>
            if hasKey "name" d && hasKey "description" d && !hasKey "type" d then
              .ok (Value.vdict d :: tail)
            else
              match aget "type" d with
              | some (.vstr "function") => do
                  let fn ← match aget "function" d with
                    | some (.vdict f) => .ok f
                    | none => .ok ([] : Dict)
                    | some _ => .error ()
                  .ok (Value.vdict
                    [("name", (aget "name" fn).getD (.vstr "")),
                     ("description", (aget "description" fn).getD (.vstr "")),
                     ("input_schema", (aget "parameters" fn).getD (.vdict []))]
                    :: tail)
              | _ => .ok tail
        | _ => .error ()

/-- `convert_openai_functions_to_anthropic` (tool_converter.py). -/
def convert_openai_functions_to_anthropic (fns : Value) :
    Except Unit (Option (List Value)) :=
  if Value.truthy fns = false then .ok none
  else
    match fns with
    | .vlist l => do
        let rows ← go l
        match rows with
        | [] => .ok none
        | _ => .ok (some rows)
    | _ => .error ()
where
  go : List Value → Except Unit (List Value)
    | [] => .ok []
    | f :: rest => do
        let tail ← go rest
        match f with
        | .vdict d =>
            .ok (Value.vdict
              [("name", (aget "name" d).getD (.vstr "")),
               ("description", (aget "description" d).getD (.vstr "")),
               ("input_schema", (aget "parameters" d).getD (.vdict []))]
              :: tail)
        | _ => .error ()

/-- The index (in order) of the last assistant message. -/
def lastAsstIdx : List Value → Except Unit (Option ℕ)
  | [] => .ok none
  | m :: t => do
      let rest ← lastAsstIdx t
      match rest with
      | some i => .ok (some (i + 1))
      | none =>
          match m with
          | .vdict d =>
              if roleStr d = some "assistant" then .ok (some 0) else .ok none
          | _ => .error ()

/-- The `tool_use` ids of a content-block list
(`[b.get("id") for b in content if … b.get("type") == "tool_use" and
b.get("id")]`). -/
def toolUseIds (blks : List Value) : List Value :=
  blks.filterMap (fun b =>
    match b with
    | .vdict bd =>
        match aget "type" bd with
        | some (.vstr "tool_use") =>
            match aget "id" bd with
            | some idv => if Value.truthy idv then some idv else none
            | none => none
        | _ => none
    | _ => none)

/-- The cache-probing loop of `_maybe_prepend_signed_thinking_for_tools`:
each `THINKING_CACHE.get` threads the (expiry-shrinking) cache state; the
stored blocks are string-keyed, so a non-string `tool_use` id misses. -/
def probeCache (cnow : ℚ) : List Value → TCData → Option Value × TCData
  | [], c => (none, c)
  | tid :: rest, c =>
      let key := match tid with
        | .vstr s => some s
        | _ => none
      match key with
      | none => probeCache cnow rest c
      | some s =>
          match tc_get cnow s c with
          | (none, c2) => probeCache cnow rest c2
          | (some blk, c2) =>
              match blk with
              | .vdict bd =>
                  match aget "signature" bd with
                  | some (.vstr sig) =>
                      if hasNonWs sig then (some blk, c2)
                      else probeCache cnow rest c2
                  | _ => probeCache cnow rest c2
              | _ => probeCache cnow rest c2

/-- `_maybe_prepend_signed_thinking_for_tools` (request_converter.py). -/
def maybe_prepend_signed_thinking (r : Dict) (cache : TCData) (cnow : ℚ) :
    Except Unit (Dict × TCData) := do
  let msgsV := (aget "messages" r).getD .vnull
  if Value.truthy msgsV = false then .ok (r, cache)
  else
    match msgsV with
    | .vlist msgs => do
        let li ← lastAsstIdx msgs
        match li with
        | none => .ok (r, cache)
        | some i => do
            let lastMsg ← match msgs[i]? with
              | some (.vdict d) => .ok d
              | _ => .error ()
            match aget "content" lastMsg with
            | some (.vlist (first :: more)) =>
                let startsThinking := match first with
                  | .vdict fd =>
                      match aget "type" fd with
                      | some (.vstr "thinking") => true
                      | some (.vstr "redacted_thinking") => true
                      | _ => false
                  | _ => false
                if startsThinking then .ok (r, cache)
                else
                  let tids := toolUseIds (first :: more)
                  match tids with
                  | [] => .ok (r, cache)
                  | _ =>
                      match probeCache cnow tids cache with
                      | (none, c2) => .ok (r, c2)
                      | (some blk, c2) =>
                          let newMsg := aset "content"
                            (.vlist (blk :: first :: more)) lastMsg
                          .ok (aset "messages"
                            (.vlist (msgs.set i (.vdict newMsg))) r, c2)
            | _ => .ok (r, cache)
    | _ => .error ()

/-- The `messages` payload handed to the message converter
(`openai_request.get("messages", [])`, items `List[Dict]`). -/
def getMsgDicts : Option Value → Except Unit (List Dict)
  | none => .ok []
  | some (.vlist l) =>
      l.mapM (fun v =>
        match v with
        | .vdict d => Except.ok d
        | _ => Except.error ())
  | some _ => .error ()

/-- `convert_openai_request_to_anthropic` (request_converter.py),
threading the thinking-cache state consulted by
`_maybe_prepend_signed_thinking_for_tools` (`cnow` is `time.time()`). -/
def convert_openai_request_to_anthropic
    (jloads : String → Except Unit Value) (jdumps pyStr : Value → String)
    (reImg : String → Option (String × String))
    (cache : TCData) (cnow : ℚ) (openai_request : Dict) :
    Except Unit (Dict × TCData) := do
  let msgsIn ← getMsgDicts (aget "messages" openai_request)
  let (messages, system_blocks) ←
    convert_openai_messages_to_anthropic jloads jdumps pyStr reImg msgsIn
  let model_name ← match aget "model" openai_request with
    | none => Except.ok "claude-sonnet-4-5-20250929"
    | some (.vstr s) => Except.ok s
    | some _ => Except.error ()
  let rmeta := resolve_model_metadata model_name
  let base_model := rmeta.1
  let model_reasoning_level := rmeta.2.1
  let use_1m_context := rmeta.2.2
  let ar : Dict :=
    [("model", Value.vstr base_model),
     ("messages", Value.vlist (messages.map Value.vdict)),
     ("max_tokens", (aget "max_tokens" openai_request).getD (.vint 4096)),
     ("stream", (aget "stream" openai_request).getD (.vbool false))]
  let ar := if use_1m_context then aset "_use_1m_context" (.vbool true) ar else ar
  let ar := match system_blocks with
    | some blks => aset "system" (.vlist blks) ar
    | none => ar
  let ar := match aget "temperature" openai_request with
    | some v => aset "temperature" v ar
    | none => ar
  let ar := match aget "top_p" openai_request with
    | some v => aset "top_p" v ar
    | none => ar
  let ar := match aget "stop" openai_request with
    | some (.vstr s) => aset "stop_sequences" (.vlist [.vstr s]) ar
    | some (.vlist l) => aset "stop_sequences" (.vlist l) ar
    | _ => ar
  let ar ← match aget "tools" openai_request with
    | some tv =>
        if Value.truthy tv then do
          let tls ← convert_openai_tools_to_anthropic tv
          match tls with
          | some l => Except.ok (aset "tools" (.vlist l) ar)
          | none => Except.ok ar
        else Except.ok ar
    | none => Except.ok ar
  let ar ← match aget "functions" openai_request with
    | some fv =>
        if Value.truthy fv then do
          let tls ← convert_openai_functions_to_anthropic fv
          match tls with
          | some l => Except.ok (aset "tools" (.vlist l) ar)
          | none => Except.ok ar
        else Except.ok ar
    | none => Except.ok ar
  let ar ← match aget "tool_choice" openai_request with
    | none => Except.ok ar
    | some (.vstr "none") => Except.ok (adel "tools" ar)
    | some (.vstr "auto") => Except.ok ar
    | some (.vdict d) =>
        (match aget "type" d with
          | some (.vstr "auto") => Except.ok ar
          | none => Except.ok ar
          | some .vnull => Except.ok ar
          | some (.vstr "function") => do
              let fn ← match aget "function" d with
                | some (.vdict f) => Except.ok (aget "name" f)
                | none => Except.ok (none : Option Value)
                | some _ => Except.error ()
              match fn with
              | some v =>
                  if Value.truthy v then
                    Except.ok (aset "tool_choice"
                      (.vdict [("type", .vstr "tool"), ("name", v)]) ar)
                  else Except.ok ar
              | none => Except.ok ar
          | some _ => Except.ok ar)
    | some _ => Except.ok ar
  let ar ← match aget "function_call" openai_request with
    | none => Except.ok ar
    | some (.vstr "none") => Except.ok (adel "tools" ar)
    | some (.vstr "auto") => Except.ok ar
    | some (.vdict d) =>
        (match aget "name" d with
          | some v =>
              if Value.truthy v then
                Except.ok (aset "tool_choice"
                  (.vdict [("type", .vstr "tool"), ("name", v)]) ar)
              else Except.ok ar
          | none => Except.ok ar)
    | some _ => Except.ok ar
  let pr ← maybe_prepend_signed_thinking ar cache cnow
  let ar := pr.1
  let cache2 := pr.2
  let reasoning_level : Option Value :=
    match aget "reasoning_effort" openai_request with
    | some v =>
        if Value.truthy v then some v
        else (match model_reasoning_level with
          | some s => some (.vstr s)
          | none => none)
    | none =>
        (match model_reasoning_level with
          | some s => some (.vstr s)
          | none => none)
  match reasoning_level with
  | none => Except.ok (ar, cache2)
  | some rl =>
      if Value.truthy rl = false then Except.ok (ar, cache2)
      else
        match rl with
        | .vlist _ => Except.error ()
        | .vdict _ => Except.error ()
        | .vstr lv =>
            (match slookup lv REASONING_BUDGET_MAP with
              | none => Except.ok (ar, cache2)
              | some thinking_budget => do
                  let required_total : ℤ := (thinking_budget : ℤ) + 1024
                  let mt ← match aget "max_tokens" ar with
                    | some v => Except.ok v
                    | none => Except.error ()
                  let ar ← match mt.asNum with
                    | some q =>
                        if q < (required_total : ℚ) then
                          Except.ok (aset "max_tokens" (.vint required_total) ar)
                        else Except.ok ar
                    | none => Except.error ()
                  let msgsV := (aget "messages" ar).getD .vnull
                  let hasTools ←
                    if Value.truthy msgsV then
                      match msgsV with
                      | .vlist ms => _last_assistant_has_tool_use ms
                      | _ => Except.error ()
                    else Except.ok false
                  let hasThinking ←
                    if Value.truthy msgsV then
                      match msgsV with
                      | .vlist ms => _last_assistant_starts_with_thinking ms
                      | _ => Except.error ()
                    else Except.ok false
                  if hasTools && !hasThinking then Except.ok (ar, cache2)
                  else
                    Except.ok (aset "thinking"
                      (.vdict [("type", .vstr "enabled"),
                        ("budget_tokens", .vint (thinking_budget : ℤ))]) ar,
                      cache2))
        | _ => Except.ok (ar, cache2)

/-- `prepare_anthropic_request` (request_handler.py) on the OpenAI path
(`is_native_anthropic = False`): convert, bump `max_tokens` for enabled
thinking, sanitize, inject the spoof system message, add prompt caching. -/
def prepare_anthropic_request
    (jloads : String → Except Unit Value) (jdumps pyStr : Value → String)
    (reImg : String → Option (String × String))
    (cache : TCData) (cnow : ℚ) (openai_request : Dict) :
    Except Unit (Dict × TCData) := do
  let pr ← convert_openai_request_to_anthropic jloads jdumps pyStr reImg
    cache cnow openai_request
  let ar := pr.1
  let cache2 := pr.2
  let thinkingV := (aget "thinking" ar).getD .vnull
  let ar ←
    if Value.truthy thinkingV then
      match thinkingV with
      | .vdict td =>
          (match aget "type" td with
            | some (.vstr "enabled") => do
                let required ← match (aget "budget_tokens" td).getD (.vint 16000) with
                  | .vint n => Except.ok (Value.vint (n + 1024))
                  | .vbool b => Except.ok (Value.vint ((if b then 1 else 0) + 1024))
                  | .vfloat q => Except.ok (Value.vfloat (q + 1024))
                  | _ => Except.error ()
                let mt ← match aget "max_tokens" ar with
                  | some v => Except.ok v
                  | none => Except.error ()
                (match mt.asNum, required.asNum with
                  | some q, some rq =>
                      if q < rq then
                        Except.ok (aset "max_tokens" required ar)
                      else Except.ok ar
                  | _, _ => Except.error ())
            | _ => Except.ok ar)
      | _ => Except.error ()
    else Except.ok ar
  let ar ← sanitize_anthropic_request ar
  let ar := inject_claude_code_system_message ar
  let ar ← add_prompt_caching ar
  Except.ok (ar, cache2)

set_option maxHeartbeats 4000000 in
/--
Claim C7 (corrected): for the S2 request (model
"sonnet-4-5-reasoning-high", max_tokens 1000, one user message) the
prepared outbound request has model claude-sonnet-4-5-20250929,
thinking enabled with budget_tokens 32000, max_tokens 33024 and no
top_k — but no temperature field at all: the sanitizer forces
temperature to 1.0 only when the inbound request supplies one, which the
second conjunct proves for every inbound float temperature.  The
`resolve_model_metadata` consulted here is modelled from the spec, since
`src/models/resolution.py` belongs to another generation of the code
base and cannot run against the registry in `src/models/registry.py`.
-/
theorem s2_reasoning_request_shape :
    ∀ (jloads : String → Except Unit Value) (jdumps pyStr : Value → String)
      (reImg : String → Option (String × String)),
      ((prepare_anthropic_request jloads jdumps pyStr reImg [] 0
          [("model", .vstr "sonnet-4-5-reasoning-high"),
           ("max_tokens", .vint 1000),
           ("messages", .vlist [.vdict [("role", .vstr "user"),
             ("content", .vstr "ping")]])]).toOption.map
        (fun p => (aget "model" p.1, aget "thinking" p.1,
          aget "max_tokens" p.1, aget "top_k" p.1, aget "temperature" p.1,
          p.2)) =
        some (some (.vstr "claude-sonnet-4-5-20250929"),
          some (.vdict [("type", .vstr "enabled"),
            ("budget_tokens", .vint 32000)]),
          some (.vint 33024), none, none, [])) ∧
      ∀ q : ℚ,
        ((prepare_anthropic_request jloads jdumps pyStr reImg [] 0
            [("model", .vstr "sonnet-4-5-reasoning-high"),
             ("max_tokens", .vint 1000),
             ("messages", .vlist [.vdict [("role", .vstr "user"),
               ("content", .vstr "ping")]]),
             ("temperature", .vfloat q)]).toOption.map
          (fun p => (aget "model" p.1, aget "thinking" p.1,
            aget "max_tokens" p.1, aget "top_k" p.1,
            (aget "temperature" p.1).map (fun tv => Value.numEq tv 1),
            p.2)) =
          some (some (.vstr "claude-sonnet-4-5-20250929"),
            some (.vdict [("type", .vstr "enabled"),
              ("budget_tokens", .vint 32000)]),
            some (.vint 33024), none, some true, [])) := by
  intro jloads jdumps pyStr reImg
  constructor
  · rfl
  · intro q
    by_cases hq : q = 1
    · subst hq
      rfl
    · have hb : (q == (1 : ℚ)) = false := beq_eq_false_iff_ne.mpr hq
      have hft : force_temperature
          [("model", Value.vstr "claude-sonnet-4-5-20250929"),
           ("messages", Value.vlist [.vdict [("role", .vstr "user"),
             ("content", .vlist [.vdict [("type", .vstr "text"),
               ("text", .vstr "ping")]])]]),
           ("max_tokens", Value.vint 33024),
           ("stream", Value.vbool false),
           ("temperature", Value.vfloat q),
           ("thinking", Value.vdict [("type", .vstr "enabled"),
             ("budget_tokens", .vint 32000)])] =
          [("model", Value.vstr "claude-sonnet-4-5-20250929"),
           ("messages", Value.vlist [.vdict [("role", .vstr "user"),
             ("content", .vlist [.vdict [("type", .vstr "text"),
               ("text", .vstr "ping")]])]]),
           ("max_tokens", Value.vint 33024),
           ("stream", Value.vbool false),
           ("temperature", Value.vfloat 1),
           ("thinking", Value.vdict [("type", .vstr "enabled"),
             ("budget_tokens", .vint 32000)])] := by
        show (if !(Value.vfloat q).isNull && !((Value.vfloat q).numEq 1)
            then aset "temperature" (Value.vfloat 1)
              [("model", Value.vstr "claude-sonnet-4-5-20250929"),
               ("messages", Value.vlist [.vdict [("role", .vstr "user"),
                 ("content", .vlist [.vdict [("type", .vstr "text"),
                   ("text", .vstr "ping")]])]]),
               ("max_tokens", Value.vint 33024),
               ("stream", Value.vbool false),
               ("temperature", Value.vfloat q),
               ("thinking", Value.vdict [("type", .vstr "enabled"),
                 ("budget_tokens", .vint 32000)])]
            else
              [("model", Value.vstr "claude-sonnet-4-5-20250929"),
               ("messages", Value.vlist [.vdict [("role", .vstr "user"),
                 ("content", .vlist [.vdict [("type", .vstr "text"),
                   ("text", .vstr "ping")]])]]),
               ("max_tokens", Value.vint 33024),
               ("stream", Value.vbool false),
               ("temperature", Value.vfloat q),
               ("thinking", Value.vdict [("type", .vstr "enabled"),
                 ("budget_tokens", .vint 32000)])]) = _
        rw [show (Value.vfloat q).numEq 1 = (q == (1 : ℚ)) from rfl, hb]
        rfl
      have hsan : sanitize_anthropic_request
          [("model", Value.vstr "claude-sonnet-4-5-20250929"),
           ("messages", Value.vlist [.vdict [("role", .vstr "user"),
             ("content", .vlist [.vdict [("type", .vstr "text"),
               ("text", .vstr "ping")]])]]),
           ("max_tokens", Value.vint 33024),
           ("stream", Value.vbool false),
           ("temperature", Value.vfloat q),
           ("thinking", Value.vdict [("type", .vstr "enabled"),
             ("budget_tokens", .vint 32000)])] =
          .ok [("model", Value.vstr "claude-sonnet-4-5-20250929"),
           ("messages", Value.vlist [.vdict [("role", .vstr "user"),
             ("content", .vlist [.vdict [("type", .vstr "text"),
               ("text", .vstr "ping")]])]]),
           ("max_tokens", Value.vint 33024),
           ("stream", Value.vbool false),
           ("temperature", Value.vfloat 1),
           ("thinking", Value.vdict [("type", .vstr "enabled"),
             ("budget_tokens", .vint 32000)])] := by
        show apply_thinking_constraints
          [("model", Value.vstr "claude-sonnet-4-5-20250929"),
           ("messages", Value.vlist [.vdict [("role", .vstr "user"),
             ("content", .vlist [.vdict [("type", .vstr "text"),
               ("text", .vstr "ping")]])]]),
           ("max_tokens", Value.vint 33024),
           ("stream", Value.vbool false),
           ("temperature", Value.vfloat q),
           ("thinking", Value.vdict [("type", .vstr "enabled"),
             ("budget_tokens", .vint 32000)])] = _
        unfold apply_thinking_constraints
        rw [hft]
        rfl
      rw [show prepare_anthropic_request jloads jdumps pyStr reImg [] 0
          [("model", .vstr "sonnet-4-5-reasoning-high"),
           ("max_tokens", .vint 1000),
           ("messages", .vlist [.vdict [("role", .vstr "user"),
             ("content", .vstr "ping")]]),
           ("temperature", .vfloat q)] =
        Except.bind (sanitize_anthropic_request
            [("model", .vstr "claude-sonnet-4-5-20250929"),
             ("messages", .vlist [.vdict [("role", .vstr "user"),
               ("content", .vlist [.vdict [("type", .vstr "text"),
                 ("text", .vstr "ping")]])]]),
             ("max_tokens", .vint 33024),
             ("stream", .vbool false),
             ("temperature", .vfloat q),
             ("thinking", .vdict [("type", .vstr "enabled"),
               ("budget_tokens", .vint 32000)])])
          (fun ar => Except.bind
            (add_prompt_caching (inject_claude_code_system_message ar))
            (fun ar2 => Except.ok (ar2, ([] : TCData)))) from rfl]
      rw [hsan]
      rfl

set_option maxHeartbeats 4000000 in
/--
Claim C7 counterexample: on the exact S2 request the prepared outbound
request carries no temperature field at all — `temperature = 1.0` is
forced by the sanitizer only when the inbound request supplies a
temperature, so the claimed unconditional `temperature = 1.0` fails.
-/
theorem s2_reasoning_request_shape_cex :
    ((prepare_anthropic_request (fun _ => .error ()) (fun _ => "")
        (fun _ => "") (fun _ => none) [] 0
        [("model", .vstr "sonnet-4-5-reasoning-high"),
         ("max_tokens", .vint 1000),
         ("messages", .vlist [.vdict [("role", .vstr "user"),
           ("content", .vstr "ping")]])]).toOption.map
      (fun p => aget "temperature" p.1)) = some none := rfl
